import Mathlib

/-! File vault: content-addressed storage and the blob ledger.

A shallow embedding of the Go packages `internal/storage` (`Service.WriteAndHash`),
`internal/repo` (`InsertBlob`, `IncBlobRef`, `CreateFile`, `DeleteFileAndMaybeBlob`)
and `internal/httpext` (`handleUpload`).

Modelling conventions

* A byte is a natural number below 256; a byte stream is delivered by its reader as a
  sequence of chunks, possibly ended by a read error.
* `crypto/sha256` and `encoding/hex` are library code; they are embedded as executable
  functions (`sha256`, `hexEncodeToString`) following FIPS 180-4.
* A path is the sequence of its components below the file-system root; `filepath.Join`
  of a directory with plain names appends the names.  Only regular files are tracked;
  an operating-system failure of a call is an input of the model (`FsFaults`).
* The database is a pair of tables.  Every SQL statement executes atomically; a failure
  of a statement (connection loss, a constraint of the schema) is an input of the model
  and leaves the tables unchanged.
* The table declarations are not among the sources: the statements take the constraints
  they depend on as a parameter (`Schema`), and `Schema.declared` is the tables as the
  specification describes them.
* Calls served at the same time are interleavings: of the system calls and statements of
  uploads of one content (`interleave`), of the statements of uploads and deletions
  (`Ledger.reach`).
-/

namespace FileVault

/-! ## crypto/sha256 and encoding/hex -/

abbrev Byte := Nat

/-- Round constants of SHA-256. -/
def sha256K : List Nat :=
  [1116352408, 1899447441, 3049323471, 3921009573, 961987163, 1508970993, 2453635748, 2870763221,
   3624381080, 310598401, 607225278, 1426881987, 1925078388, 2162078206, 2614888103, 3248222580,
   3835390401, 4022224774, 264347078, 604807628, 770255983, 1249150122, 1555081692, 1996064986,
   2554220882, 2821834349, 2952996808, 3210313671, 3336571891, 3584528711, 113926993, 338241895,
   666307205, 773529912, 1294757372, 1396182291, 1695183700, 1986661051, 2177026350, 2456956037,
   2730485921, 2820302411, 3259730800, 3345764771, 3516065817, 3600352804, 4094571909, 275423344,
   430227734, 506948616, 659060556, 883997877, 958139571, 1322822218, 1537002063, 1747873779,
   1955562222, 2024104815, 2227730452, 2361852424, 2428436474, 2756734187, 3204031479, 3329325298]

/-- Initial hash value of SHA-256. -/
def sha256Init : List Nat :=
  [1779033703, 3144134277, 1013904242, 2773480762, 1359893119, 2600822924, 528734635, 1541459225]

def w32 (x : Nat) : Nat := x % 4294967296

def rotr (n x : Nat) : Nat := w32 ((x >>> n) ||| (x <<< (32 - n)))

def bigSigma0 (x : Nat) : Nat := rotr 2 x ^^^ rotr 13 x ^^^ rotr 22 x
def bigSigma1 (x : Nat) : Nat := rotr 6 x ^^^ rotr 11 x ^^^ rotr 25 x
def smallSigma0 (x : Nat) : Nat := rotr 7 x ^^^ rotr 18 x ^^^ (x >>> 3)
def smallSigma1 (x : Nat) : Nat := rotr 17 x ^^^ rotr 19 x ^^^ (x >>> 10)
def shaCh (x y z : Nat) : Nat := (x &&& y) ^^^ ((x ^^^ 4294967295) &&& z)
def shaMaj (x y z : Nat) : Nat := (x &&& y) ^^^ (x &&& z) ^^^ (y &&& z)

/-- Message padding: a one bit, zero bits up to 56 mod 64 bytes, the bit length on 64 bits. -/
def sha256Pad (msg : List Byte) : List Byte :=
  let len := msg.length
  let zeros := (64 - (len + 9) % 64) % 64
  let bits := (len * 8) % 18446744073709551616
  msg.map (fun b => b % 256) ++ [128] ++ List.replicate zeros 0 ++
    [bits >>> 56 % 256, bits >>> 48 % 256, bits >>> 40 % 256, bits >>> 32 % 256,
     bits >>> 24 % 256, bits >>> 16 % 256, bits >>> 8 % 256, bits % 256]

/-- The first `n` groups of `k` consecutive elements. -/
def groupsOf (k : Nat) : Nat → List Nat → List (List Nat)
  | 0, _ => []
  | n + 1, l => l.take k :: groupsOf k n (l.drop k)

def beWord (bs : List Byte) : Nat := bs.foldl (fun acc b => acc * 256 + b) 0

/-- Message schedule, most recent word first; `ws` holds at least 16 words. -/
def sha256Extend : Nat → List Nat → List Nat
  | 0, ws => ws
  | n + 1, ws =>
    let w := w32 (smallSigma1 (ws.getD 1 0) + ws.getD 6 0 + smallSigma0 (ws.getD 14 0) + ws.getD 15 0)
    sha256Extend n (w :: ws)

structure ShaState where
  a : Nat
  b : Nat
  c : Nat
  d : Nat
  e : Nat
  f : Nat
  g : Nat
  h : Nat

def ShaState.ofList (l : List Nat) : ShaState :=
  ⟨l.getD 0 0, l.getD 1 0, l.getD 2 0, l.getD 3 0, l.getD 4 0, l.getD 5 0, l.getD 6 0, l.getD 7 0⟩

def ShaState.toList (s : ShaState) : List Nat := [s.a, s.b, s.c, s.d, s.e, s.f, s.g, s.h]

def sha256Round (s : ShaState) (kw : Nat × Nat) : ShaState :=
  let t1 := w32 (s.h + bigSigma1 s.e + shaCh s.e s.f s.g + kw.1 + kw.2)
  let t2 := w32 (bigSigma0 s.a + shaMaj s.a s.b s.c)
  ⟨w32 (t1 + t2), s.a, s.b, s.c, w32 (s.d + t1), s.e, s.f, s.g⟩

/-- Compression of one 64-byte block into the chaining value. -/
def sha256Block (hv : ShaState) (block : List Byte) : ShaState :=
  let w16 := (groupsOf 4 16 block).map beWord
  let ws := (sha256Extend 48 w16.reverse).reverse
  let r := (sha256K.zip ws).foldl sha256Round hv
  ⟨w32 (hv.a + r.a), w32 (hv.b + r.b), w32 (hv.c + r.c), w32 (hv.d + r.d),
   w32 (hv.e + r.e), w32 (hv.f + r.f), w32 (hv.g + r.g), w32 (hv.h + r.h)⟩

def wordBytes (w : Nat) : List Byte := [w >>> 24 % 256, w >>> 16 % 256, w >>> 8 % 256, w % 256]

/-- The SHA-256 digest (32 bytes) of a byte sequence: `sha256.Sum256`. -/
def sha256 (msg : List Byte) : List Byte :=
  let p := sha256Pad msg
  let final := (groupsOf 64 (p.length / 64) p).foldl sha256Block (ShaState.ofList sha256Init)
  wordBytes final.a ++ wordBytes final.b ++ wordBytes final.c ++ wordBytes final.d ++
    wordBytes final.e ++ wordBytes final.f ++ wordBytes final.g ++ wordBytes final.h

def hexDigit (n : Nat) : Char := "0123456789abcdef".data.getD n '0'

/-- Lowercase hexadecimal encoding, two characters per byte: `hex.EncodeToString`. -/
def hexEncodeToString (bs : List Byte) : String :=
  String.mk (bs.flatMap (fun b => [hexDigit (b / 16 % 16), hexDigit (b % 16)]))

/-- The digest string of a byte sequence as `WriteAndHash` forms it:
`hex.EncodeToString(hasher.Sum(nil))`. -/
def sumHex (bs : List Byte) : String := hexEncodeToString (sha256 bs)

/-! ## The file system and `storage.Service` -/

abbrev Path := List String

/-- Regular files of the file system, by path. -/
abbrev FS := Path → Option (List Byte)

def FS.empty : FS := fun _ => none

def FS.write (fs : FS) (p : Path) (c : List Byte) : FS := fun q => if q = p then some c else fs q

def FS.remove (fs : FS) (p : Path) : FS := fun q => if q = p then none else fs q

/-- The `io.Reader` handed to `WriteAndHash`: the chunks its successive `Read` calls deliver
and whether the stream then ends with an error instead of `io.EOF`. -/
structure Reader where
  chunks : List (List Byte)
  fails : Bool
deriving DecidableEq, Repr

/-- The bytes of the stream, in order. -/
def Reader.bytes (r : Reader) : List Byte := r.chunks.flatten

/-- What the operating system does to the calls of one `WriteAndHash`. -/
structure FsFaults where
  /-- the random part `os.CreateTemp` puts in place of the `*` of `upload-*` -/
  tmpName : String
  /-- `os.CreateTemp` fails -/
  createTemp : Bool
  /-- index of the chunk whose write to the temporary file fails, if any -/
  writeFailAt : Option Nat
  /-- `os.MkdirAll` fails -/
  mkdirAll : Bool
  /-- `os.Rename` fails -/
  rename : Bool
deriving DecidableEq, Repr

inductive StorageError
  | createTemp
  | read
  | write
  | mkdirAll
  | rename
deriving DecidableEq, Repr

/-- State of `io.Copy(io.MultiWriter(hasher, tmpFile), r)`: the bytes the hasher has absorbed,
the bytes in the temporary file and the running count `written` (an `int64`; a stream stays
far below `2^63` bytes, so the count is an unbounded integer here). -/
structure CopyState where
  hashed : List Byte
  file : List Byte
  written : Int
deriving DecidableEq, Repr

/-- The loop of `io.Copy`: every non-empty chunk read is written once to the hasher and then
to the temporary file, and its length is added to `written`; a failed write or a read error
ends the loop with that error. -/
def ioCopy (failAt : Option Nat) (readFails : Bool) :
    List (List Byte) → Nat → CopyState → CopyState × Option StorageError
  | [], _, st => (st, if readFails then some StorageError.read else none)
  | c :: cs, i, st =>
    if c = [] then ioCopy failAt readFails cs (i + 1) st
    else if failAt = some i then
      ({ st with hashed := st.hashed ++ c }, some StorageError.write)
    else
      ioCopy failAt readFails cs (i + 1)
        { hashed := st.hashed ++ c, file := st.file ++ c, written := st.written + c.length }

structure Service where
  RootDir : Path
deriving DecidableEq, Repr

/-- The successful return values of `WriteAndHash`: hex hash, path and byte count. -/
structure Written where
  sum : String
  finalPath : Path
  written : Int
deriving DecidableEq, Repr

/-- Path of the temporary file `os.CreateTemp(s.RootDir, "upload-*")` creates. -/
def tmpPath (s : Service) (env : FsFaults) : Path := s.RootDir ++ ["upload-" ++ env.tmpName]

/-- The Go slice `sum[i:j]` of a string. -/
def goSlice (str : String) (i j : Nat) : String := String.mk ((str.data.drop i).take (j - i))

/-- `Service.WriteAndHash`: the file system after the call and the returned values, when the
deferred `os.Remove` of the temporary file succeeds; `WriteAndHashWithRemove` below is the
function with a removal that can fail. -/
def WriteAndHash (s : Service) (env : FsFaults) (r : Reader) (fs : FS) :
    FS × Except StorageError Written :=
  let tmp := tmpPath s env
  if env.createTemp || (fs tmp).isSome then (fs, .error StorageError.createTemp)
  else
    let copied := ioCopy env.writeFailAt r.fails r.chunks 0 ⟨[], [], 0⟩
    let fs1 := fs.write tmp copied.1.file
    match copied.2 with
    | some e => (fs1.remove tmp, .error e)
    | none =>
      let sum := hexEncodeToString (sha256 copied.1.hashed)
      let shard := s.RootDir ++ [goSlice sum 0 2, goSlice sum 2 4]
      if env.mkdirAll then (fs1.remove tmp, .error StorageError.mkdirAll)
      else
        let finalPath := shard ++ [sum]
        if (fs1 finalPath).isSome then
          (fs1.remove tmp, .ok ⟨sum, finalPath, copied.1.written⟩)
        else if env.rename then (fs1.remove tmp, .error StorageError.rename)
        else
          (((fs1.remove tmp).write finalPath copied.1.file).remove tmp,
            .ok ⟨sum, finalPath, copied.1.written⟩)

/-- The deferred `os.Remove(tmpFile.Name())` of `WriteAndHash`.  Its error is discarded
(`_ = os.Remove(...)`): when the call fails the file stays and nothing else happens. -/
def deferredRemove (removeFails : Bool) (tmp : Path) (fs : FS) : FS :=
  if removeFails then fs else fs.remove tmp

/-- `Service.WriteAndHash` with the deferred `os.Remove` as a call that can fail like the
other calls (`removeFails`); the deferred function runs on every return after `os.CreateTemp`
succeeded. -/
def WriteAndHashWithRemove (s : Service) (env : FsFaults) (removeFails : Bool) (r : Reader)
    (fs : FS) : FS × Except StorageError Written :=
  let tmp := tmpPath s env
  if env.createTemp || (fs tmp).isSome then (fs, .error StorageError.createTemp)
  else
    let copied := ioCopy env.writeFailAt r.fails r.chunks 0 ⟨[], [], 0⟩
    let fs1 := fs.write tmp copied.1.file
    match copied.2 with
    | some e => (deferredRemove removeFails tmp fs1, .error e)
    | none =>
      let sum := hexEncodeToString (sha256 copied.1.hashed)
      let shard := s.RootDir ++ [goSlice sum 0 2, goSlice sum 2 4]
      if env.mkdirAll then (deferredRemove removeFails tmp fs1, .error StorageError.mkdirAll)
      else
        let finalPath := shard ++ [sum]
        if (fs1 finalPath).isSome then
          (deferredRemove removeFails tmp fs1, .ok ⟨sum, finalPath, copied.1.written⟩)
        else if env.rename then
          (deferredRemove removeFails tmp fs1, .error StorageError.rename)
        else
          (deferredRemove removeFails tmp ((fs1.remove tmp).write finalPath copied.1.file),
            .ok ⟨sum, finalPath, copied.1.written⟩)

/-! ## The ledger: `repo.Repository` -/

/-- The table declarations (`migrations/*.sql`) are not among the sources; the two
constraints the behaviour of the statements below depends on are parameters.  That
`blobs.hash` is unique follows from `ON CONFLICT (hash)`; `files.id` is taken to be the
primary key the database generates. -/
structure Schema where
  /-- `blobs.ref_count` carries `CHECK (ref_count >= 0)` -/
  refCountCheck : Bool
  /-- `files.blob_hash` carries `REFERENCES blobs(hash)` -/
  blobForeignKey : Bool
deriving DecidableEq, Repr

structure Blob where
  Hash : String
  SizeBytes : Int
  MIMEType : Option String
  StoragePath : Path
  RefCount : Int
  CreatedAt : Nat
deriving DecidableEq, Repr

structure File where
  ID : String
  OwnerID : String
  BlobHash : String
  Filename : String
  SizeBytes : Int
  MIMEType : Option String
  IsPublic : Bool
  Tags : List String
  CreatedAt : Nat
deriving DecidableEq, Repr

/-- The tables `blobs` and `files`. -/
structure DB where
  blobs : List Blob
  files : List File
deriving DecidableEq, Repr

def DB.empty : DB := ⟨[], []⟩

inductive DbError
  /-- the statement did not execute (connection loss, time-out, a constraint of a table
  outside the model) -/
  | failed
  | checkViolation
  | foreignKeyViolation
  | uniqueViolation
  /-- `pgx.ErrNoRows` -/
  | noRows
deriving DecidableEq, Repr

/-- What the database contributes to one statement: whether it fails, and the values of the
column defaults (`now()`, the generated id). -/
structure Stmt where
  fails : Bool
  now : Nat
  newID : String
deriving DecidableEq, Repr

/-- The row of `hash` in `blobs`, if any: `GetBlob`. -/
def GetBlob (hash : String) (db : DB) : Option Blob := db.blobs.find? (fun b => b.Hash = hash)

/-- Number of rows of `files` whose `blob_hash` is `hash`. -/
def fileRefs (hash : String) (db : DB) : Nat := db.files.countP (fun f => f.BlobHash = hash)

/-- `InsertBlob`: `INSERT INTO blobs ... ON CONFLICT (hash) DO NOTHING`. -/
def InsertBlob (sch : Schema) (st : Stmt) (b : Blob) (db : DB) : DB × Option DbError :=
  if st.fails then (db, some DbError.failed)
  else if sch.refCountCheck && decide (b.RefCount < 0) then (db, some DbError.checkViolation)
  else if db.blobs.any (fun x => x.Hash = b.Hash) then (db, none)
  else ({ db with blobs := db.blobs ++ [{ b with CreatedAt := st.now }] }, none)

/-- The statement `UPDATE blobs SET ref_count = ref_count + delta WHERE hash = $1`. -/
def updateRefCount (sch : Schema) (st : Stmt) (hash : String) (delta : Int) (db : DB) :
    DB × Option DbError :=
  if st.fails then (db, some DbError.failed)
  else if sch.refCountCheck &&
      db.blobs.any (fun x => decide (x.Hash = hash) && decide (x.RefCount + delta < 0)) then
    (db, some DbError.checkViolation)
  else
    let rows := db.blobs.map
      (fun x => if x.Hash = hash then { x with RefCount := x.RefCount + delta } else x)
    ({ db with blobs := rows }, none)

/-- `IncBlobRef`. -/
def IncBlobRef (sch : Schema) (st : Stmt) (hash : String) (delta : Int) (db : DB) :
    DB × Option DbError :=
  updateRefCount sch st hash delta db

/-- `CreateFile`: `INSERT INTO files ... RETURNING ...`. -/
def CreateFile (sch : Schema) (st : Stmt) (f : File) (db : DB) : DB × Except DbError File :=
  if st.fails then (db, .error DbError.failed)
  else if db.files.any (fun x => x.ID = st.newID) then (db, .error DbError.uniqueViolation)
  else if sch.blobForeignKey && !(db.blobs.any (fun x => x.Hash = f.BlobHash)) then
    (db, .error DbError.foreignKeyViolation)
  else
    let row : File := { f with ID := st.newID, CreatedAt := st.now }
    ({ db with files := db.files ++ [row] }, .ok row)

/-- `SumUserStorage`: `SELECT COALESCE(SUM(size_bytes),0) FROM files WHERE owner_id=$1`. -/
def SumUserStorage (st : Stmt) (ownerID : String) (db : DB) : Except DbError Int :=
  if st.fails then .error DbError.failed
  else .ok ((db.files.filter (fun f => f.OwnerID = ownerID)).map (fun f => f.SizeBytes)).sum

/-- What the database does to the three statements of `DeleteFileAndMaybeBlob`. -/
structure DeleteEnv where
  select : Stmt
  delete : Stmt
  update : Stmt
deriving DecidableEq, Repr

/-- `DeleteFileAndMaybeBlob`: look the blob hash up, delete the file row, decrement the
reference count; three statements, each on its own. -/
def DeleteFileAndMaybeBlob (sch : Schema) (env : DeleteEnv) (ownerID fileID : String) (db : DB) :
    DB × Option DbError :=
  if env.select.fails then (db, some DbError.failed)
  else
    match db.files.find? (fun f => decide (f.ID = fileID) && decide (f.OwnerID = ownerID)) with
    | none => (db, some DbError.noRows)
    | some row =>
      if env.delete.fails then (db, some DbError.failed)
      else
        let rest := db.files.filter
          (fun f => !(decide (f.ID = fileID) && decide (f.OwnerID = ownerID)))
        updateRefCount sch env.update row.BlobHash (-1) { db with files := rest }

/-! ## `httpext.handleUpload` -/

/-- The store: the file system under the storage root and the ledger. -/
structure World where
  fs : FS
  db : DB

def World.empty : World := ⟨FS.empty, DB.empty⟩

/-- One part of the multipart form: `multipart.FileHeader`. -/
structure FileHeader where
  Filename : String
  content : Reader
  /-- `fh.Open()` fails -/
  openFails : Bool
deriving DecidableEq, Repr

/-- What the environment does while one file of the request is processed. -/
structure FileEnv where
  fsFaults : FsFaults
  insertBlob : Stmt
  createFile : Stmt
  incBlobRef : Stmt
deriving DecidableEq, Repr

inductive UploadError
  | invalidMime
  | storage (e : StorageError)
  | db (e : DbError)
deriving DecidableEq, Repr

/-- The responses of `handleUpload`. -/
inductive Response
  | unauthorized
  | badForm
  | noFiles
  | quotaCheckFailed
  | openFile
  | uploadError (e : UploadError)
  | ok
deriving DecidableEq, Repr

def Response.status : Response → Nat
  | .unauthorized => 401
  | .quotaCheckFailed => 500
  | .ok => 200
  | _ => 400

/-- The body of the loop of `handleUpload` for one opened file: MIME check, `WriteAndHash`,
`InsertBlob` (its error ignored), `CreateFile`, `IncBlobRef` (its error ignored). -/
def uploadFile (sch : Schema) (storage : Service) (userID declaredMIME : String)
    (fh : FileHeader) (env : FileEnv) (w : World) : World × Option UploadError :=
  if declaredMIME ≠ "" ∧ ¬ declaredMIME.data.contains '/' then (w, some UploadError.invalidMime)
  else
    match WriteAndHash storage env.fsFaults fh.content w.fs with
    | (fs1, .error e) => (⟨fs1, w.db⟩, some (UploadError.storage e))
    | (fs1, .ok x) =>
      let mimePtr : Option String := if declaredMIME ≠ "" then some declaredMIME else none
      let db1 := (InsertBlob sch env.insertBlob
        ⟨x.sum, x.written, mimePtr, x.finalPath, 0, 0⟩ w.db).1
      match CreateFile sch env.createFile
          ⟨"", userID, x.sum, fh.Filename, x.written, mimePtr, false, [], 0⟩ db1 with
      | (db2, .error e) => (⟨fs1, db2⟩, some (UploadError.db e))
      | (db2, .ok _) => (⟨fs1, (IncBlobRef sch env.incBlobRef x.sum 1 db2).1⟩, none)

/-- The loop of `handleUpload` over the files of the form; the first error ends the request. -/
def uploadLoop (sch : Schema) (storage : Service) (userID declaredMIME : String) :
    List (FileHeader × FileEnv) → World → World × Response
  | [], w => (w, Response.ok)
  | (fh, env) :: rest, w =>
    if fh.openFails then (w, Response.openFile)
    else
      match uploadFile sch storage userID declaredMIME fh env w with
      | (w1, some e) => (w1, Response.uploadError e)
      | (w1, none) => uploadLoop sch storage userID declaredMIME rest w1

/-- An upload request with what the environment does while it is served. -/
structure UploadRequest where
  /-- the value of `GetUserID(r)` -/
  userID : String
  /-- `r.ParseMultipartForm` succeeds -/
  formOk : Bool
  /-- the parts `r.MultipartForm.File["files"]` -/
  files : List (FileHeader × FileEnv)
  /-- the form value `mime` -/
  declaredMIME : String
  sumUserStorage : Stmt
deriving DecidableEq, Repr

/-- `handleUpload`. -/
def handleUpload (sch : Schema) (storage : Service) (req : UploadRequest) (w : World) :
    World × Response :=
  if req.userID = "" then (w, Response.unauthorized)
  else if !req.formOk then (w, Response.badForm)
  else if req.files.length = 0 then (w, Response.noFiles)
  else
    match SumUserStorage req.sumUserStorage req.userID w.db with
    | .error _ => (w, Response.quotaCheckFailed)
    | .ok _ => uploadLoop sch storage req.userID req.declaredMIME req.files w

/-! ## Runs of the store -/

/-- The operations that change the store. -/
inductive Op
  | upload (req : UploadRequest)
  | delete (ownerID fileID : String) (env : DeleteEnv)
deriving DecidableEq, Repr

def step (sch : Schema) (storage : Service) (w : World) : Op → World
  | .upload req => (handleUpload sch storage req w).1
  | .delete ownerID fileID env => ⟨w.fs, (DeleteFileAndMaybeBlob sch env ownerID fileID w.db).1⟩

/-- The state the operations `ops` lead to from the empty store when they are served one at a
time, each run to its end before the next begins; `Ledger.reach` below has the statements of
calls that are in flight together interleaved. -/
def run (sch : Schema) (storage : Service) (ops : List Op) : World :=
  ops.foldl (step sch storage) World.empty

/-- Each blob row counts the file rows over its hash, and the count is not negative. -/
def RefCountsExact (db : DB) : Prop :=
  ∀ b ∈ db.blobs, 0 ≤ b.RefCount ∧ b.RefCount = (fileRefs b.Hash db : Int)

instance (db : DB) : Decidable (RefCountsExact db) := by
  unfold RefCountsExact; infer_instance

deriving instance DecidableEq for Except

/-- The invariant of the ledger: counts are exact, file ids are unique, and every file row
has the row of its blob. -/
def LedgerInv (db : DB) : Prop :=
  RefCountsExact db ∧ (db.files.map (fun f => f.ID)).Nodup ∧
    ∀ f ∈ db.files, ∃ b ∈ db.blobs, b.Hash = f.BlobHash

/-- The row an UPDATE of the count of `hash` by `delta` turns a row into. -/
def bump (hash : String) (delta : Int) (x : Blob) : Blob :=
  if x.Hash = hash then { x with RefCount := x.RefCount + delta } else x

/-- The database fails neither the InsertBlob nor the count UPDATE statements of the operation;
its other statements and the file-system calls may fail. -/
def Op.countsApplied : Op → Bool
  | .upload req => req.files.all (fun p => !p.2.insertBlob.fails && !p.2.incBlobRef.fails)
  | .delete _ _ env => !env.update.fails

/-! ## `repo.ListFilesFiltered`: the query text and its arguments -/

/-- A value passed to `r.Pool.Query` for a placeholder. -/
inductive SqlArg
  | text (s : String)
  | texts (l : List String)
  | int (i : Int)
  | time (t : Nat)
deriving DecidableEq, Repr

structure FileFilters where
  NameLike : Option String
  MIMETypes : List String
  SizeMin : Option Int
  SizeMax : Option Int
  DateFrom : Option Nat
  DateTo : Option Nat
  Tags : List String
deriving DecidableEq, Repr

/-- The decimal digits of `n`, least significant first; `fuel` bounds their number. -/
def decimalDigits : Nat → Nat → List Char
  | 0, _ => []
  | fuel + 1, n =>
    Char.ofNat (48 + n % 10) :: (if n / 10 = 0 then [] else decimalDigits fuel (n / 10))

/-- `itoa`: `fmt.Sprintf("%d", i)` for the non-negative `argn`. -/
def itoa (i : Nat) : String := String.mk (decimalDigits (i + 1) i).reverse

/-- The variables `where`, `args` and `argn` of `ListFilesFiltered`. -/
structure QueryBuild where
  conds : List String
  args : List SqlArg
  argn : Nat
deriving DecidableEq, Repr

/-- The block `if filters.NameLike != nil && *filters.NameLike != ""`. -/
def withNameLike (filters : FileFilters) (q : QueryBuild) : QueryBuild :=
  match filters.NameLike with
  | some s =>
    if s ≠ "" then
      ⟨q.conds ++ ["filename ILIKE $" ++ itoa q.argn],
        q.args ++ [SqlArg.text ("%" ++ s ++ "%")], q.argn + 1⟩
    else q
  | none => q

/-- The block `if len(filters.MIMETypes) > 0`. -/
def withMIMETypes (filters : FileFilters) (q : QueryBuild) : QueryBuild :=
  if filters.MIMETypes.length > 0 then
    ⟨q.conds ++ ["mime_type = ANY($" ++ itoa q.argn ++ ")"],
      q.args ++ [SqlArg.texts filters.MIMETypes], q.argn + 1⟩
  else q

/-- The block `if filters.SizeMin != nil`. -/
def withSizeMin (filters : FileFilters) (q : QueryBuild) : QueryBuild :=
  match filters.SizeMin with
  | some v =>
    ⟨q.conds ++ ["size_bytes >= $" ++ itoa q.argn], q.args ++ [SqlArg.int v], q.argn + 1⟩
  | none => q

/-- The block `if filters.SizeMax != nil`. -/
def withSizeMax (filters : FileFilters) (q : QueryBuild) : QueryBuild :=
  match filters.SizeMax with
  | some v =>
    ⟨q.conds ++ ["size_bytes <= $" ++ itoa q.argn], q.args ++ [SqlArg.int v], q.argn + 1⟩
  | none => q

/-- The block `if filters.DateFrom != nil`. -/
def withDateFrom (filters : FileFilters) (q : QueryBuild) : QueryBuild :=
  match filters.DateFrom with
  | some t =>
    ⟨q.conds ++ ["created_at >= $" ++ itoa q.argn], q.args ++ [SqlArg.time t], q.argn + 1⟩
  | none => q

/-- The block `if filters.DateTo != nil`. -/
def withDateTo (filters : FileFilters) (q : QueryBuild) : QueryBuild :=
  match filters.DateTo with
  | some t =>
    ⟨q.conds ++ ["created_at <= $" ++ itoa q.argn], q.args ++ [SqlArg.time t], q.argn + 1⟩
  | none => q

/-- The block `if len(filters.Tags) > 0`. -/
def withTags (filters : FileFilters) (q : QueryBuild) : QueryBuild :=
  if filters.Tags.length > 0 then
    ⟨q.conds ++ ["tags && $" ++ itoa q.argn], q.args ++ [SqlArg.texts filters.Tags],
      q.argn + 1⟩
  else q

/-- `ListFilesFiltered` up to its call of `r.Pool.Query`: the query text and the argument list
it passes.  The seven blocks run in the order of the source on `where`, `args`, `argn`. -/
def ListFilesFiltered (ownerID : String) (filters : FileFilters) (limit offset : Int) :
    String × List SqlArg :=
  let q0 : QueryBuild := ⟨["owner_id = $1"], [SqlArg.text ownerID], 2⟩
  let q7 := withTags filters (withDateTo filters (withDateFrom filters (withSizeMax filters
    (withSizeMin filters (withMIMETypes filters (withNameLike filters q0))))))
  ("SELECT id, owner_id, blob_hash, filename, size_bytes, mime_type, is_public, tags, created_at FROM files WHERE "
      ++ " AND ".intercalate q7.conds ++ " ORDER BY created_at DESC LIMIT $" ++ itoa q7.argn
      ++ " OFFSET $" ++ itoa (q7.argn + 1),
    q7.args ++ [SqlArg.int limit, SqlArg.int offset])

/-- The numbers of the placeholders `$k` of a text, in order of appearance; `cur` is the number
being read, if the scan is inside a placeholder. -/
def scanPlaceholders : List Char → Option Nat → List Nat
  | [], none => []
  | [], some n => [n]
  | c :: cs, none =>
    if c = '$' then scanPlaceholders cs (some 0) else scanPlaceholders cs none
  | c :: cs, some n =>
    if c.isDigit then scanPlaceholders cs (some (n * 10 + (c.toNat - 48)))
    else n :: (if c = '$' then scanPlaceholders cs (some 0) else scanPlaceholders cs none)

def placeholders (query : String) : List Nat := scanPlaceholders query.data none

/-- The conditions the filters ask for, in the order of the source: for each the text before
its placeholder, the text after it, and the value meant for it. -/
def wantedConditions (ownerID : String) (filters : FileFilters) :
    List (String × String × SqlArg) :=
  [("owner_id = ", "", SqlArg.text ownerID)] ++
  (match filters.NameLike with
    | some s => if s = "" then [] else [("filename ILIKE ", "", SqlArg.text ("%" ++ s ++ "%"))]
    | none => []) ++
  (if filters.MIMETypes = [] then []
    else [("mime_type = ANY(", ")", SqlArg.texts filters.MIMETypes)]) ++
  (match filters.SizeMin with
    | some v => [("size_bytes >= ", "", SqlArg.int v)]
    | none => []) ++
  (match filters.SizeMax with
    | some v => [("size_bytes <= ", "", SqlArg.int v)]
    | none => []) ++
  (match filters.DateFrom with
    | some t => [("created_at >= ", "", SqlArg.time t)]
    | none => []) ++
  (match filters.DateTo with
    | some t => [("created_at <= ", "", SqlArg.time t)]
    | none => []) ++
  (if filters.Tags = [] then [] else [("tags && ", "", SqlArg.texts filters.Tags)])

/-- The texts of conditions: for each the text before and the text after its placeholder. -/
def condTexts (conds : List (String × String × SqlArg)) : List (String × String) :=
  conds.map (fun c => (c.1, c.2.1))

/-- The condition texts in which the `i`-th condition carries the placeholder `$i`. -/
def numberedConds (texts : List (String × String)) : List String :=
  texts.enum.map (fun ic => ic.2.1 ++ "$" ++ itoa (ic.1 + 1) ++ ic.2.2)

/-- The text of a query whose `i`-th condition carries the placeholder `$i`, followed by the
LIMIT and OFFSET placeholders. -/
def numberedQuery (texts : List (String × String)) : String :=
  "SELECT id, owner_id, blob_hash, filename, size_bytes, mime_type, is_public, tags, created_at FROM files WHERE "
    ++ " AND ".intercalate (numberedConds texts)
    ++ " ORDER BY created_at DESC LIMIT $" ++ itoa (texts.length + 1)
    ++ " OFFSET $" ++ itoa (texts.length + 2)

/-- The builder state holds the numbered conditions `wl` with their values, and `argn` is the
next free placeholder. -/
def Built (q : QueryBuild) (wl : List (String × String × SqlArg)) : Prop :=
  q.conds = numberedConds (condTexts wl) ∧ q.args = wl.map (fun c => c.2.2) ∧
    q.argn = wl.length + 1

/-- The condition texts picked by seven flags, one per filter. -/
def flaggedTexts (b1 b2 b3 b4 b5 b6 b7 : Bool) : List (String × String) :=
  [("owner_id = ", "")] ++
  (if b1 then [("filename ILIKE ", "")] else []) ++
  (if b2 then [("mime_type = ANY(", ")")] else []) ++
  (if b3 then [("size_bytes >= ", "")] else []) ++
  (if b4 then [("size_bytes <= ", "")] else []) ++
  (if b5 then [("created_at >= ", "")] else []) ++
  (if b6 then [("created_at <= ", "")] else []) ++
  (if b7 then [("tags && ", "")] else [])

/-! ## `rate.Limiter` -/

/-- A bucket of the limiter; `float64` and `time.Time` are taken exactly, as rationals (the
time in seconds). -/
structure tokenBucket where
  tokens : ℚ
  last : ℚ
deriving DecidableEq

/-- The limiter: its rate and the map from key to bucket.  The mutex makes every `Allow` run
alone, so a call is a function of the state before it. -/
structure Limiter where
  rps : ℚ
  buckets : String → Option tokenBucket

/-- `NewLimiter`. -/
def NewLimiter (rps : Int) : Limiter := ⟨(rps : ℚ), fun _ => none⟩

/-- `Limiter.Allow`, with the value of `time.Now()` as `now`: the limiter after the call and
the returned boolean. -/
def Limiter.Allow (l : Limiter) (now : ℚ) (key : String) : Limiter × Bool :=
  let b : tokenBucket :=
    match l.buckets key with
    | some b => b
    | none => ⟨1, now⟩
  let elapsed := now - b.last
  let refilled := b.tokens + elapsed * l.rps
  let capped := if refilled > l.rps then l.rps else refilled
  if capped ≥ 1 then
    (⟨l.rps, fun k => if k = key then some ⟨capped - 1, now⟩ else l.buckets k⟩, true)
  else
    (⟨l.rps, fun k => if k = key then some ⟨capped, now⟩ else l.buckets k⟩, false)

/-- The limiter after a sequence of calls, each given by its time and its key. -/
def allowAll (l : Limiter) (calls : List (ℚ × String)) : Limiter :=
  calls.foldl (fun st c => (st.Allow c.1 c.2).1) l

/-- The count `Allow` decides on: the tokens of the bucket of `key` (a fresh bucket holds 1
token, stamped `now`) refilled for the elapsed time and capped at the rate. -/
def cappedTokens (l : Limiter) (now : ℚ) (key : String) : ℚ :=
  min (((l.buckets key).getD ⟨1, now⟩).tokens +
    (now - ((l.buckets key).getD ⟨1, now⟩).last) * l.rps) l.rps

/-! ## Uploads in flight at the same time -/

/-- Uploads of the same bytes that are in flight together; what differs between them is what
the environment gives each: the name of its temporary file, the id and time-stamp of its file
row, and the caller's user, file name and MIME pointer. -/
structure Flights where
  n : Nat
  content : List Byte
  tmpName : Nat → String
  fileID : Nat → String
  now : Nat → Nat
  userID : Nat → String
  filename : Nat → String
  mimePtr : Nat → Option String

/-- The store together with, for each upload, the number of its calls that have returned
(`pc`) and the answer its `os.Stat` gave (`existed`).  Every system call and every SQL
statement takes effect at once, so a state of the concurrent run is reached by upload `i`
making its next call. -/
structure Flight where
  fs : FS
  db : DB
  pc : Nat → Nat
  existed : Nat → Bool

def Flight.start : Flight := ⟨FS.empty, DB.empty, fun _ => 0, fun _ => false⟩

/-- The final path of the content of the flights: `shard` joined with `sum`. -/
def Flights.finalPath (storage : Service) (fl : Flights) : Path :=
  storage.RootDir ++ [goSlice (sumHex fl.content) 0 2, goSlice (sumHex fl.content) 2 4] ++
    [sumHex fl.content]

def Flights.tmp (storage : Service) (fl : Flights) (i : Nat) : Path :=
  storage.RootDir ++ ["upload-" ++ fl.tmpName i]

/-- Upload `i` makes its next call, none of which fails by itself, in the order of
`handleUpload` and `WriteAndHash`: `os.CreateTemp`, `io.Copy`, `os.MkdirAll`, `os.Stat`,
`os.Rename` (skipped when the path existed), the deferred `os.Remove`, `InsertBlob`,
`CreateFile`, `IncBlobRef`.  `pc = 9` is the upload that has answered 200, `pc = 10` the one
that has answered with an error. -/
def advance (sch : Schema) (storage : Service) (fl : Flights) (i : Nat) (st : Flight) : Flight :=
  if i < fl.n then
    match st.pc i with
    | 0 =>
      if (st.fs (fl.tmp storage i)).isSome then { st with pc := Function.update st.pc i 10 }
      else { st with fs := st.fs.write (fl.tmp storage i) [], pc := Function.update st.pc i 1 }
    | 1 =>
      { st with fs := st.fs.write (fl.tmp storage i) fl.content,
                pc := Function.update st.pc i 2 }
    | 2 => { st with pc := Function.update st.pc i 3 }
    | 3 =>
      { st with existed := Function.update st.existed i (st.fs (fl.finalPath storage)).isSome,
                pc := Function.update st.pc i 4 }
    | 4 =>
      if st.existed i then { st with pc := Function.update st.pc i 5 }
      else
        { st with
          fs := (st.fs.remove (fl.tmp storage i)).write (fl.finalPath storage)
            ((st.fs (fl.tmp storage i)).getD []),
          pc := Function.update st.pc i 5 }
    | 5 =>
      { st with fs := st.fs.remove (fl.tmp storage i), pc := Function.update st.pc i 6 }
    | 6 =>
      { st with
        db := (InsertBlob sch ⟨false, fl.now i, fl.fileID i⟩
          ⟨sumHex fl.content, fl.content.length, fl.mimePtr i, fl.finalPath storage, 0, 0⟩
          st.db).1,
        pc := Function.update st.pc i 7 }
    | 7 =>
      match CreateFile sch ⟨false, fl.now i, fl.fileID i⟩
          ⟨"", fl.userID i, sumHex fl.content, fl.filename i, fl.content.length, fl.mimePtr i,
            false, [], 0⟩ st.db with
      | (db2, .error _) => { st with db := db2, pc := Function.update st.pc i 10 }
      | (db2, .ok _) => { st with db := db2, pc := Function.update st.pc i 8 }
    | 8 =>
      { st with
        db := (IncBlobRef sch ⟨false, fl.now i, fl.fileID i⟩ (sumHex fl.content) 1 st.db).1,
        pc := Function.update st.pc i 9 }
    | _ => st
  else st

/-- The state an interleaving leads to: `schedule` lists, in order, which upload makes its
next call. -/
def interleave (sch : Schema) (storage : Service) (fl : Flights) (schedule : List Nat) : Flight :=
  schedule.foldl (fun st i => advance sch storage fl i st) Flight.start

/-- Number of uploads below `n` whose `pc` satisfies `p`. -/
def countPc (p : Nat → Bool) (pc : Nat → Nat) : Nat → Nat
  | 0 => 0
  | n + 1 => countPc p pc n + if p (pc n) then 1 else 0

/-- What the temporary file of an upload holds after `pc` of its calls. -/
def tmpContent (content : List Byte) (pc : Nat) (existed : Bool) : Option (List Byte) :=
  match pc with
  | 0 => none
  | 1 => some []
  | 2 => some content
  | 3 => some content
  | 4 => some content
  | 5 => if existed then some content else none
  | _ => none

/-- What every state of an interleaving satisfies. -/
structure FlightInv (storage : Service) (fl : Flights) (st : Flight) : Prop where
  pc_le : ∀ j < fl.n, st.pc j ≤ 9
  fs_other : ∀ p, p ≠ fl.finalPath storage → (∀ j < fl.n, p ≠ fl.tmp storage j) → st.fs p = none
  fs_final : st.fs (fl.finalPath storage) = none ∨
    st.fs (fl.finalPath storage) = some fl.content
  fs_tmp : ∀ j < fl.n, st.fs (fl.tmp storage j) = tmpContent fl.content (st.pc j) (st.existed j)
  seen : ∀ j < fl.n, st.pc j = 4 → st.existed j = true →
    st.fs (fl.finalPath storage) = some fl.content
  stored : ∀ j < fl.n, 5 ≤ st.pc j → st.fs (fl.finalPath storage) = some fl.content
  blobs : (st.db.blobs = [] ∧ ∀ j < fl.n, st.pc j ≤ 6) ∨
    ∃ m t, st.db.blobs = [⟨sumHex fl.content, fl.content.length, m, fl.finalPath storage,
      countPc (fun k => k == 9) st.pc fl.n, t⟩]
  files_len : st.db.files.length = countPc (fun k => decide (8 ≤ k)) st.pc fl.n
  files_ids : ∀ f ∈ st.db.files, ∃ j < fl.n, 8 ≤ st.pc j ∧ f.ID = fl.fileID j

/-! ## Calls on the ledger in flight at the same time -/

/-- A call that changes the ledger: the body of the loop of `handleUpload` for one file, from
the return of `WriteAndHash` with the values `x` on, or `DeleteFileAndMaybeBlob`. -/
inductive LedgerCall
  | upload (userID filename : String) (mimePtr : Option String) (x : Written)
  | delete (ownerID fileID : String)
deriving DecidableEq, Repr

/-- A call in flight: `pc` is the number of its statements that have returned (3 once the call
itself has returned), `blob` the variable `blob` of `DeleteFileAndMaybeBlob`, `err` the error
the call returned. -/
structure InFlight where
  call : LedgerCall
  pc : Nat
  blob : String
  err : Option DbError
deriving DecidableEq, Repr

/-- The next statement of the loop body of `handleUpload`, on the ledger as it is at that
moment: `InsertBlob` (its error ignored), `CreateFile` (an error ends the call), `IncBlobRef`
(its error ignored). -/
def uploadNext (sch : Schema) (st : Stmt) (userID filename : String) (mimePtr : Option String)
    (x : Written) (c : InFlight) (db : DB) : DB × InFlight :=
  match c.pc with
  | 0 =>
    ((InsertBlob sch st ⟨x.sum, x.written, mimePtr, x.finalPath, 0, 0⟩ db).1, { c with pc := 1 })
  | 1 =>
    match CreateFile sch st ⟨"", userID, x.sum, filename, x.written, mimePtr, false, [], 0⟩ db with
    | (db2, .error e) => (db2, { c with pc := 3, err := some e })
    | (db2, .ok _) => (db2, { c with pc := 2 })
  | 2 => ((IncBlobRef sch st x.sum 1 db).1, { c with pc := 3 })
  | _ => (db, c)

/-- The next statement of `DeleteFileAndMaybeBlob`, on the ledger as it is at that moment: the
lookup, which sets `blob`; the DELETE, whose count of deleted rows is not looked at; the UPDATE
of the count of `blob`. -/
def deleteNext (sch : Schema) (st : Stmt) (ownerID fileID : String) (c : InFlight) (db : DB) :
    DB × InFlight :=
  match c.pc with
  | 0 =>
    if st.fails then (db, { c with pc := 3, err := some DbError.failed })
    else
      match db.files.find? (fun f => decide (f.ID = fileID) && decide (f.OwnerID = ownerID)) with
      | none => (db, { c with pc := 3, err := some DbError.noRows })
      | some row => (db, { c with pc := 1, blob := row.BlobHash })
  | 1 =>
    if st.fails then (db, { c with pc := 3, err := some DbError.failed })
    else
      (⟨db.blobs, db.files.filter
          (fun f => !(decide (f.ID = fileID) && decide (f.OwnerID = ownerID)))⟩,
        { c with pc := 2 })
  | 2 =>
    ((updateRefCount sch st c.blob (-1) db).1,
      { c with pc := 3, err := (updateRefCount sch st c.blob (-1) db).2 })
  | _ => (db, c)

/-- The next statement of a call in flight; `st` is what the database contributes to it. -/
def InFlight.next (sch : Schema) (st : Stmt) (c : InFlight) (db : DB) : DB × InFlight :=
  match c.call with
  | .upload userID filename mimePtr x => uploadNext sch st userID filename mimePtr x c db
  | .delete ownerID fileID => deleteNext sch st ownerID fileID c db

/-- The ledger of a running server: the tables and the calls begun so far, numbered from 0.
Each statement is committed on its own, so the server moves by one statement of one call. -/
structure Ledger where
  db : DB
  n : Nat
  calls : Nat → InFlight

def Ledger.start : Ledger := ⟨DB.empty, 0, fun _ => ⟨.delete "" "", 3, "", none⟩⟩

/-- What happens next on the server: a call begins, or call `k` runs its next statement. -/
inductive Event
  | start (c : LedgerCall)
  | next (k : Nat) (st : Stmt)
deriving DecidableEq, Repr

def Ledger.apply (sch : Schema) (s : Ledger) : Event → Ledger
  | .start c => ⟨s.db, s.n + 1, Function.update s.calls s.n ⟨c, 0, "", none⟩⟩
  | .next k st =>
    if k < s.n then
      ⟨((s.calls k).next sch st s.db).1, s.n,
        Function.update s.calls k ((s.calls k).next sch st s.db).2⟩
    else s

/-- The state the events, in order, lead to from the empty ledger with no call in flight. -/
def Ledger.reach (sch : Schema) (events : List Event) : Ledger :=
  events.foldl (Ledger.apply sch) Ledger.start

/-- The call is a deletion of file `fileID` that has not returned. -/
def InFlight.deleting (fileID : String) (c : InFlight) : Bool :=
  match c.call with
  | .delete _ id => decide (id = fileID) && decide (c.pc < 3)
  | .upload _ _ _ _ => false

/-- The next statement of the call, where it is an `InsertBlob` or an UPDATE of a count,
returns no error. -/
def InFlight.countApplied (sch : Schema) (st : Stmt) (c : InFlight) (db : DB) : Bool :=
  match c.call with
  | .upload _ _ mimePtr x =>
    match c.pc with
    | 0 => (InsertBlob sch st ⟨x.sum, x.written, mimePtr, x.finalPath, 0, 0⟩ db).2.isNone
    | 2 => (IncBlobRef sch st x.sum 1 db).2.isNone
    | _ => true
  | .delete _ _ =>
    match c.pc with
    | 2 => (updateRefCount sch st c.blob (-1) db).2.isNone
    | _ => true

/-- The event is one of a run in which every `InsertBlob` and every UPDATE of a count takes
effect and no two deletions of the same file are in flight together. -/
def Event.admissible (sch : Schema) (s : Ledger) : Event → Bool
  | .start (.delete _ fileID) => (List.range s.n).all (fun j => !(s.calls j).deleting fileID)
  | .start (.upload _ _ _ _) => true
  | .next k st => if k < s.n then (s.calls k).countApplied sch st s.db else true

def admissibleFrom (sch : Schema) : Ledger → List Event → Bool
  | _, [] => true
  | s, e :: es => e.admissible sch s && admissibleFrom sch (s.apply sch e) es

/-- The upload has created its file row over digest `h` and not yet issued the +1. -/
def pendingInc (h : String) (c : InFlight) : Bool :=
  match c.call with
  | .upload _ _ _ x => decide (c.pc = 2) && decide (x.sum = h)
  | .delete _ _ => false

/-- The deletion has deleted its file row over digest `h` and not yet issued the -1. -/
def pendingDec (h : String) (c : InFlight) : Bool :=
  match c.call with
  | .delete _ _ => decide (c.pc = 2) && decide (c.blob = h)
  | .upload _ _ _ _ => false

/-- Number of the calls below `n` that satisfy `p`. -/
def countCalls (p : InFlight → Bool) (calls : Nat → InFlight) : Nat → Nat
  | 0 => 0
  | n + 1 => countCalls p calls n + if p (calls n) then 1 else 0

/-- No call is in flight. -/
def Ledger.quiet (s : Ledger) : Bool := (List.range s.n).all (fun j => (s.calls j).pc == 3)

/-- The digest has a row in `blobs`. -/
def hasBlob (h : String) (db : DB) : Prop := ∃ b ∈ db.blobs, b.Hash = h

/-- What every state of a run satisfies in which the count statements take effect and no two
deletions of one file overlap: every count is the number of file rows over the digest, less the
uploads that have created their file row and not yet issued the +1, plus the deletions that have
deleted their file row and not yet issued the -1. -/
structure InFlightInv (s : Ledger) : Prop where
  counts : ∀ b ∈ s.db.blobs,
    b.RefCount + (countCalls (pendingInc b.Hash) s.calls s.n : Int) =
      (fileRefs b.Hash s.db : Int) + (countCalls (pendingDec b.Hash) s.calls s.n : Int)
  ids : (s.db.files.map (fun f => f.ID)).Nodup
  fileBlob : ∀ f ∈ s.db.files, hasBlob f.BlobHash s.db
  uploadBlob : ∀ j < s.n, ∀ u nm m x, (s.calls j).call = .upload u nm m x →
    1 ≤ (s.calls j).pc → (s.calls j).pc ≤ 2 → hasBlob x.sum s.db
  deleteBlob : ∀ j < s.n, ∀ o id, (s.calls j).call = .delete o id →
    1 ≤ (s.calls j).pc → (s.calls j).pc ≤ 2 → hasBlob (s.calls j).blob s.db
  found : ∀ j < s.n, ∀ o id, (s.calls j).call = .delete o id → (s.calls j).pc = 1 →
    ∃ f ∈ s.db.files, f.ID = id ∧ f.OwnerID = o ∧ f.BlobHash = (s.calls j).blob
  apart : ∀ i < s.n, ∀ j < s.n, i ≠ j → ∀ id,
    (s.calls i).deleting id = true → (s.calls j).deleting id = true → False

/-! ## Concrete inputs -/

def helloBytes : List Byte := [104, 101, 108, 108, 111]

/-- The stream `hello`, delivered in two reads. -/
def helloReader : Reader := ⟨[[104, 101], [108, 108, 111]], false⟩

def helloSum : String := "2cf24dba5fb0a30e26e83b2ac5b9e29e1b161e5c1fa7425e73043362938b9824"

def dataRoot : Service := ⟨["data"]⟩

def helloPath : Path := ["data", "2c", "f2", helloSum]

/-- No system call fails; the temporary file is `upload-<name>`. -/
def calm (name : String) : FsFaults := ⟨name, false, none, false, false⟩

/-- A store that already holds `hello` under its digest. -/
def helloStore : FS := FS.empty.write helloPath helloBytes

/-- A ledger holding the blob of `hello` with no reference. -/
def zeroLedger : DB := ⟨[⟨helloSum, 5, none, helloPath, 0, 0⟩], []⟩

/-- A statement the database executes. -/
def runs : Stmt := ⟨false, 0, "f1"⟩

/-- A statement the database fails. -/
def broken : Stmt := ⟨true, 0, "f1"⟩

/-- A ledger holding the blob of `hello` referenced by one file row. -/
def oneRefLedger : DB :=
  ⟨[⟨helloSum, 5, none, helloPath, 1, 0⟩],
   [⟨"f1", "u", helloSum, "a.txt", 5, none, false, [], 0⟩]⟩

/-- An upload of `hello` as `a.txt` by user `u`, with the given fate of its three statements. -/
def helloUpload (ins crt inc : Stmt) : UploadRequest :=
  ⟨"u", true, [(⟨"a.txt", helloReader, false⟩, ⟨calm "1", ins, crt, inc⟩)], "", runs⟩

/-- A stream of one byte whose reader then reports an error. -/
def brokenReader : Reader := ⟨[[104]], true⟩

/-- The second upload of the scenario: the same bytes again, stored as file `f2`. -/
def helloAgain : UploadRequest := helloUpload runs ⟨false, 1, "f2"⟩ runs

/-- The file system `fs` once `hello` is stored under its digest below the root. -/
def withHello (storage : Service) (fs : FS) : FS :=
  fun q => if q = storage.RootDir ++ ["2c", "f2", helloSum]
    then some ((fs (storage.RootDir ++ ["2c", "f2", helloSum])).getD helloBytes) else fs q

/-- Two uploads of `hello` by users `u` and `v`. -/
def twoHellos : Flights :=
  ⟨2, helloBytes, fun i => if i = 0 then "0" else "1", fun i => if i = 0 then "f0" else "f1",
    fun i => i, fun i => if i = 0 then "u" else "v", fun _ => "a.txt", fun _ => none⟩

/-- An interleaving of the two uploads in which both find the path absent and both rename. -/
def racingSchedule : List Nat := [0, 1, 0, 1, 0, 1, 0, 1, 0, 1, 1, 0, 1, 1, 1, 0, 0, 0]

/-- The database runs the lookup and the DELETE of a deletion and fails its UPDATE. -/
def failingUpdate : DeleteEnv := ⟨runs, runs, broken⟩

/-- Two uploads of `hello` by `u`, one after the other, then two deletions of the first file
whose statements alternate; no statement fails. -/
def racingDeletes : List Event :=
  [.start (.upload "u" "a.txt" none ⟨helloSum, helloPath, 5⟩),
   .next 0 runs, .next 0 runs, .next 0 runs,
   .start (.upload "u" "b.txt" none ⟨helloSum, helloPath, 5⟩),
   .next 1 ⟨false, 1, "f2"⟩, .next 1 ⟨false, 1, "f2"⟩, .next 1 ⟨false, 1, "f2"⟩,
   .start (.delete "u" "f1"), .start (.delete "u" "f1"),
   .next 2 runs, .next 3 runs, .next 2 runs, .next 3 runs, .next 2 runs, .next 3 runs]

/-- Two uploads of `hello` whose statements alternate, and a deletion of the first file that
begins before the second upload has issued its +1. -/
def mixedEvents : List Event :=
  [.start (.upload "u" "a.txt" none ⟨helloSum, helloPath, 5⟩),
   .start (.upload "v" "b.txt" none ⟨helloSum, helloPath, 5⟩),
   .next 0 runs, .next 1 ⟨false, 1, "f2"⟩, .next 0 runs, .next 1 ⟨false, 1, "f2"⟩,
   .next 0 runs, .start (.delete "u" "f1"), .next 2 runs, .next 2 runs,
   .next 1 ⟨false, 1, "f2"⟩, .next 2 runs]

/-! ## Lemmas on `io.Copy` and `WriteAndHash` -/

theorem ioCopy_ok (failAt : Option Nat) (readFails : Bool) (chunks : List (List Byte)) :
    ∀ (i : Nat) (st st' : CopyState), ioCopy failAt readFails chunks i st = (st', none) →
      st'.hashed = st.hashed ++ chunks.flatten ∧ st'.file = st.file ++ chunks.flatten ∧
      st'.written = st.written + (chunks.flatten.length : Int) ∧ readFails = false := by
  induction chunks with
  | nil =>
    intro i st st' h
    cases readFails <;> simp [ioCopy] at h
    subst h
    simp
  | cons c cs ih =>
    intro i st st' h
    unfold ioCopy at h
    by_cases hc : c = []
    · subst hc
      simp only [if_true] at h
      simpa using ih _ _ _ h
    · simp only [hc, if_false] at h
      by_cases hf : failAt = some i
      · simp [hf] at h
      · simp only [hf, if_false] at h
        obtain ⟨h1, h2, h3, h4⟩ := ih _ _ _ h
        refine ⟨?_, ?_, ?_, h4⟩
        · simp [h1]
        · simp [h2]
        · simp [h3]; ring

theorem ioCopy_total (chunks : List (List Byte)) :
    ∀ (i : Nat) (st : CopyState), (ioCopy none false chunks i st).2 = none := by
  induction chunks with
  | nil => intro i st; simp [ioCopy]
  | cons c cs ih =>
    intro i st
    unfold ioCopy
    by_cases hc : c = []
    · simp [hc, ih]
    · simp [hc, ih]

theorem final_ne_tmpPath (s : Service) (env : FsFaults) (a b c : String) :
    s.RootDir ++ [a, b] ++ [c] ≠ tmpPath s env := by
  intro h
  have := congrArg List.length h
  simp [tmpPath] at this

/-- What a successful `WriteAndHash` returns and leaves behind. -/
theorem WriteAndHash_ok (s : Service) (env : FsFaults) (r : Reader) (fs fs' : FS) (x : Written)
    (h : WriteAndHash s env r fs = (fs', .ok x)) :
    r.fails = false ∧ fs (tmpPath s env) = none ∧ x.sum = sumHex r.bytes ∧
    x.finalPath = s.RootDir ++ [goSlice x.sum 0 2, goSlice x.sum 2 4, x.sum] ∧
    x.written = (r.bytes.length : Int) ∧
    fs' = fun q => if q = x.finalPath then some ((fs x.finalPath).getD r.bytes) else fs q := by
  unfold WriteAndHash at h
  simp only at h
  generalize hcp : ioCopy env.writeFailAt r.fails r.chunks 0 ⟨[], [], 0⟩ = cp at h
  obtain ⟨st, oe⟩ := cp
  have hne := final_ne_tmpPath s env (goSlice (hexEncodeToString (sha256 st.hashed)) 0 2)
    (goSlice (hexEncodeToString (sha256 st.hashed)) 2 4) (hexEncodeToString (sha256 st.hashed))
  generalize hfin : s.RootDir ++ [goSlice (hexEncodeToString (sha256 st.hashed)) 0 2,
    goSlice (hexEncodeToString (sha256 st.hashed)) 2 4] ++ [hexEncodeToString (sha256 st.hashed)]
    = fin at h hne
  by_cases hct : (env.createTemp || (fs (tmpPath s env)).isSome) = true
  · simp [hct] at h
  · simp only [hct] at h
    have htmp : fs (tmpPath s env) = none := by
      cases hv : fs (tmpPath s env) with
      | none => rfl
      | some v => simp [hv] at hct
    cases oe with
    | some e => simp at h
    | none =>
      obtain ⟨hh, hf, hw, hr⟩ := ioCopy_ok _ _ _ _ _ _ hcp
      simp only [List.nil_append, zero_add] at hh hf hw
      have hfs1 : FS.write fs (tmpPath s env) st.file fin = fs fin := by
        simp [FS.write, hne]
      simp only [hfs1] at h
      by_cases hmk : env.mkdirAll = true
      · simp [hmk] at h
      · simp only [hmk] at h
        cases hex : fs fin with
        | some c =>
          simp only [hex, Option.isSome_some, if_true, Bool.false_eq_true, if_false,
            Prod.mk.injEq, Except.ok.injEq] at h
          obtain ⟨hfs, hx⟩ := h
          subst hx
          refine ⟨hr, htmp, by simp [sumHex, hh, Reader.bytes], by simp [← hfin], by simpa [Reader.bytes] using hw, ?_⟩
          subst hfs
          funext q
          simp only [FS.remove, FS.write]
          by_cases hq : q = tmpPath s env
          · subst hq
            simp [htmp, Ne.symm hne]
          · simp only [hq, if_false]
            by_cases hqf : q = fin
            · subst hqf; simp [hex]
            · simp [hqf]
        | none =>
          simp only [hex, Option.isSome_none, Bool.false_eq_true, if_false] at h
          by_cases hrn : env.rename = true
          · simp [hrn] at h
          · simp only [hrn, Bool.false_eq_true, if_false, Prod.mk.injEq, Except.ok.injEq] at h
            obtain ⟨hfs, hx⟩ := h
            subst hx
            refine ⟨hr, htmp, by simp [sumHex, hh, Reader.bytes], by simp [← hfin], by simpa [Reader.bytes] using hw, ?_⟩
            subst hfs
            funext q
            simp only [FS.remove, FS.write]
            by_cases hq : q = tmpPath s env
            · subst hq
              simp [htmp, Ne.symm hne]
            · simp only [hq, if_false]
              by_cases hqf : q = fin
              · subst hqf; simp [hex, hf, Reader.bytes]
              · simp [hqf]

theorem FS.remove_write_self (fs : FS) (p : Path) (c : List Byte) (h : fs p = none) :
    (fs.write p c).remove p = fs := by
  funext q
  by_cases hq : q = p
  · subst hq; simp [FS.remove, h]
  · simp [FS.remove, FS.write, hq]

/-- Either `WriteAndHash` fails and leaves the file system as it found it, or it succeeds. -/
theorem WriteAndHash_cases (s : Service) (env : FsFaults) (r : Reader) (fs : FS) :
    (∃ e, WriteAndHash s env r fs = (fs, .error e)) ∨
    (∃ x, (WriteAndHash s env r fs).2 = .ok x) := by
  cases hc : env.createTemp with
  | true => exact Or.inl ⟨StorageError.createTemp, by simp [WriteAndHash, hc]⟩
  | false =>
    cases ht : fs (tmpPath s env) with
    | some v => exact Or.inl ⟨StorageError.createTemp, by simp [WriteAndHash, hc, ht]⟩
    | none =>
      have hrm := fun c => FS.remove_write_self fs (tmpPath s env) c ht
      cases hcp : ioCopy env.writeFailAt r.fails r.chunks 0 ⟨[], [], 0⟩ with
      | mk st oe =>
        cases oe with
        | some e1 => exact Or.inl ⟨e1, by simp [WriteAndHash, hc, ht, hcp, hrm]⟩
        | none =>
          cases hm : env.mkdirAll with
          | true => exact Or.inl ⟨StorageError.mkdirAll, by simp [WriteAndHash, hc, ht, hcp, hrm, hm]⟩
          | false =>
            cases hex : (fs.write (tmpPath s env) st.file
                (s.RootDir ++ [goSlice (hexEncodeToString (sha256 st.hashed)) 0 2,
                  goSlice (hexEncodeToString (sha256 st.hashed)) 2 4] ++
                  [hexEncodeToString (sha256 st.hashed)])).isSome with
            | true =>
              refine Or.inr ⟨⟨hexEncodeToString (sha256 st.hashed),
                s.RootDir ++ [goSlice (hexEncodeToString (sha256 st.hashed)) 0 2,
                  goSlice (hexEncodeToString (sha256 st.hashed)) 2 4] ++
                  [hexEncodeToString (sha256 st.hashed)], st.written⟩, ?_⟩
              simp only [WriteAndHash, hc, ht, hcp, hm, hex]
              simp
            | false =>
              cases hn : env.rename with
              | true =>
                refine Or.inl ⟨StorageError.rename, ?_⟩
                simp only [WriteAndHash, hc, ht, hcp, hm, hex, hn, hrm]
                simp
              | false =>
                refine Or.inr ⟨⟨hexEncodeToString (sha256 st.hashed),
                s.RootDir ++ [goSlice (hexEncodeToString (sha256 st.hashed)) 0 2,
                  goSlice (hexEncodeToString (sha256 st.hashed)) 2 4] ++
                  [hexEncodeToString (sha256 st.hashed)], st.written⟩, ?_⟩
                simp only [WriteAndHash, hc, ht, hcp, hm, hex, hn]
                simp

/-- A failed `WriteAndHash` leaves the file system as it found it. -/
theorem WriteAndHash_error (s : Service) (env : FsFaults) (r : Reader) (fs fs' : FS)
    (e : StorageError) (h : WriteAndHash s env r fs = (fs', .error e)) : fs' = fs := by
  rcases WriteAndHash_cases s env r fs with ⟨e1, h1⟩ | ⟨x, h1⟩
  · rw [h1] at h
    exact (congrArg Prod.fst h).symm
  · rw [h] at h1
    simp at h1

/-- With a readable stream and no failing system call `WriteAndHash` succeeds. -/
theorem WriteAndHash_total (s : Service) (env : FsFaults) (r : Reader) (fs : FS)
    (hr : r.fails = false) (hc : env.createTemp = false) (ht : fs (tmpPath s env) = none)
    (hw : env.writeFailAt = none) (hm : env.mkdirAll = false) (hn : env.rename = false) :
    ∃ x, (WriteAndHash s env r fs).2 = .ok x := by
  rcases WriteAndHash_cases s env r fs with ⟨e1, h1⟩ | h1
  · exfalso
    have hcp := ioCopy_total r.chunks 0 ⟨[], [], 0⟩
    unfold WriteAndHash at h1
    simp only [hc, ht, hw, hm, hn, hr, hcp, Option.isSome_none, Bool.or_self, Bool.false_eq_true,
      if_false] at h1
    split at h1 <;> simp at h1
  · exact h1

theorem sha256_length (msg : List Byte) : (sha256 msg).length = 32 := by
  simp [sha256, wordBytes]

theorem hexEncodeToString_length (bs : List Byte) :
    (hexEncodeToString bs).length = 2 * bs.length := by
  unfold hexEncodeToString
  show (bs.flatMap _).length = _
  induction bs with
  | nil => rfl
  | cons b bs ih => simp [List.flatMap_cons, ih]; ring

theorem hexDigit_mem (n : Nat) (h : n < 16) : hexDigit n ∈ "0123456789abcdef".data := by
  interval_cases n <;> decide

theorem hexEncodeToString_chars (bs : List Byte) :
    ∀ c ∈ (hexEncodeToString bs).data, c ∈ "0123456789abcdef".data := by
  intro c hc
  simp only [hexEncodeToString, List.mem_flatMap, List.mem_cons, List.mem_singleton,
    List.not_mem_nil, or_false] at hc
  obtain ⟨b, _, rfl | rfl⟩ := hc
  · exact hexDigit_mem _ (Nat.mod_lt _ (by decide))
  · exact hexDigit_mem _ (Nat.mod_lt _ (by decide))

/-! ## Claims on `WriteAndHash` -/

/-- C1: in a store whose content-addressed files hold bytes hashing to their names, a successful
`WriteAndHash` of a stream leaves at the returned path a file holding exactly the bytes of the
stream, whether the path was new or already present; SHA-256 is taken not to collide between the
stream and a stored file. -/
theorem put_then_resolve_roundtrip (s : Service) (env : FsFaults) (r : Reader) (fs fs' : FS)
    (x : Written)
    (hstore : ∀ a b d c, fs (s.RootDir ++ [a, b, d]) = some c → sumHex c = d)
    (hsha : ∀ p c, fs p = some c → sumHex c = sumHex r.bytes → c = r.bytes)
    (h : WriteAndHash s env r fs = (fs', .ok x)) :
    fs' x.finalPath = some r.bytes := by
  obtain ⟨_, _, hsum, hpath, _, hfs⟩ := WriteAndHash_ok s env r fs fs' x h
  subst hfs
  simp only [if_true]
  cases hc : fs x.finalPath with
  | none => rfl
  | some c =>
    have h1 : sumHex c = x.sum := hstore _ _ _ c (hpath ▸ hc)
    rw [hsha _ c hc (h1.trans hsum)]
    rfl

set_option maxRecDepth 100000 in
theorem put_then_resolve_roundtrip_witness :
    (WriteAndHash dataRoot (calm "1") helloReader helloStore).1 helloPath = some helloBytes :=
  put_then_resolve_roundtrip dataRoot (calm "1") helloReader helloStore _ ⟨helloSum, helloPath, 5⟩
    (by
      intro a b d c hc
      simp only [helloStore, FS.write, FS.empty, dataRoot, helloPath] at hc
      split at hc
      · rename_i hp
        simp only [List.singleton_append, List.cons.injEq, true_and, and_true] at hp
        obtain ⟨_, _, rfl⟩ := hp
        cases hc
        decide
      · cases hc)
    (by
      intro p c hc _
      simp only [helloStore, FS.write, FS.empty] at hc
      split at hc
      · cases hc; rfl
      · cases hc)
    (Prod.ext rfl (by decide))

/-- C2: when `WriteAndHash` succeeds on a stream (which was then read to its end without error),
the returned digest is the hexadecimal SHA-256 of the bytes of the stream in order, 64 characters
among `0-9a-f`, and the returned size is the number of bytes of the stream. -/
theorem digest_and_size_of_stream (s : Service) (env : FsFaults) (r : Reader) (fs fs' : FS)
    (x : Written) (h : WriteAndHash s env r fs = (fs', .ok x)) :
    r.fails = false ∧ x.sum = hexEncodeToString (sha256 r.chunks.flatten) ∧ x.sum.length = 64 ∧
    (∀ c ∈ x.sum.data, c ∈ "0123456789abcdef".data) ∧
    x.written = (r.chunks.flatten.length : Int) := by
  obtain ⟨hr, _, hsum, _, hw, _⟩ := WriteAndHash_ok s env r fs fs' x h
  refine ⟨hr, hsum, ?_, ?_, hw⟩
  · rw [hsum, sumHex, hexEncodeToString_length, sha256_length]
  · rw [hsum]
    exact hexEncodeToString_chars _

set_option maxRecDepth 100000 in
theorem digest_and_size_of_stream_witness :
    helloReader.fails = false ∧
    helloSum = hexEncodeToString (sha256 helloReader.chunks.flatten) ∧ helloSum.length = 64 ∧
    (∀ c ∈ helloSum.data, c ∈ "0123456789abcdef".data) ∧
    (5 : Int) = (helloReader.chunks.flatten.length : Int) :=
  digest_and_size_of_stream dataRoot (calm "1") helloReader FS.empty _ ⟨helloSum, helloPath, 5⟩
    (Prod.ext rfl (by decide))

/-- C3: the path a successful `WriteAndHash` returns is the root followed by the first two
characters of the digest, the next two, and the digest, each of these names being non-empty and
made of hexadecimal digits only; two successful calls on the same root that return the same
digest return the same path, whatever the store, the stream and the environment of each. -/
theorem path_is_function_of_digest (s : Service) (env : FsFaults) (r : Reader) (fs fs' : FS)
    (x : Written) (h : WriteAndHash s env r fs = (fs', .ok x)) :
    x.finalPath = s.RootDir ++ [goSlice x.sum 0 2, goSlice x.sum 2 4, x.sum] ∧
    (∀ name ∈ [goSlice x.sum 0 2, goSlice x.sum 2 4, x.sum],
      name ≠ "" ∧ ∀ c ∈ name.data, c ∈ "0123456789abcdef".data) ∧
    ∀ (env2 : FsFaults) (r2 : Reader) (fs2 fs2' : FS) (y : Written),
      WriteAndHash s env2 r2 fs2 = (fs2', .ok y) → y.sum = x.sum → y.finalPath = x.finalPath := by
  obtain ⟨_, _, hsum, hpath, _, _⟩ := WriteAndHash_ok s env r fs fs' x h
  have hlen : x.sum.data.length = 64 := by
    have := hexEncodeToString_length (sha256 r.bytes)
    rw [sha256_length] at this
    rw [hsum]
    exact this
  have hchars : ∀ c ∈ x.sum.data, c ∈ "0123456789abcdef".data := by
    rw [hsum]
    exact hexEncodeToString_chars _
  refine ⟨hpath, ?_, ?_⟩
  · intro name hname
    simp only [List.mem_cons, List.mem_singleton, List.not_mem_nil, or_false] at hname
    have hne : ∀ t : String, 0 < t.data.length → t ≠ "" := by
      intro t ht h0
      rw [h0] at ht
      exact absurd ht (by decide)
    rcases hname with rfl | rfl | rfl
    · refine ⟨hne _ (by simp [goSlice, hlen]), ?_⟩
      intro c hc
      exact hchars c (List.mem_of_mem_drop (List.mem_of_mem_take hc))
    · refine ⟨hne _ (by simp [goSlice, hlen]), ?_⟩
      intro c hc
      exact hchars c (List.mem_of_mem_drop (List.mem_of_mem_take hc))
    · exact ⟨hne _ (by rw [hlen]; decide), hchars⟩
  · intro env2 r2 fs2 fs2' y h2 hxy
    obtain ⟨_, _, _, hpath2, _, _⟩ := WriteAndHash_ok s env2 r2 fs2 fs2' y h2
    rw [hpath, hpath2, hxy]

set_option maxRecDepth 100000 in
theorem path_is_function_of_digest_witness :
    helloPath = dataRoot.RootDir ++ [goSlice helloSum 0 2, goSlice helloSum 2 4, helloSum] ∧
    (∀ name ∈ [goSlice helloSum 0 2, goSlice helloSum 2 4, helloSum],
      name ≠ "" ∧ ∀ c ∈ name.data, c ∈ "0123456789abcdef".data) ∧
    ∀ (env2 : FsFaults) (r2 : Reader) (fs2 fs2' : FS) (y : Written),
      WriteAndHash dataRoot env2 r2 fs2 = (fs2', .ok y) → y.sum = helloSum →
        y.finalPath = helloPath :=
  path_is_function_of_digest dataRoot (calm "1") helloReader FS.empty _ ⟨helloSum, helloPath, 5⟩
    (Prod.ext rfl (by decide))

/-- C4: after a successful `WriteAndHash` of a stream, a second `WriteAndHash` of the same bytes
leaves the file system exactly as the first call left it (no file added, none changed), returns
the same digest, path and size whenever it succeeds, and does succeed when the stream is readable
and creating, writing the temporary file and creating the directories do not fail. -/
theorem second_put_is_noop (s : Service) (env1 env2 : FsFaults) (r1 r2 : Reader) (fs fs1 : FS)
    (x : Written) (hsame : r2.bytes = r1.bytes)
    (h1 : WriteAndHash s env1 r1 fs = (fs1, .ok x)) :
    (WriteAndHash s env2 r2 fs1).1 = fs1 ∧
    (∀ y, (WriteAndHash s env2 r2 fs1).2 = .ok y → y = x) ∧
    (r2.fails = false → env2.createTemp = false → fs1 (tmpPath s env2) = none →
      env2.writeFailAt = none → env2.mkdirAll = false →
      (WriteAndHash s env2 r2 fs1).2 = .ok x) := by
  obtain ⟨_, _, hsum, hpath, hw, hfs⟩ := WriteAndHash_ok s env1 r1 fs fs1 x h1
  have hheld : ∃ c, fs1 x.finalPath = some c := by
    rw [hfs]; exact ⟨(fs x.finalPath).getD r1.bytes, by simp⟩
  have hsucc : ∀ fs2 y, WriteAndHash s env2 r2 fs1 = (fs2, .ok y) → y = x ∧ fs2 = fs1 := by
    intro fs2 y h2
    obtain ⟨_, _, hsum2, hpath2, hw2, hfs2⟩ := WriteAndHash_ok s env2 r2 fs1 fs2 y h2
    have hyx : y = x := by
      cases x; cases y
      simp only at hsum hpath hw hsum2 hpath2 hw2
      simp only [Written.mk.injEq]
      refine ⟨by rw [hsum, hsum2, hsame], by rw [hpath, hpath2, hsum, hsum2, hsame],
        by rw [hw, hw2, hsame]⟩
    refine ⟨hyx, ?_⟩
    obtain ⟨c, hc⟩ := hheld
    rw [hfs2, hyx]
    funext q
    by_cases hq : q = x.finalPath
    · subst hq; simp [hc]
    · simp [hq]
  refine ⟨?_, ?_, ?_⟩
  · rcases WriteAndHash_cases s env2 r2 fs1 with ⟨e, he⟩ | ⟨y, hy⟩
    · rw [he]
    · exact (hsucc _ y (Prod.ext rfl hy)).2
  · intro y hy
    exact (hsucc _ y (Prod.ext rfl hy)).1
  · intro hr hc ht hwf hm
    obtain ⟨c, hc1⟩ := hheld
    have hne := final_ne_tmpPath s env2 (goSlice x.sum 0 2) (goSlice x.sum 2 4) x.sum
    have hcp := ioCopy_total r2.chunks 0 ⟨[], [], 0⟩
    cases hcp2 : ioCopy none false r2.chunks 0 ⟨[], [], 0⟩ with
    | mk st oe =>
      rw [hcp2] at hcp
      simp only at hcp
      subst hcp
      obtain ⟨hh, hf, hw2, _⟩ := ioCopy_ok _ _ _ _ _ _ hcp2
      simp only [List.nil_append, zero_add] at hh hf hw2
      have hbytes : r2.chunks.flatten = r1.bytes := hsame
      have hsum2 : hexEncodeToString (sha256 st.hashed) = x.sum := by
        rw [hsum, hh, hbytes]; rfl
      have hfin : s.RootDir ++ [goSlice x.sum 0 2, goSlice x.sum 2 4] ++ [x.sum] = x.finalPath := by
        rw [hpath]; simp
      have hex : (fs1.write (tmpPath s env2) st.file x.finalPath).isSome = true := by
        rw [← hfin]
        simp only [FS.write, hne, if_false]
        rw [hfin, hc1]; rfl
      simp only [WriteAndHash, hr, hc, ht, hwf, hm, hcp2, hsum2, hfin, hex, Option.isSome_none,
        Bool.or_self, Bool.false_eq_true, if_false, if_true]
      congr 2
      rw [hw2, hw, hbytes]

set_option maxRecDepth 100000 in
theorem second_put_is_noop_witness :
    (WriteAndHash dataRoot (calm "2") ⟨[helloBytes], false⟩
      (WriteAndHash dataRoot (calm "1") helloReader FS.empty).1).1 =
      (WriteAndHash dataRoot (calm "1") helloReader FS.empty).1 ∧
    (∀ y, (WriteAndHash dataRoot (calm "2") ⟨[helloBytes], false⟩
      (WriteAndHash dataRoot (calm "1") helloReader FS.empty).1).2 = .ok y →
      y = ⟨helloSum, helloPath, 5⟩) ∧
    ((⟨[helloBytes], false⟩ : Reader).fails = false → (calm "2").createTemp = false →
      (WriteAndHash dataRoot (calm "1") helloReader FS.empty).1 (tmpPath dataRoot (calm "2")) = none →
      (calm "2").writeFailAt = none → (calm "2").mkdirAll = false →
      (WriteAndHash dataRoot (calm "2") ⟨[helloBytes], false⟩
        (WriteAndHash dataRoot (calm "1") helloReader FS.empty).1).2 =
        .ok ⟨helloSum, helloPath, 5⟩) :=
  second_put_is_noop dataRoot (calm "1") (calm "2") helloReader ⟨[helloBytes], false⟩ FS.empty _
    ⟨helloSum, helloPath, 5⟩ (by decide) (Prod.ext rfl (by decide))

set_option maxRecDepth 100000 in
/-- C5, as stated, fails: putting `hello` into the empty store and into a store that already
holds it returns the same values; nothing tells the two cases apart. -/
theorem put_reports_existing_counterexample :
    FS.empty helloPath = none ∧ helloStore helloPath = some helloBytes ∧
    (WriteAndHash dataRoot (calm "1") helloReader FS.empty).2 =
      (WriteAndHash dataRoot (calm "1") helloReader helloStore).2 := by
  decide

/-- C5, amended: the values a successful `WriteAndHash` returns are the digest of the bytes, the
path derived from it and the byte count; two successful calls on the same bytes return equal
values whatever the two stores hold, so also when one store held the content and the other did
not. -/
theorem put_result_ignores_existence (s : Service) (env1 env2 : FsFaults) (r1 r2 : Reader)
    (fsA fsB fsA' fsB' : FS) (x y : Written) (hsame : r1.bytes = r2.bytes)
    (hA : WriteAndHash s env1 r1 fsA = (fsA', .ok x))
    (hB : WriteAndHash s env2 r2 fsB = (fsB', .ok y)) :
    x = y ∧ x = ⟨sumHex r1.bytes, s.RootDir ++ [goSlice (sumHex r1.bytes) 0 2,
      goSlice (sumHex r1.bytes) 2 4, sumHex r1.bytes], (r1.bytes.length : Int)⟩ := by
  obtain ⟨_, _, hsum, hpath, hw, _⟩ := WriteAndHash_ok s env1 r1 fsA fsA' x hA
  obtain ⟨_, _, hsum2, hpath2, hw2, _⟩ := WriteAndHash_ok s env2 r2 fsB fsB' y hB
  cases x; cases y
  simp only at hsum hpath hw hsum2 hpath2 hw2
  simp only [Written.mk.injEq]
  subst hsum hsum2 hw hw2
  rw [hpath, hpath2, hsame]
  simp

set_option maxRecDepth 100000 in
theorem put_result_ignores_existence_witness :
    (⟨helloSum, helloPath, 5⟩ : Written) = ⟨helloSum, helloPath, 5⟩ ∧
    (⟨helloSum, helloPath, 5⟩ : Written) =
      ⟨sumHex helloReader.bytes, dataRoot.RootDir ++ [goSlice (sumHex helloReader.bytes) 0 2,
        goSlice (sumHex helloReader.bytes) 2 4, sumHex helloReader.bytes],
        (helloReader.bytes.length : Int)⟩ :=
  put_result_ignores_existence dataRoot (calm "1") (calm "1") helloReader helloReader
    FS.empty helloStore _ _ ⟨helloSum, helloPath, 5⟩ ⟨helloSum, helloPath, 5⟩ rfl
    (Prod.ext rfl (by decide)) (Prod.ext rfl (by decide))

/-! ## The ledger -/

/-- The decrement is the bare statement `ref_count = ref_count - 1`, with no guard in the Go
code.  On a digest whose count is 0 it returns an error and leaves the ledger unchanged exactly
when the database fails the statement or the table declares the count non-negative; otherwise it
returns no error and the count of the digest becomes -1.  The decrement step of
`DeleteFileAndMaybeBlob` is the same statement, run after the file row has been deleted. -/
theorem decrement_at_zero_by_schema (sch : Schema) (st : Stmt) (hash : String) (db : DB)
    (hrow : ∃ b ∈ db.blobs, b.Hash = hash)
    (hzero : ∀ b ∈ db.blobs, b.Hash = hash → b.RefCount = 0) :
    ((st.fails = true ∨ sch.refCountCheck = true) →
      (IncBlobRef sch st hash (-1) db).1 = db ∧ (IncBlobRef sch st hash (-1) db).2 ≠ none) ∧
    (st.fails = false → sch.refCountCheck = false →
      (IncBlobRef sch st hash (-1) db).2 = none ∧
      (IncBlobRef sch st hash (-1) db).1.files = db.files ∧
      (IncBlobRef sch st hash (-1) db).1.blobs =
        db.blobs.map (fun b => if b.Hash = hash then { b with RefCount := -1 } else b)) ∧
    (∀ (env : DeleteEnv) (ownerID fileID : String) (row : File),
      db.files.find? (fun f => decide (f.ID = fileID) && decide (f.OwnerID = ownerID)) = some row →
      row.BlobHash = hash → env.select.fails = false → env.delete.fails = false →
      DeleteFileAndMaybeBlob sch env ownerID fileID db =
        IncBlobRef sch env.update hash (-1) ⟨db.blobs, db.files.filter
          (fun f => !(decide (f.ID = fileID) && decide (f.OwnerID = ownerID)))⟩) := by
  obtain ⟨b0, hb0, hb0h⟩ := hrow
  have hany : db.blobs.any
      (fun x => decide (x.Hash = hash) && decide (x.RefCount + -1 < 0)) = true := by
    rw [List.any_eq_true]
    refine ⟨b0, hb0, ?_⟩
    simp [hb0h, hzero b0 hb0 hb0h]
  refine ⟨?_, ?_, ?_⟩
  · intro h
    unfold IncBlobRef updateRefCount
    cases hf : st.fails with
    | true => simp
    | false =>
      have hc : sch.refCountCheck = true := by
        rcases h with h | h
        · rw [hf] at h; cases h
        · exact h
      simp only [hc, hany, Bool.and_self, Bool.false_eq_true, if_false, if_true]
      simp
  · intro hf hc
    unfold IncBlobRef updateRefCount
    simp only [hf, hc, Bool.false_and, Bool.false_eq_true, if_false, true_and]
    apply List.map_congr_left
    intro b hb
    by_cases hbh : b.Hash = hash
    · simp [hbh, hzero b hb hbh]
    · simp [hbh]
  · intro env ownerID fileID row hfind hrowh hs hd
    unfold DeleteFileAndMaybeBlob IncBlobRef
    simp only [hs, hd, hfind, hrowh, Bool.false_eq_true, if_false]

/-- C8: when the database executes the statement, `InsertBlob` with a zero count (as
`handleUpload` calls it) adds, for a digest without a row, one row with count 0 and the given
size, MIME type and path and changes nothing else; for a digest that has a row it leaves the
ledger as it is; in both cases it returns no error, and a second call changes nothing more. -/
theorem InsertBlob_record_new (sch : Schema) (st : Stmt) (hash : String) (size : Int)
    (mime : Option String) (path : Path) (db : DB) (hst : st.fails = false) :
    (GetBlob hash db = none →
      InsertBlob sch st ⟨hash, size, mime, path, 0, 0⟩ db =
        (⟨db.blobs ++ [⟨hash, size, mime, path, 0, st.now⟩], db.files⟩, none)) ∧
    (GetBlob hash db ≠ none →
      InsertBlob sch st ⟨hash, size, mime, path, 0, 0⟩ db = (db, none)) ∧
    (∀ st2 : Stmt, st2.fails = false →
      InsertBlob sch st2 ⟨hash, size, mime, path, 0, 0⟩
        (InsertBlob sch st ⟨hash, size, mime, path, 0, 0⟩ db).1 =
        ((InsertBlob sch st ⟨hash, size, mime, path, 0, 0⟩ db).1, none)) := by
  have hiff : GetBlob hash db = none ↔ db.blobs.any (fun x => x.Hash = hash) = false := by
    unfold GetBlob
    rw [List.find?_eq_none]
    simp [List.any_eq_false]
  have hnew : GetBlob hash db = none →
      InsertBlob sch st ⟨hash, size, mime, path, 0, 0⟩ db =
        (⟨db.blobs ++ [⟨hash, size, mime, path, 0, st.now⟩], db.files⟩, none) := by
    intro h
    simp [InsertBlob, hst, hiff.mp h]
  have hold : ∀ (s1 : Stmt) (d : DB), s1.fails = false →
      d.blobs.any (fun x => x.Hash = hash) = true →
      InsertBlob sch s1 ⟨hash, size, mime, path, 0, 0⟩ d = (d, none) := by
    intro s1 d h1 h
    simp only [InsertBlob, h1, h, Bool.false_eq_true, if_false, if_true]
    simp
  refine ⟨hnew, ?_, ?_⟩
  · intro h
    apply hold st db hst
    cases hv : db.blobs.any (fun x => x.Hash = hash) with
    | true => rfl
    | false => exact absurd (hiff.mpr hv) h
  · intro st2 hst2
    cases hv : db.blobs.any (fun x => x.Hash = hash) with
    | true => rw [hold st db hst hv]; exact hold st2 db hst2 hv
    | false =>
      rw [hnew (hiff.mpr hv)]
      apply hold st2 _ hst2
      simp

theorem InsertBlob_record_new_witness :
    (GetBlob helloSum DB.empty = none →
      InsertBlob ⟨true, true⟩ runs ⟨helloSum, 5, some "text/plain", helloPath, 0, 0⟩ DB.empty =
        (⟨DB.empty.blobs ++ [⟨helloSum, 5, some "text/plain", helloPath, 0, runs.now⟩],
          DB.empty.files⟩, none)) ∧
    (GetBlob helloSum DB.empty ≠ none →
      InsertBlob ⟨true, true⟩ runs ⟨helloSum, 5, some "text/plain", helloPath, 0, 0⟩ DB.empty =
        (DB.empty, none)) ∧
    (∀ st2 : Stmt, st2.fails = false →
      InsertBlob ⟨true, true⟩ st2 ⟨helloSum, 5, some "text/plain", helloPath, 0, 0⟩
        (InsertBlob ⟨true, true⟩ runs ⟨helloSum, 5, some "text/plain", helloPath, 0, 0⟩
          DB.empty).1 =
        ((InsertBlob ⟨true, true⟩ runs ⟨helloSum, 5, some "text/plain", helloPath, 0, 0⟩
          DB.empty).1, none)) :=
  InsertBlob_record_new ⟨true, true⟩ runs helloSum 5 (some "text/plain") helloPath DB.empty
    (by decide)

theorem filter_not_owned_eq_erase (ownerID fileID : String) (row : File) :
    ∀ files : List File, (files.map (fun f => f.ID)).Nodup →
      files.find? (fun f => decide (f.ID = fileID) && decide (f.OwnerID = ownerID)) = some row →
      files.filter (fun f => !(decide (f.ID = fileID) && decide (f.OwnerID = ownerID))) =
        files.erase row := by
  intro files
  induction files with
  | nil => intro _ h; simp at h
  | cons f fs ih =>
    intro hnd hfind
    simp only [List.map_cons, List.nodup_cons] at hnd
    obtain ⟨hnot, hnd'⟩ := hnd
    by_cases hm : (decide (f.ID = fileID) && decide (f.OwnerID = ownerID)) = true
    · simp only [List.find?_cons, hm, Option.some.injEq] at hfind
      subst hfind
      simp only [List.filter_cons, hm, Bool.not_true, Bool.false_eq_true, if_false,
        List.erase_cons_head]
      rw [List.filter_eq_self]
      intro a ha
      simp only [Bool.and_eq_true, decide_eq_true_eq] at hm
      have hne : a.ID ≠ fileID := by
        intro h
        apply hnot
        rw [hm.1, ← h]
        exact List.mem_map_of_mem (fun f => f.ID) ha
      simp [hne]
    · have hm' : (decide (f.ID = fileID) && decide (f.OwnerID = ownerID)) = false := by
        simpa using hm
      simp only [List.find?_cons, hm'] at hfind
      have hrow := List.find?_some hfind
      have hne : ¬ (f == row) = true := by
        intro h
        have : f = row := by simpa using h
        subst this
        rw [hm'] at hrow
        cases hrow
      rw [List.erase_cons_tail hne]
      simp only [List.filter_cons, hm', Bool.not_false, if_true]
      rw [ih hnd' hfind]

set_option maxRecDepth 100000 in
/-- C9, as stated, fails, in two ways, each with the strictest schema.  When the database fails
the final UPDATE, the call returns an error although the file row has been deleted.  And of two
deletions of the same file that run together, with no statement failing, the second finds the
row in its lookup, deletes no row, lowers the count all the same and returns nil. -/
theorem delete_atomic_counterexample :
    (DeleteFileAndMaybeBlob ⟨true, true⟩ ⟨runs, runs, broken⟩ "u" "f1" oneRefLedger =
        (⟨oneRefLedger.blobs, []⟩, some DbError.failed) ∧
      oneRefLedger.files = [⟨"f1", "u", helloSum, "a.txt", 5, none, false, [], 0⟩]) ∧
    ((Ledger.reach ⟨true, true⟩ (racingDeletes.take 13)).db =
        ⟨[⟨helloSum, 5, none, helloPath, 2, 0⟩],
         [⟨"f2", "u", helloSum, "b.txt", 5, none, false, [], 1⟩]⟩ ∧
      (Ledger.reach ⟨true, true⟩ (racingDeletes.take 13)).calls 3 =
        ⟨.delete "u" "f1", 1, helloSum, none⟩ ∧
      (Ledger.reach ⟨true, true⟩ (racingDeletes.take 14)).db.files =
        (Ledger.reach ⟨true, true⟩ (racingDeletes.take 13)).db.files ∧
      (Ledger.reach ⟨true, true⟩ (racingDeletes.take 15)).db.blobs =
        [⟨helloSum, 5, none, helloPath, 1, 0⟩] ∧
      (Ledger.reach ⟨true, true⟩ racingDeletes).db.blobs =
        [⟨helloSum, 5, none, helloPath, 0, 0⟩] ∧
      (Ledger.reach ⟨true, true⟩ racingDeletes).calls 3 =
        ⟨.delete "u" "f1", 3, helloSum, none⟩) := by
  decide

theorem bump_Hash (hash : String) (delta : Int) (x : Blob) : (bump hash delta x).Hash = x.Hash := by
  unfold bump; split <;> rfl

theorem updateRefCount_ok (sch : Schema) (st : Stmt) (hash : String) (delta : Int) (db : DB)
    (hst : st.fails = false) (hpos : ∀ b ∈ db.blobs, b.Hash = hash → 0 ≤ b.RefCount + delta) :
    updateRefCount sch st hash delta db = (⟨db.blobs.map (bump hash delta), db.files⟩, none) := by
  have hany : db.blobs.any
      (fun x => decide (x.Hash = hash) && decide (x.RefCount + delta < 0)) = false := by
    rw [List.any_eq_false]
    intro b hb
    by_cases hbh : b.Hash = hash
    · have := hpos b hb hbh
      simp [hbh]; omega
    · simp [hbh]
  unfold updateRefCount
  simp only [hst, hany, Bool.and_false, Bool.false_eq_true, if_false]
  rfl

/-- An UPDATE of a count that the database executes and that the check on the count, where
declared, does not refuse, applies `delta` to the rows of the digest. -/
theorem updateRefCount_applies (sch : Schema) (st : Stmt) (hash : String) (delta : Int) (db : DB)
    (hst : st.fails = false)
    (hpos : sch.refCountCheck = true → ∀ b ∈ db.blobs, b.Hash = hash → 0 ≤ b.RefCount + delta) :
    updateRefCount sch st hash delta db = (⟨db.blobs.map (bump hash delta), db.files⟩, none) := by
  cases hc : sch.refCountCheck with
  | true => exact updateRefCount_ok sch st hash delta db hst (hpos hc)
  | false =>
    unfold updateRefCount
    simp only [hst, hc, Bool.false_and, Bool.false_eq_true, if_false]
    rfl

/-- With unique file ids the lookup of `DeleteFileAndMaybeBlob` finds the row with the given
id and owner. -/
theorem find_file_of_unique (ownerID fileID : String) (row : File) (files : List File)
    (hid : (files.map (fun f => f.ID)).Nodup) (hrow : row ∈ files)
    (h1 : row.ID = fileID) (h2 : row.OwnerID = ownerID) :
    files.find? (fun f => decide (f.ID = fileID) && decide (f.OwnerID = ownerID)) = some row := by
  cases hf : files.find? (fun f => decide (f.ID = fileID) && decide (f.OwnerID = ownerID)) with
  | none =>
    rw [List.find?_eq_none] at hf
    exact absurd (by simp [h1, h2]) (hf row hrow)
  | some r =>
    have hr := List.mem_of_find?_eq_some hf
    have hp := List.find?_some hf
    simp only [Bool.and_eq_true, decide_eq_true_eq] at hp
    have : r = row := List.inj_on_of_nodup_map hid hr hrow (hp.1.trans h1.symm)
    rw [this]

/-- `DeleteFileAndMaybeBlob` returns nil only with the row removed and the count lowered, and
returns an error only with every count as it was. -/
theorem delete_result_summary (sch : Schema) (env : DeleteEnv) (ownerID fileID : String)
    (db : DB) (hid : (db.files.map (fun f => f.ID)).Nodup) :
    ((DeleteFileAndMaybeBlob sch env ownerID fileID db).2 = none →
      ∃ row ∈ db.files, row.ID = fileID ∧ row.OwnerID = ownerID ∧
        (DeleteFileAndMaybeBlob sch env ownerID fileID db).1.files = db.files.erase row ∧
        (DeleteFileAndMaybeBlob sch env ownerID fileID db).1.blobs = db.blobs.map
          (fun b => if b.Hash = row.BlobHash then { b with RefCount := b.RefCount + -1 } else b)) ∧
    ((DeleteFileAndMaybeBlob sch env ownerID fileID db).2 ≠ none →
      (DeleteFileAndMaybeBlob sch env ownerID fileID db).1.blobs = db.blobs ∧
      ((DeleteFileAndMaybeBlob sch env ownerID fileID db).1.files = db.files ∨
        (env.select.fails = false ∧ env.delete.fails = false ∧
          ∃ row ∈ db.files, row.ID = fileID ∧ row.OwnerID = ownerID ∧
            (DeleteFileAndMaybeBlob sch env ownerID fileID db).1.files = db.files.erase row))) := by
  unfold DeleteFileAndMaybeBlob
  cases hs : env.select.fails with
  | true => simp
  | false =>
    simp only [Bool.false_eq_true, if_false]
    cases hfind : db.files.find?
        (fun f => decide (f.ID = fileID) && decide (f.OwnerID = ownerID)) with
    | none => simp
    | some row =>
      simp only
      cases hd : env.delete.fails with
      | true => simp
      | false =>
        simp only [Bool.false_eq_true, if_false]
        have hmem := List.mem_of_find?_eq_some hfind
        have hp := List.find?_some hfind
        simp only [Bool.and_eq_true, decide_eq_true_eq] at hp
        have her := filter_not_owned_eq_erase ownerID fileID row db.files hid hfind
        rw [her]
        unfold updateRefCount
        cases hu : env.update.fails with
        | true =>
          simp only [if_true]
          refine ⟨by simp, fun _ => ⟨trivial, Or.inr ⟨trivial, trivial, row, hmem, hp.1, hp.2, rfl⟩⟩⟩
        | false =>
          simp only [Bool.false_eq_true, if_false]
          split
          · refine ⟨by simp, fun _ => ⟨rfl, Or.inr ⟨trivial, trivial, row, hmem, hp.1, hp.2, rfl⟩⟩⟩
          · refine ⟨fun _ => ⟨row, hmem, hp.1, hp.2, rfl, rfl⟩, by simp⟩

/-- C9, amended: `DeleteFileAndMaybeBlob` runs its lookup, its DELETE and its UPDATE as three
statements, each on its own.  On a ledger with unique file ids, and with no other call changing
the ledger between them: it returns nil exactly when all three took effect, having removed
exactly the file row with that id and owner and applied -1 to the count of its blob; when the
lookup fails or finds no such row, or the DELETE fails, it returns the error and the ledger is
unchanged; when the final UPDATE fails (the statement does not run, or the check on the count
refuses it), it returns that error with the file row already deleted and no count changed. -/
theorem delete_outcomes (sch : Schema) (env : DeleteEnv) (ownerID fileID : String) (db : DB)
    (hid : (db.files.map (fun f => f.ID)).Nodup) :
    (env.select.fails = true →
      DeleteFileAndMaybeBlob sch env ownerID fileID db = (db, some DbError.failed)) ∧
    (env.select.fails = false → (∀ f ∈ db.files, ¬ (f.ID = fileID ∧ f.OwnerID = ownerID)) →
      DeleteFileAndMaybeBlob sch env ownerID fileID db = (db, some DbError.noRows)) ∧
    (∀ row ∈ db.files, row.ID = fileID → row.OwnerID = ownerID → env.select.fails = false →
      (env.delete.fails = true →
        DeleteFileAndMaybeBlob sch env ownerID fileID db = (db, some DbError.failed)) ∧
      (env.delete.fails = false → env.update.fails = true →
        DeleteFileAndMaybeBlob sch env ownerID fileID db =
          (⟨db.blobs, db.files.erase row⟩, some DbError.failed)) ∧
      (env.delete.fails = false → env.update.fails = false → sch.refCountCheck = true →
        (∃ b ∈ db.blobs, b.Hash = row.BlobHash ∧ b.RefCount < 1) →
        DeleteFileAndMaybeBlob sch env ownerID fileID db =
          (⟨db.blobs, db.files.erase row⟩, some DbError.checkViolation)) ∧
      (env.delete.fails = false → env.update.fails = false →
        (sch.refCountCheck = true → ∀ b ∈ db.blobs, b.Hash = row.BlobHash → 1 ≤ b.RefCount) →
        DeleteFileAndMaybeBlob sch env ownerID fileID db =
          (⟨db.blobs.map (bump row.BlobHash (-1)), db.files.erase row⟩, none))) ∧
    ((DeleteFileAndMaybeBlob sch env ownerID fileID db).2 = none →
      ∃ row ∈ db.files, row.ID = fileID ∧ row.OwnerID = ownerID ∧
        (DeleteFileAndMaybeBlob sch env ownerID fileID db).1.files = db.files.erase row ∧
        (DeleteFileAndMaybeBlob sch env ownerID fileID db).1.blobs =
          db.blobs.map (bump row.BlobHash (-1))) ∧
    ((DeleteFileAndMaybeBlob sch env ownerID fileID db).2 ≠ none →
      (DeleteFileAndMaybeBlob sch env ownerID fileID db).1.blobs = db.blobs) := by
  refine ⟨?_, ?_, ?_, ?_, ?_⟩
  · intro hs
    simp [DeleteFileAndMaybeBlob, hs]
  · intro hs hno
    have hfind : db.files.find?
        (fun f => decide (f.ID = fileID) && decide (f.OwnerID = ownerID)) = none := by
      rw [List.find?_eq_none]
      intro f hf
      simpa using hno f hf
    simp [DeleteFileAndMaybeBlob, hs, hfind]
  · intro row hrow h1 h2 hs
    have hfind := find_file_of_unique ownerID fileID row db.files hid hrow h1 h2
    have her := filter_not_owned_eq_erase ownerID fileID row db.files hid hfind
    refine ⟨?_, ?_, ?_, ?_⟩
    · intro hd
      simp [DeleteFileAndMaybeBlob, hs, hfind, hd]
    · intro hd hu
      simp only [DeleteFileAndMaybeBlob, hs, hfind, hd, her, updateRefCount, hu,
        Bool.false_eq_true, if_false, if_true]
    · intro hd hu hc hlow
      have hany : db.blobs.any
          (fun x => decide (x.Hash = row.BlobHash) && decide (x.RefCount + -1 < 0)) = true := by
        rw [List.any_eq_true]
        obtain ⟨b, hb, hbh, hbc⟩ := hlow
        refine ⟨b, hb, ?_⟩
        simp only [hbh, decide_True, Bool.true_and, decide_eq_true_eq]
        omega
      simp only [DeleteFileAndMaybeBlob, hs, hfind, hd, her, updateRefCount, hu, hc, hany,
        Bool.false_eq_true, if_false, Bool.and_self, if_true]
    · intro hd hu hhigh
      have hup := updateRefCount_applies sch env.update row.BlobHash (-1)
        ⟨db.blobs, db.files.erase row⟩ hu (by
          intro hc b hb hbh
          have := hhigh hc b hb hbh
          omega)
      simp only [DeleteFileAndMaybeBlob, hs, hfind, hd, her, Bool.false_eq_true, if_false]
      exact hup
  · intro h
    obtain ⟨row, hrow, h1, h2, h3, h4⟩ := (delete_result_summary sch env ownerID fileID db hid).1 h
    exact ⟨row, hrow, h1, h2, h3, h4⟩
  · intro h
    exact ((delete_result_summary sch env ownerID fileID db hid).2 h).1

theorem delete_outcomes_witness :
    (failingUpdate.select.fails = true →
      DeleteFileAndMaybeBlob ⟨true, true⟩ failingUpdate "u" "f1" oneRefLedger =
          (oneRefLedger, some DbError.failed)) ∧
    (failingUpdate.select.fails = false → (∀ f ∈ oneRefLedger.files, ¬ (f.ID = "f1" ∧ f.OwnerID =
        "u")) →
      DeleteFileAndMaybeBlob ⟨true, true⟩ failingUpdate "u" "f1" oneRefLedger =
          (oneRefLedger, some DbError.noRows)) ∧
    (∀ row ∈ oneRefLedger.files, row.ID = "f1" → row.OwnerID = "u" → failingUpdate.select.fails =
        false →
      (failingUpdate.delete.fails = true →
        DeleteFileAndMaybeBlob ⟨true, true⟩ failingUpdate "u" "f1" oneRefLedger =
            (oneRefLedger, some DbError.failed)) ∧
      (failingUpdate.delete.fails = false → failingUpdate.update.fails = true →
        DeleteFileAndMaybeBlob ⟨true, true⟩ failingUpdate "u" "f1" oneRefLedger =
          (⟨oneRefLedger.blobs, oneRefLedger.files.erase row⟩, some DbError.failed)) ∧
      (failingUpdate.delete.fails = false → failingUpdate.update.fails = false →
          (⟨true, true⟩ : Schema).refCountCheck = true →
        (∃ b ∈ oneRefLedger.blobs, b.Hash = row.BlobHash ∧ b.RefCount < 1) →
        DeleteFileAndMaybeBlob ⟨true, true⟩ failingUpdate "u" "f1" oneRefLedger =
          (⟨oneRefLedger.blobs, oneRefLedger.files.erase row⟩, some DbError.checkViolation)) ∧
      (failingUpdate.delete.fails = false → failingUpdate.update.fails = false →
        ((⟨true, true⟩ : Schema).refCountCheck = true → ∀ b ∈ oneRefLedger.blobs, b.Hash =
            row.BlobHash → 1 ≤ b.RefCount) →
        DeleteFileAndMaybeBlob ⟨true, true⟩ failingUpdate "u" "f1" oneRefLedger =
          (⟨oneRefLedger.blobs.map (bump row.BlobHash (-1)), oneRefLedger.files.erase row⟩, none))) ∧
    ((DeleteFileAndMaybeBlob ⟨true, true⟩ failingUpdate "u" "f1" oneRefLedger).2 = none →
      ∃ row ∈ oneRefLedger.files, row.ID = "f1" ∧ row.OwnerID = "u" ∧
        (DeleteFileAndMaybeBlob ⟨true, true⟩ failingUpdate "u" "f1" oneRefLedger).1.files =
            oneRefLedger.files.erase row ∧
        (DeleteFileAndMaybeBlob ⟨true, true⟩ failingUpdate "u" "f1" oneRefLedger).1.blobs =
          oneRefLedger.blobs.map (bump row.BlobHash (-1))) ∧
    ((DeleteFileAndMaybeBlob ⟨true, true⟩ failingUpdate "u" "f1" oneRefLedger).2 ≠ none →
      (DeleteFileAndMaybeBlob ⟨true, true⟩ failingUpdate "u" "f1" oneRefLedger).1.blobs =
          oneRefLedger.blobs) :=
  delete_outcomes ⟨true, true⟩ failingUpdate "u" "f1" oneRefLedger (by decide)

theorem CreateFile_cases (sch : Schema) (st : Stmt) (f : File) (db : DB) :
    (∃ e, CreateFile sch st f db = (db, .error e)) ∨
    (CreateFile sch st f db =
        (⟨db.blobs, db.files ++ [{ f with ID := st.newID, CreatedAt := st.now }]⟩,
          .ok { f with ID := st.newID, CreatedAt := st.now }) ∧
      st.newID ∉ db.files.map (fun x => x.ID) ∧
      (sch.blobForeignKey = true → ∃ b ∈ db.blobs, b.Hash = f.BlobHash)) := by
  unfold CreateFile
  cases hf : st.fails with
  | true => exact Or.inl ⟨DbError.failed, by simp⟩
  | false =>
    cases hid : db.files.any (fun x => x.ID = st.newID) with
    | true => exact Or.inl ⟨DbError.uniqueViolation, by simp⟩
    | false =>
      cases hfk : (sch.blobForeignKey && !(db.blobs.any (fun x => x.Hash = f.BlobHash))) with
      | true => exact Or.inl ⟨DbError.foreignKeyViolation, by simp⟩
      | false =>
        refine Or.inr ⟨by simp, ?_, ?_⟩
        · rw [List.any_eq_false] at hid
          intro hmem
          obtain ⟨x, hx, hxid⟩ := List.mem_map.mp hmem
          exact hid x hx (by simpa using hxid)
        · intro hk
          rw [hk] at hfk
          simp only [Bool.true_and, Bool.not_eq_false'] at hfk
          obtain ⟨b, hb, hbh⟩ := List.any_eq_true.mp hfk
          exact ⟨b, hb, by simpa using hbh⟩

theorem CreateFile_ok (sch : Schema) (st : Stmt) (f : File) (db : DB)
    (hst : st.fails = false) (hfresh : ∀ x ∈ db.files, x.ID ≠ st.newID)
    (hblob : ∃ b ∈ db.blobs, b.Hash = f.BlobHash) :
    CreateFile sch st f db =
      (⟨db.blobs, db.files ++ [{ f with ID := st.newID, CreatedAt := st.now }]⟩,
        .ok { f with ID := st.newID, CreatedAt := st.now }) := by
  have h1 : db.files.any (fun x => x.ID = st.newID) = false := by
    rw [List.any_eq_false]
    intro x hx
    simpa using hfresh x hx
  have h2 : db.blobs.any (fun x => x.Hash = f.BlobHash) = true := by
    rw [List.any_eq_true]
    obtain ⟨b, hb, hbh⟩ := hblob
    exact ⟨b, hb, by simpa using hbh⟩
  simp [CreateFile, hst, h1, h2]

theorem InsertBlob_zero_cases (sch : Schema) (st : Stmt) (b : Blob) (db : DB)
    (hz : b.RefCount = 0) :
    (InsertBlob sch st b db).1 = db ∨
    ((∀ x ∈ db.blobs, x.Hash ≠ b.Hash) ∧
      (InsertBlob sch st b db).1 = ⟨db.blobs ++ [{ b with CreatedAt := st.now }], db.files⟩) := by
  unfold InsertBlob
  cases hf : st.fails with
  | true => exact Or.inl (by simp)
  | false =>
    cases hany : db.blobs.any (fun x => x.Hash = b.Hash) with
    | true => exact Or.inl (by simp [hz])
    | false =>
      refine Or.inr ⟨?_, by simp [hz]⟩
      rw [List.any_eq_false] at hany
      intro x hx
      simpa using hany x hx

theorem InsertBlob_zero_row (sch : Schema) (st : Stmt) (b : Blob) (db : DB)
    (hz : b.RefCount = 0) (hst : st.fails = false) :
    ∃ x ∈ (InsertBlob sch st b db).1.blobs, x.Hash = b.Hash := by
  unfold InsertBlob
  cases hany : db.blobs.any (fun x => x.Hash = b.Hash) with
  | true =>
    obtain ⟨x, hx, hxh⟩ := List.any_eq_true.mp hany
    exact ⟨x, by simpa [hst, hz] using hx, by simpa using hxh⟩
  | false =>
    exact ⟨{ b with CreatedAt := st.now }, by simp [hst, hz], rfl⟩

/-- A file whose declared MIME string passes the check, whose `WriteAndHash` succeeds and whose
`InsertBlob` and `CreateFile` statements the database executes, the generated id being new, is
processed without error: the blob row is recorded if absent, the file row is added and the +1
is issued. -/
theorem uploadFile_ok (sch : Schema) (storage : Service) (userID declaredMIME : String)
    (fh : FileHeader) (env : FileEnv) (w : World) (fs1 : FS) (x : Written)
    (hm : ¬ (declaredMIME ≠ "" ∧ ¬ declaredMIME.data.contains '/'))
    (hW : WriteAndHash storage env.fsFaults fh.content w.fs = (fs1, .ok x))
    (hins : env.insertBlob.fails = false) (hcf : env.createFile.fails = false)
    (hfresh : ∀ f ∈ w.db.files, f.ID ≠ env.createFile.newID) :
    uploadFile sch storage userID declaredMIME fh env w =
      (⟨fs1, (IncBlobRef sch env.incBlobRef x.sum 1
        ⟨(InsertBlob sch env.insertBlob
            ⟨x.sum, x.written, if declaredMIME ≠ "" then some declaredMIME else none,
              x.finalPath, 0, 0⟩ w.db).1.blobs,
          w.db.files ++ [⟨env.createFile.newID, userID, x.sum, fh.Filename, x.written,
            if declaredMIME ≠ "" then some declaredMIME else none, false, [],
            env.createFile.now⟩]⟩).1⟩, none) := by
  have hrow := InsertBlob_zero_row sch env.insertBlob
    ⟨x.sum, x.written, if declaredMIME ≠ "" then some declaredMIME else none,
      x.finalPath, 0, 0⟩ w.db rfl hins
  have hfiles : (InsertBlob sch env.insertBlob
      ⟨x.sum, x.written, if declaredMIME ≠ "" then some declaredMIME else none,
        x.finalPath, 0, 0⟩ w.db).1.files = w.db.files := by
    rcases InsertBlob_zero_cases sch env.insertBlob
      ⟨x.sum, x.written, if declaredMIME ≠ "" then some declaredMIME else none,
        x.finalPath, 0, 0⟩ w.db rfl with h1 | ⟨_, h1⟩ <;> rw [h1]
  have hok := CreateFile_ok sch env.createFile
    ⟨"", userID, x.sum, fh.Filename, x.written,
      if declaredMIME ≠ "" then some declaredMIME else none, false, [], 0⟩
    (InsertBlob sch env.insertBlob
      ⟨x.sum, x.written, if declaredMIME ≠ "" then some declaredMIME else none,
        x.finalPath, 0, 0⟩ w.db).1 hcf (by rw [hfiles]; exact hfresh) hrow
  unfold uploadFile
  rw [if_neg hm, hW]
  simp only
  rw [hok, hfiles]

theorem LedgerInv_InsertBlob (sch : Schema) (st : Stmt) (b : Blob) (db : DB)
    (hz : b.RefCount = 0) (hinv : LedgerInv db) : LedgerInv (InsertBlob sch st b db).1 := by
  rcases InsertBlob_zero_cases sch st b db hz with h | ⟨hnew, h⟩
  · rw [h]; exact hinv
  · rw [h]
    obtain ⟨hcnt, hnd, hrow⟩ := hinv
    refine ⟨?_, hnd, ?_⟩
    · intro x hx
      rcases List.mem_append.mp hx with hx | hx
      · exact hcnt x hx
      · simp only [List.mem_singleton] at hx
        subst hx
        have : fileRefs b.Hash ⟨db.blobs ++ [{ b with CreatedAt := st.now }], db.files⟩ = 0 := by
          unfold fileRefs
          rw [List.countP_eq_zero]
          intro f hf
          obtain ⟨y, hy, hyh⟩ := hrow f hf
          have := hnew y hy
          simp only [decide_eq_true_eq]
          intro hfb
          exact this (hyh.trans hfb)
        refine ⟨le_of_eq hz.symm, ?_⟩
        show b.RefCount = ((fileRefs b.Hash _ : Nat) : Int)
        rw [this, hz]
        rfl
    · intro f hf
      obtain ⟨y, hy, hyh⟩ := hrow f hf
      exact ⟨y, List.mem_append_left _ hy, hyh⟩

theorem countP_erase_add {α : Type} [DecidableEq α] (p : α → Bool) (a : α) :
    ∀ l : List α, a ∈ l → l.countP p = (l.erase a).countP p + if p a then 1 else 0 := by
  intro l
  induction l with
  | nil => intro h; cases h
  | cons b l ih =>
    intro h
    by_cases hba : b = a
    · subst hba
      simp [List.countP_cons]
    · have hmem : a ∈ l := by
        rcases List.mem_cons.mp h with h | h
        · exact absurd h.symm hba
        · exact h
      have hne : ¬ (b == a) = true := by simpa using hba
      rw [List.erase_cons_tail hne, List.countP_cons, List.countP_cons, ih hmem]
      omega

/-- Creating a file row over a digest that has a blob row and adding 1 to its count keeps
the invariant. -/
theorem LedgerInv_create_and_count (sch : Schema) (stc sti : Stmt) (f : File) (db : DB)
    (hinv : LedgerInv db) (hblob : ∃ b ∈ db.blobs, b.Hash = f.BlobHash)
    (hsti : sti.fails = false) :
    (∃ e, CreateFile sch stc f db = (db, .error e)) ∨
    (∃ row, CreateFile sch stc f db = (⟨db.blobs, db.files ++ [row]⟩, .ok row) ∧
      row.BlobHash = f.BlobHash ∧
      LedgerInv (IncBlobRef sch sti f.BlobHash 1 ⟨db.blobs, db.files ++ [row]⟩).1) := by
  rcases CreateFile_cases sch stc f db with h | ⟨h, hfresh, _⟩
  · exact Or.inl h
  · refine Or.inr ⟨_, h, rfl, ?_⟩
    obtain ⟨hcnt, hnd, hrow⟩ := hinv
    have hup := updateRefCount_ok sch sti f.BlobHash 1
      ⟨db.blobs, db.files ++ [{ f with ID := stc.newID, CreatedAt := stc.now }]⟩ hsti
      (by
        intro b hb _
        have := (hcnt b hb).1
        omega)
    unfold IncBlobRef
    rw [hup]
    refine ⟨?_, ?_, ?_⟩
    · intro b' hb'
      obtain ⟨b, hb, rfl⟩ := List.mem_map.mp hb'
      obtain ⟨h0, hex⟩ := hcnt b hb
      rw [bump_Hash]
      have hrefs : fileRefs b.Hash
          ⟨db.blobs.map (bump f.BlobHash 1),
            db.files ++ [{ f with ID := stc.newID, CreatedAt := stc.now }]⟩ =
          fileRefs b.Hash db + if f.BlobHash = b.Hash then 1 else 0 := by
        unfold fileRefs
        simp [List.countP_append, List.countP_cons]
      rw [hrefs]
      unfold bump
      by_cases hbh : b.Hash = f.BlobHash
      · simp only [hbh, if_true, Nat.cast_add, Nat.cast_one]
        rw [hbh] at hex
        omega
      · have hbh' : ¬ f.BlobHash = b.Hash := fun h => hbh h.symm
        simp only [hbh, hbh', if_false, Nat.add_zero]
        exact ⟨h0, hex⟩
    · simp only [List.map_append, List.map_cons, List.map_nil]
      rw [List.nodup_append]
      refine ⟨hnd, by simp, ?_⟩
      intro a ha hb
      simp only [List.mem_singleton] at hb
      subst hb
      exact hfresh ha
    · intro g hg
      have : ∃ b ∈ db.blobs, b.Hash = g.BlobHash := by
        rcases List.mem_append.mp hg with hg | hg
        · exact hrow g hg
        · simp only [List.mem_singleton] at hg
          subst hg
          exact hblob
      obtain ⟨b, hb, hbh⟩ := this
      exact ⟨bump f.BlobHash 1 b, List.mem_map_of_mem _ hb, by rw [bump_Hash]; exact hbh⟩

/-- `DeleteFileAndMaybeBlob` keeps the invariant when the database does not fail its UPDATE. -/
theorem LedgerInv_delete (sch : Schema) (env : DeleteEnv) (ownerID fileID : String) (db : DB)
    (hinv : LedgerInv db) (hu : env.update.fails = false) :
    LedgerInv (DeleteFileAndMaybeBlob sch env ownerID fileID db).1 := by
  unfold DeleteFileAndMaybeBlob
  cases hs : env.select.fails with
  | true => simpa using hinv
  | false =>
    simp only [Bool.false_eq_true, if_false]
    cases hfind : db.files.find?
        (fun f => decide (f.ID = fileID) && decide (f.OwnerID = ownerID)) with
    | none => simpa using hinv
    | some row =>
      simp only
      cases hd : env.delete.fails with
      | true => simpa using hinv
      | false =>
        simp only [Bool.false_eq_true, if_false]
        obtain ⟨hcnt, hnd, hrow⟩ := hinv
        have hmem := List.mem_of_find?_eq_some hfind
        rw [filter_not_owned_eq_erase ownerID fileID row db.files hnd hfind]
        have hsplit : ∀ h : String, fileRefs h db =
            fileRefs h ⟨db.blobs, db.files.erase row⟩ + if row.BlobHash = h then 1 else 0 := by
          intro h
          unfold fileRefs
          have := countP_erase_add (fun f : File => decide (f.BlobHash = h)) row db.files hmem
          simpa using this
        have hup := updateRefCount_ok sch env.update row.BlobHash (-1)
          ⟨db.blobs, db.files.erase row⟩ hu
          (by
            intro b hb hbh
            have h1 := (hcnt b hb).2
            have h2 := hsplit row.BlobHash
            simp only [if_true] at h2
            rw [hbh] at h1
            show 0 ≤ b.RefCount + -1
            omega)
        rw [hup]
        refine ⟨?_, ?_, ?_⟩
        · intro b' hb'
          obtain ⟨b, hb, rfl⟩ := List.mem_map.mp hb'
          obtain ⟨h0, hex⟩ := hcnt b hb
          rw [bump_Hash]
          have h2 := hsplit b.Hash
          have hsame : fileRefs b.Hash ⟨db.blobs.map (bump row.BlobHash (-1)), db.files.erase row⟩ =
              fileRefs b.Hash ⟨db.blobs, db.files.erase row⟩ := rfl
          rw [hsame]
          unfold bump
          by_cases hbh : b.Hash = row.BlobHash
          · have hbh' : row.BlobHash = b.Hash := hbh.symm
            simp only [hbh', if_true] at h2
            simp only [hbh, if_true]
            rw [hbh] at hex h2
            omega
          · have hbh' : ¬ row.BlobHash = b.Hash := fun h => hbh h.symm
            simp only [hbh', if_false, Nat.add_zero] at h2
            simp only [hbh, if_false]
            rw [← h2]
            exact ⟨h0, hex⟩
        · exact (List.Sublist.map _ (List.erase_sublist row db.files)).nodup hnd
        · intro g hg
          obtain ⟨b, hb, hbh⟩ := hrow g (List.mem_of_mem_erase hg)
          exact ⟨bump row.BlobHash (-1) b, List.mem_map_of_mem _ hb, by rw [bump_Hash]; exact hbh⟩

theorem LedgerInv_uploadFile (sch : Schema) (storage : Service) (userID declaredMIME : String)
    (fh : FileHeader) (env : FileEnv) (w : World) (hinv : LedgerInv w.db)
    (hins : env.insertBlob.fails = false) (hinc : env.incBlobRef.fails = false) :
    LedgerInv (uploadFile sch storage userID declaredMIME fh env w).1.db := by
  unfold uploadFile
  split
  · exact hinv
  · cases hW : WriteAndHash storage env.fsFaults fh.content w.fs with
    | mk fs1 res =>
      cases res with
      | error e => exact hinv
      | ok x =>
        simp only
        have hinv1 := LedgerInv_InsertBlob sch env.insertBlob
          ⟨x.sum, x.written, if declaredMIME ≠ "" then some declaredMIME else none,
            x.finalPath, 0, 0⟩ w.db rfl hinv
        have hrow := InsertBlob_zero_row sch env.insertBlob
          ⟨x.sum, x.written, if declaredMIME ≠ "" then some declaredMIME else none,
            x.finalPath, 0, 0⟩ w.db rfl hins
        rcases LedgerInv_create_and_count sch env.createFile env.incBlobRef
          ⟨"", userID, x.sum, fh.Filename, x.written,
            if declaredMIME ≠ "" then some declaredMIME else none, false, [], 0⟩ _ hinv1 hrow hinc
          with ⟨e, hc⟩ | ⟨row, hc, _, hfin⟩
        · rw [hc]; exact hinv1
        · rw [hc]; exact hfin

theorem LedgerInv_uploadLoop (sch : Schema) (storage : Service) (userID declaredMIME : String) :
    ∀ (files : List (FileHeader × FileEnv)) (w : World), LedgerInv w.db →
      files.all (fun p => !p.2.insertBlob.fails && !p.2.incBlobRef.fails) = true →
      LedgerInv (uploadLoop sch storage userID declaredMIME files w).1.db := by
  intro files
  induction files with
  | nil => intro w hinv _; exact hinv
  | cons p rest ih =>
    intro w hinv hall
    obtain ⟨fh, env⟩ := p
    simp only [List.all_cons, Bool.and_eq_true, Bool.not_eq_true'] at hall
    obtain ⟨⟨hins, hinc⟩, hrest⟩ := hall
    unfold uploadLoop
    split
    · exact hinv
    · have h1 := LedgerInv_uploadFile sch storage userID declaredMIME fh env w hinv hins hinc
      cases hU : uploadFile sch storage userID declaredMIME fh env w with
      | mk w1 oe =>
        rw [hU] at h1
        cases oe with
        | some e => exact h1
        | none => exact ih w1 h1 (by simpa using hrest)

theorem LedgerInv_step (sch : Schema) (storage : Service) (w : World) (op : Op)
    (hinv : LedgerInv w.db) (hop : op.countsApplied = true) :
    LedgerInv (step sch storage w op).db := by
  cases op with
  | upload req =>
    simp only [Op.countsApplied] at hop
    simp only [step, handleUpload]
    split
    · exact hinv
    · split
      · exact hinv
      · split
        · exact hinv
        · split
          · exact hinv
          · exact LedgerInv_uploadLoop sch storage _ _ _ w hinv hop
  | delete ownerID fileID env =>
    simp only [Op.countsApplied, Bool.not_eq_true'] at hop
    exact LedgerInv_delete sch env ownerID fileID w.db hinv hop

theorem LedgerInv_foldl (sch : Schema) (storage : Service) :
    ∀ (ops : List Op) (w : World), LedgerInv w.db → ops.all Op.countsApplied = true →
      LedgerInv (ops.foldl (step sch storage) w).db := by
  intro ops
  induction ops with
  | nil => intro w hinv _; exact hinv
  | cons op ops ih =>
    intro w hinv hall
    simp only [List.all_cons, Bool.and_eq_true] at hall
    exact ih _ (LedgerInv_step sch storage w op hinv hall.1) hall.2

/-- Requests served one at a time: in every state reached from the empty store by uploads and
deletions, each run to its end before the next begins, in which the database fails no InsertBlob
statement and no UPDATE of a count (any other statement and any file-system call may fail),
every blob row has a count that is not negative and equals the number of file rows over its
hash. -/
theorem refcounts_exact_when_counts_applied (sch : Schema) (storage : Service) (ops : List Op)
    (h : ops.all Op.countsApplied = true) : RefCountsExact (run sch storage ops).db :=
  (LedgerInv_foldl sch storage ops World.empty
    ⟨(by intro b hb; cases hb), (by simp [World.empty, DB.empty]), (by intro f hf; cases hf)⟩ h).1

theorem countCalls_update (p : InFlight → Bool) (calls : Nat → InFlight) (i : Nat)
    (v : InFlight) :
    ∀ n, countCalls p (Function.update calls i v) n + (if i < n ∧ p (calls i) then 1 else 0) =
      countCalls p calls n + (if i < n ∧ p v then 1 else 0) := by
  intro n
  induction n with
  | zero => simp [countCalls]
  | succ n ih =>
    simp only [countCalls]
    by_cases hin : n = i
    · subst hin
      have h1 : ¬ n < n := lt_irrefl n
      simp only [h1, false_and, if_false, Nat.add_zero] at ih
      simp only [Function.update_same, Nat.lt_succ_self, true_and]
      omega
    · have hne : Function.update calls i v n = calls n := Function.update_noteq hin v calls
      rw [hne]
      have hlt : i < n + 1 ↔ i < n := by omega
      simp only [hlt]
      omega

theorem countCalls_none (p : InFlight → Bool) (calls : Nat → InFlight) :
    ∀ n, (∀ j < n, p (calls j) = false) → countCalls p calls n = 0 := by
  intro n
  induction n with
  | zero => intro _; rfl
  | succ n ih =>
    intro h
    simp only [countCalls, h n (Nat.lt_succ_self n), Bool.false_eq_true, if_false]
    rw [ih (fun j hj => h j (Nat.lt_succ_of_lt hj))]

theorem countCalls_pos (p : InFlight → Bool) (calls : Nat → InFlight) :
    ∀ n, (∃ j < n, p (calls j) = true) → 0 < countCalls p calls n := by
  intro n
  induction n with
  | zero => intro ⟨j, hj, _⟩; omega
  | succ n ih =>
    intro ⟨j, hj, hp⟩
    simp only [countCalls]
    by_cases hjn : j = n
    · subst hjn
      rw [hp]
      simp
    · have := ih ⟨j, by omega, hp⟩
      omega

theorem countCalls_update_same (p : InFlight → Bool) (calls : Nat → InFlight) (i n : Nat)
    (v : InFlight) (h : p (calls i) = p v) :
    countCalls p (Function.update calls i v) n = countCalls p calls n := by
  have := countCalls_update p calls i v n
  rw [h] at this
  omega

theorem countCalls_update_gain (p : InFlight → Bool) (calls : Nat → InFlight) (i n : Nat)
    (v : InFlight) (hi : i < n) (h0 : p (calls i) = false) (h1 : p v = true) :
    countCalls p (Function.update calls i v) n = countCalls p calls n + 1 := by
  have := countCalls_update p calls i v n
  simp only [h0, h1, hi, true_and, Bool.false_eq_true, if_false, if_true, Nat.add_zero] at this
  exact this

theorem countCalls_update_loss (p : InFlight → Bool) (calls : Nat → InFlight) (i n : Nat)
    (v : InFlight) (hi : i < n) (h0 : p (calls i) = true) (h1 : p v = false) :
    countCalls p (Function.update calls i v) n + 1 = countCalls p calls n := by
  have := countCalls_update p calls i v n
  simp only [h0, h1, hi, true_and, Bool.false_eq_true, if_false, if_true, Nat.add_zero] at this
  exact this

/-- A call begun after the first `n` does not count among them. -/
theorem countCalls_update_beyond (p : InFlight → Bool) (calls : Nat → InFlight) (i n : Nat)
    (v : InFlight) (hi : n ≤ i) :
    countCalls p (Function.update calls i v) n = countCalls p calls n := by
  have := countCalls_update p calls i v n
  have hlt : ¬ i < n := by omega
  simp only [hlt, false_and, if_false, Nat.add_zero] at this
  exact this

/-- An UPDATE of a count that returns no error has applied `delta` to the rows of the digest. -/
theorem updateRefCount_none (sch : Schema) (st : Stmt) (hash : String) (delta : Int) (db : DB)
    (h : (updateRefCount sch st hash delta db).2 = none) :
    (updateRefCount sch st hash delta db).1 = ⟨db.blobs.map (bump hash delta), db.files⟩ := by
  unfold updateRefCount at h ⊢
  split at h
  · simp at h
  · split at h
    · simp at h
    · rename_i h1 h2
      rw [if_neg h1, if_neg h2]
      rfl

theorem hasBlob_bump (h hash : String) (delta : Int) (blobs : List Blob) (files files' : List File)
    (hb : hasBlob h ⟨blobs, files⟩) : hasBlob h ⟨blobs.map (bump hash delta), files'⟩ := by
  obtain ⟨b, hb, hbh⟩ := hb
  exact ⟨bump hash delta b, List.mem_map_of_mem _ hb, (bump_Hash hash delta b).trans hbh⟩

theorem deleting_of_call (c c' : InFlight) (id : String) (hcall : c'.call = c.call)
    (hpc : c'.pc < 3 → c.pc < 3) (h : c'.deleting id = true) : c.deleting id = true := by
  unfold InFlight.deleting at h ⊢
  rw [hcall] at h
  cases hc : c.call with
  | upload u nm m x => rw [hc] at h; cases h
  | delete o id' =>
    rw [hc] at h
    simp only [Bool.and_eq_true, decide_eq_true_eq] at h ⊢
    exact ⟨h.1, hpc h.2⟩

/-- One statement of call `k` keeps the invariant, given what it does to the tables and to the
call itself. -/
theorem InFlightInv_next (s : Ledger) (k : Nat) (db' : DB) (c' : InFlight)
    (hinv : InFlightInv s) (hk : k < s.n)
    (hcall : c'.call = (s.calls k).call)
    (hblobs : ∀ h, hasBlob h s.db → hasBlob h db')
    (hcounts : ∀ b ∈ db'.blobs,
      b.RefCount + (countCalls (pendingInc b.Hash) (Function.update s.calls k c') s.n : Int) =
        (fileRefs b.Hash db' : Int) +
          (countCalls (pendingDec b.Hash) (Function.update s.calls k c') s.n : Int))
    (hids : (db'.files.map (fun f => f.ID)).Nodup)
    (hfileBlob : ∀ f ∈ db'.files, hasBlob f.BlobHash db')
    (hownU : ∀ u nm m x, c'.call = .upload u nm m x → 1 ≤ c'.pc → c'.pc ≤ 2 →
      hasBlob x.sum db')
    (hownD : ∀ o id, c'.call = .delete o id → 1 ≤ c'.pc → c'.pc ≤ 2 → hasBlob c'.blob db')
    (hfoundk : ∀ o id, c'.call = .delete o id → c'.pc = 1 →
      ∃ f ∈ db'.files, f.ID = id ∧ f.OwnerID = o ∧ f.BlobHash = c'.blob)
    (hfiles : ∀ j < s.n, j ≠ k → ∀ o id, (s.calls j).call = .delete o id → (s.calls j).pc = 1 →
      ∀ f ∈ s.db.files, f.ID = id → f ∈ db'.files)
    (hpc : c'.pc < 3 → (s.calls k).pc < 3) :
    InFlightInv ⟨db', s.n, Function.update s.calls k c'⟩ := by
  refine ⟨hcounts, hids, hfileBlob, ?_, ?_, ?_, ?_⟩
  · intro j hj u nm m x hc h1 h2
    by_cases hjk : j = k
    · subst hjk
      simp only [Function.update_same] at hc h1 h2
      exact hownU u nm m x hc h1 h2
    · simp only [Function.update_noteq hjk] at hc h1 h2
      exact hblobs _ (hinv.uploadBlob j hj u nm m x hc h1 h2)
  · intro j hj o id hc h1 h2
    by_cases hjk : j = k
    · subst hjk
      simp only [Function.update_same] at hc h1 h2 ⊢
      exact hownD o id hc h1 h2
    · simp only [Function.update_noteq hjk] at hc h1 h2 ⊢
      exact hblobs _ (hinv.deleteBlob j hj o id hc h1 h2)
  · intro j hj o id hc h1
    by_cases hjk : j = k
    · subst hjk
      simp only [Function.update_same] at hc h1 ⊢
      exact hfoundk o id hc h1
    · simp only [Function.update_noteq hjk] at hc h1 ⊢
      obtain ⟨f, hf, hfid, hfo, hfb⟩ := hinv.found j hj o id hc h1
      exact ⟨f, hfiles j hj hjk o id hc h1 f hf hfid, hfid, hfo, hfb⟩
  · intro i hi j hj hij id hdi hdj
    have hold : ∀ a, (Function.update s.calls k c' a).deleting id = true →
        (s.calls a).deleting id = true := by
      intro a ha
      by_cases hak : a = k
      · subst hak
        simp only [Function.update_same] at ha
        exact deleting_of_call _ _ id hcall hpc ha
      · simp only [Function.update_noteq hak] at ha
        exact ha
    exact hinv.apart i hi j hj hij id (hold i hdi) (hold j hdj)

theorem pendingInc_upload (h : String) (c : InFlight) (u nm : String) (m : Option String)
    (x : Written) (hc : c.call = .upload u nm m x) :
    pendingInc h c = (decide (c.pc = 2) && decide (x.sum = h)) := by
  unfold pendingInc; rw [hc]

theorem pendingInc_delete (h : String) (c : InFlight) (o id : String)
    (hc : c.call = .delete o id) : pendingInc h c = false := by
  unfold pendingInc; rw [hc]

theorem pendingDec_delete (h : String) (c : InFlight) (o id : String)
    (hc : c.call = .delete o id) :
    pendingDec h c = (decide (c.pc = 2) && decide (c.blob = h)) := by
  unfold pendingDec; rw [hc]

theorem pendingDec_upload (h : String) (c : InFlight) (u nm : String) (m : Option String)
    (x : Written) (hc : c.call = .upload u nm m x) : pendingDec h c = false := by
  unfold pendingDec; rw [hc]

/-- Nothing refers to a digest that has no row. -/
theorem InFlightInv_absent (s : Ledger) (h : String) (hinv : InFlightInv s)
    (habs : ∀ b ∈ s.db.blobs, b.Hash ≠ h) :
    countCalls (pendingInc h) s.calls s.n = 0 ∧ fileRefs h s.db = 0 ∧
      countCalls (pendingDec h) s.calls s.n = 0 := by
  have hno : ¬ hasBlob h s.db := fun ⟨b, hb, hbh⟩ => habs b hb hbh
  refine ⟨?_, ?_, ?_⟩
  · apply countCalls_none
    intro j hj
    cases hc : (s.calls j).call with
    | delete o id => exact pendingInc_delete h _ o id hc
    | upload u nm m x =>
      rw [pendingInc_upload h _ u nm m x hc]
      by_cases hp : (s.calls j).pc = 2
      · by_cases hx : x.sum = h
        · exact absurd (hx ▸ hinv.uploadBlob j hj u nm m x hc (by omega) (by omega)) hno
        · simp [hx]
      · simp [hp]
  · unfold fileRefs
    rw [List.countP_eq_zero]
    intro f hf
    simp only [decide_eq_true_eq]
    intro hfh
    exact hno (hfh ▸ hinv.fileBlob f hf)
  · apply countCalls_none
    intro j hj
    cases hc : (s.calls j).call with
    | upload u nm m x => exact pendingDec_upload h _ u nm m x hc
    | delete o id =>
      rw [pendingDec_delete h _ o id hc]
      by_cases hp : (s.calls j).pc = 2
      · by_cases hx : (s.calls j).blob = h
        · exact absurd (hx ▸ hinv.deleteBlob j hj o id hc (by omega) (by omega)) hno
        · simp [hx]
      · simp [hp]

/-- `InsertBlob`, taking effect, keeps the invariant. -/
theorem InFlightInv_insertBlob (sch : Schema) (st : Stmt) (s : Ledger) (k : Nat)
    (u nm : String) (m : Option String) (x : Written)
    (hinv : InFlightInv s) (hk : k < s.n) (hc : (s.calls k).call = .upload u nm m x)
    (hp : (s.calls k).pc = 0)
    (happ : (InsertBlob sch st ⟨x.sum, x.written, m, x.finalPath, 0, 0⟩ s.db).2.isNone = true) :
    InFlightInv ⟨(InsertBlob sch st ⟨x.sum, x.written, m, x.finalPath, 0, 0⟩ s.db).1, s.n,
      Function.update s.calls k { s.calls k with pc := 1 }⟩ := by
  have hst : st.fails = false := by
    cases hf : st.fails with
    | false => rfl
    | true => simp [InsertBlob, hf] at happ
  have hrow := InsertBlob_zero_row sch st ⟨x.sum, x.written, m, x.finalPath, 0, 0⟩ s.db rfl hst
  have hI : ∀ h, countCalls (pendingInc h) (Function.update s.calls k { s.calls k with pc := 1 })
      s.n = countCalls (pendingInc h) s.calls s.n := by
    intro h
    apply countCalls_update_same
    rw [pendingInc_upload h _ u nm m x hc, pendingInc_upload h _ u nm m x (by exact hc), hp]
    rfl
  have hD : ∀ h, countCalls (pendingDec h) (Function.update s.calls k { s.calls k with pc := 1 })
      s.n = countCalls (pendingDec h) s.calls s.n := by
    intro h
    apply countCalls_update_same
    rw [pendingDec_upload h _ u nm m x hc, pendingDec_upload h _ u nm m x (by exact hc)]
  have hfiles : (InsertBlob sch st ⟨x.sum, x.written, m, x.finalPath, 0, 0⟩ s.db).1.files =
      s.db.files := by
    rcases InsertBlob_zero_cases sch st ⟨x.sum, x.written, m, x.finalPath, 0, 0⟩ s.db rfl
      with h1 | ⟨_, h1⟩ <;> rw [h1]
  have hblobs : ∀ h, hasBlob h s.db →
      hasBlob h (InsertBlob sch st ⟨x.sum, x.written, m, x.finalPath, 0, 0⟩ s.db).1 := by
    intro h ⟨b, hb, hbh⟩
    rcases InsertBlob_zero_cases sch st ⟨x.sum, x.written, m, x.finalPath, 0, 0⟩ s.db rfl
      with h1 | ⟨_, h1⟩
    · rw [h1]; exact ⟨b, hb, hbh⟩
    · rw [h1]; exact ⟨b, List.mem_append_left _ hb, hbh⟩
  refine InFlightInv_next s k _ _ hinv hk rfl hblobs ?_ ?_ ?_ ?_ ?_ ?_ ?_ ?_
  · intro b hb
    rw [hI, hD]
    rcases InsertBlob_zero_cases sch st ⟨x.sum, x.written, m, x.finalPath, 0, 0⟩ s.db rfl
      with h1 | ⟨habs, h1⟩
    · rw [h1] at hb ⊢
      exact hinv.counts b hb
    · rw [h1] at hb
      have hfr : ∀ h, fileRefs h (InsertBlob sch st
          ⟨x.sum, x.written, m, x.finalPath, 0, 0⟩ s.db).1 = fileRefs h s.db := by
        intro h
        unfold fileRefs
        rw [hfiles]
      rw [hfr]
      rcases List.mem_append.mp hb with hold | hnew
      · exact hinv.counts b hold
      · simp only [List.mem_singleton] at hnew
        subst hnew
        obtain ⟨z1, z2, z3⟩ := InFlightInv_absent s x.sum hinv habs
        simp only [z1, z2, z3]
        rfl
  · rw [hfiles]; exact hinv.ids
  · intro f hf
    rw [hfiles] at hf
    exact hblobs _ (hinv.fileBlob f hf)
  · intro u' nm' m' x' hc' _ _
    have hc'' : (s.calls k).call = .upload u' nm' m' x' := hc'
    rw [hc] at hc''
    cases hc''
    exact hrow
  · intro o id hc' _ _
    have hc'' : (s.calls k).call = .delete o id := hc'
    rw [hc] at hc''
    cases hc''
  · intro o id hc' _
    have hc'' : (s.calls k).call = .delete o id := hc'
    rw [hc] at hc''
    cases hc''
  · intro j _ _ o id _ _ f hf _
    rw [hfiles]
    exact hf
  · intro _
    omega

theorem fileRefs_append (h : String) (blobs : List Blob) (files : List File) (row : File) :
    fileRefs h ⟨blobs, files ++ [row]⟩ =
      fileRefs h ⟨blobs, files⟩ + if row.BlobHash = h then 1 else 0 := by
  unfold fileRefs
  simp only [List.countP_append, List.countP_cons, List.countP_nil, decide_eq_true_eq,
    Nat.zero_add]

/-- `CreateFile` keeps the invariant, whether it creates the row or returns an error. -/
theorem InFlightInv_createFile (sch : Schema) (st : Stmt) (s : Ledger) (k : Nat)
    (u nm : String) (m : Option String) (x : Written)
    (hinv : InFlightInv s) (hk : k < s.n) (hc : (s.calls k).call = .upload u nm m x)
    (hp : (s.calls k).pc = 1) :
    InFlightInv ⟨(uploadNext sch st u nm m x (s.calls k) s.db).1, s.n,
      Function.update s.calls k (uploadNext sch st u nm m x (s.calls k) s.db).2⟩ := by
  have hhas : hasBlob x.sum s.db := hinv.uploadBlob k hk u nm m x hc (by omega) (by omega)
  unfold uploadNext
  rw [hp]
  simp only
  rcases CreateFile_cases sch st ⟨"", u, x.sum, nm, x.written, m, false, [], 0⟩ s.db
    with ⟨e, he⟩ | ⟨hok, hfresh, _⟩
  · rw [he]
    simp only
    have hI : ∀ h, countCalls (pendingInc h)
        (Function.update s.calls k { s.calls k with pc := 3, err := some e }) s.n =
        countCalls (pendingInc h) s.calls s.n := by
      intro h
      apply countCalls_update_same
      rw [pendingInc_upload h _ u nm m x hc, pendingInc_upload h _ u nm m x (by exact hc), hp]
      rfl
    have hD : ∀ h, countCalls (pendingDec h)
        (Function.update s.calls k { s.calls k with pc := 3, err := some e }) s.n =
        countCalls (pendingDec h) s.calls s.n := by
      intro h
      apply countCalls_update_same
      rw [pendingDec_upload h _ u nm m x hc, pendingDec_upload h _ u nm m x (by exact hc)]
    refine InFlightInv_next s k _ _ hinv hk rfl (fun _ hh => hh) ?_ hinv.ids hinv.fileBlob
      ?_ ?_ ?_ ?_ ?_
    · intro b hb
      rw [hI, hD]
      exact hinv.counts b hb
    · intro u' nm' m' x' _ h1 h2
      have h3 : (3 : Nat) ≤ 2 := h2
      omega
    · intro o id _ h1 h2
      have h3 : (3 : Nat) ≤ 2 := h2
      omega
    · intro o id _ h1
      have h3 : (3 : Nat) = 1 := h1
      omega
    · intro j _ _ o id _ _ f hf _
      exact hf
    · intro h3
      have : (3 : Nat) < 3 := h3
      omega
  · rw [hok]
    simp only
    have hI : ∀ h, countCalls (pendingInc h)
        (Function.update s.calls k { s.calls k with pc := 2 }) s.n =
        countCalls (pendingInc h) s.calls s.n + if x.sum = h then 1 else 0 := by
      intro h
      by_cases hx : x.sum = h
      · rw [if_pos hx]
        apply countCalls_update_gain _ _ _ _ _ hk
        · rw [pendingInc_upload h _ u nm m x hc, hp]; rfl
        · rw [pendingInc_upload h _ u nm m x (by exact hc)]
          simp [hx]
      · rw [if_neg hx, Nat.add_zero]
        apply countCalls_update_same
        rw [pendingInc_upload h _ u nm m x hc, pendingInc_upload h _ u nm m x (by exact hc), hp]
        simp [hx]
    have hD : ∀ h, countCalls (pendingDec h)
        (Function.update s.calls k { s.calls k with pc := 2 }) s.n =
        countCalls (pendingDec h) s.calls s.n := by
      intro h
      apply countCalls_update_same
      rw [pendingDec_upload h _ u nm m x hc, pendingDec_upload h _ u nm m x (by exact hc)]
    have hblobs : ∀ h, hasBlob h s.db → hasBlob h ⟨s.db.blobs, s.db.files ++
        [⟨st.newID, u, x.sum, nm, x.written, m, false, [], st.now⟩]⟩ := fun _ hh => hh
    refine InFlightInv_next s k _ _ hinv hk rfl hblobs ?_ ?_ ?_ ?_ ?_ ?_ ?_ ?_
    · intro b hb
      rw [hI, hD, fileRefs_append]
      have := hinv.counts b hb
      show b.RefCount + ((countCalls (pendingInc b.Hash) s.calls s.n +
        (if x.sum = b.Hash then 1 else 0) : Nat) : Int) =
        ((fileRefs b.Hash ⟨s.db.blobs, s.db.files⟩ + (if x.sum = b.Hash then 1 else 0) : Nat) :
          Int) + _
      have hsame : fileRefs b.Hash ⟨s.db.blobs, s.db.files⟩ = fileRefs b.Hash s.db := rfl
      rw [hsame]
      push_cast
      omega
    · simp only [List.map_append, List.map_cons, List.map_nil]
      rw [List.nodup_append]
      refine ⟨hinv.ids, List.nodup_singleton _, ?_⟩
      intro a ha hb
      simp only [List.mem_singleton] at hb
      subst hb
      exact hfresh ha
    · intro f hf
      rcases List.mem_append.mp hf with hold | hnew
      · exact hinv.fileBlob f hold
      · simp only [List.mem_singleton] at hnew
        subst hnew
        exact hhas
    · intro u' nm' m' x' hc' _ _
      have hc'' : (s.calls k).call = .upload u' nm' m' x' := hc'
      rw [hc] at hc''
      cases hc''
      exact hhas
    · intro o id hc' _ _
      have hc'' : (s.calls k).call = .delete o id := hc'
      rw [hc] at hc''
      cases hc''
    · intro o id hc' _
      have hc'' : (s.calls k).call = .delete o id := hc'
      rw [hc] at hc''
      cases hc''
    · intro j _ _ o id _ _ f hf _
      exact List.mem_append_left _ hf
    · intro _
      omega

/-- An UPDATE of the count of `hash` by `delta` that takes effect, issued by a call that was
pending for it, keeps the invariant: `IncBlobRef` of an upload, the decrement of a deletion. -/
theorem InFlightInv_update (sch : Schema) (st : Stmt) (s : Ledger) (k : Nat) (hash : String)
    (delta : Int) (c' : InFlight)
    (hinv : InFlightInv s) (hk : k < s.n) (hcall : c'.call = (s.calls k).call)
    (hpc' : c'.pc = 3) (hp : (s.calls k).pc = 2)
    (hkind : (∃ u nm m x, (s.calls k).call = .upload u nm m x ∧ x.sum = hash ∧ delta = 1) ∨
      (∃ o id, (s.calls k).call = .delete o id ∧ (s.calls k).blob = hash ∧ delta = -1))
    (happ : (updateRefCount sch st hash delta s.db).2 = none) :
    InFlightInv ⟨(updateRefCount sch st hash delta s.db).1, s.n,
      Function.update s.calls k c'⟩ := by
  rw [updateRefCount_none sch st hash delta s.db happ]
  have hblobs : ∀ h, hasBlob h s.db → hasBlob h ⟨s.db.blobs.map (bump hash delta), s.db.files⟩ :=
    fun h hh => hasBlob_bump h hash delta s.db.blobs s.db.files s.db.files hh
  refine InFlightInv_next s k _ _ hinv hk hcall hblobs ?_ hinv.ids ?_ ?_ ?_ ?_ ?_ ?_
  · intro b' hb'
    obtain ⟨b, hb, rfl⟩ := List.mem_map.mp hb'
    rw [bump_Hash]
    have hold := hinv.counts b hb
    have hfr : fileRefs b.Hash ⟨s.db.blobs.map (bump hash delta), s.db.files⟩ =
        fileRefs b.Hash s.db := rfl
    rw [hfr]
    rcases hkind with ⟨u, nm, m, x, hc, hx, hd⟩ | ⟨o, id, hc, hx, hd⟩
    · have hD : countCalls (pendingDec b.Hash) (Function.update s.calls k c') s.n =
          countCalls (pendingDec b.Hash) s.calls s.n := by
        apply countCalls_update_same
        rw [pendingDec_upload _ _ u nm m x hc, pendingDec_upload _ _ u nm m x (hcall.trans hc)]
      rw [hD]
      by_cases hbh : b.Hash = hash
      · have hI : countCalls (pendingInc b.Hash) (Function.update s.calls k c') s.n + 1 =
            countCalls (pendingInc b.Hash) s.calls s.n := by
          apply countCalls_update_loss _ _ _ _ _ hk
          · rw [pendingInc_upload _ _ u nm m x hc, hp, hx, hbh]; simp
          · rw [pendingInc_upload _ _ u nm m x (hcall.trans hc), hpc']; rfl
        have hbump : (bump hash delta b).RefCount = b.RefCount + 1 := by
          simp [bump, hbh, hd]
        rw [hbump]
        omega
      · have hI : countCalls (pendingInc b.Hash) (Function.update s.calls k c') s.n =
            countCalls (pendingInc b.Hash) s.calls s.n := by
          apply countCalls_update_same
          rw [pendingInc_upload _ _ u nm m x hc, pendingInc_upload _ _ u nm m x (hcall.trans hc),
            hp, hpc', hx]
          have : ¬ hash = b.Hash := fun h => hbh h.symm
          simp [this]
        have hbump : (bump hash delta b).RefCount = b.RefCount := by
          simp [bump, hbh]
        rw [hbump, hI]
        exact hold
    · have hI : countCalls (pendingInc b.Hash) (Function.update s.calls k c') s.n =
          countCalls (pendingInc b.Hash) s.calls s.n := by
        apply countCalls_update_same
        rw [pendingInc_delete _ _ o id hc, pendingInc_delete _ _ o id (hcall.trans hc)]
      rw [hI]
      by_cases hbh : b.Hash = hash
      · have hD : countCalls (pendingDec b.Hash) (Function.update s.calls k c') s.n + 1 =
            countCalls (pendingDec b.Hash) s.calls s.n := by
          apply countCalls_update_loss _ _ _ _ _ hk
          · rw [pendingDec_delete _ _ o id hc, hp, hx, hbh]; simp
          · rw [pendingDec_delete _ _ o id (hcall.trans hc), hpc']; rfl
        have hbump : (bump hash delta b).RefCount = b.RefCount - 1 := by
          simp [bump, hbh, hd]
          rfl
        rw [hbump]
        omega
      · have hD : countCalls (pendingDec b.Hash) (Function.update s.calls k c') s.n =
            countCalls (pendingDec b.Hash) s.calls s.n := by
          apply countCalls_update_same
          rw [pendingDec_delete _ _ o id hc, pendingDec_delete _ _ o id (hcall.trans hc),
            hp, hpc', hx]
          have : ¬ hash = b.Hash := fun h => hbh h.symm
          simp [this]
        have hbump : (bump hash delta b).RefCount = b.RefCount := by
          simp [bump, hbh]
        rw [hbump, hD]
        exact hold
  · intro f hf
    exact hblobs _ (hinv.fileBlob f hf)
  · intro u nm m x _ _ h2
    omega
  · intro o id _ _ h2
    omega
  · intro o id _ h1
    omega
  · intro j _ _ o id _ _ f hf _
    exact hf
  · intro h3
    omega

/-- A statement that leaves the tables as they are and after which the call is pending for
nothing keeps the invariant: the lookup of a deletion, a statement the database fails. -/
theorem InFlightInv_idle (s : Ledger) (k : Nat) (c' : InFlight) (o id : String)
    (hinv : InFlightInv s) (hk : k < s.n) (hc : (s.calls k).call = .delete o id)
    (hcall : c'.call = (s.calls k).call) (hp : (s.calls k).pc ≤ 1)
    (hpc' : c'.pc = 3 ∨ (c'.pc = 1 ∧
      ∃ f ∈ s.db.files, f.ID = id ∧ f.OwnerID = o ∧ f.BlobHash = c'.blob)) :
    InFlightInv ⟨s.db, s.n, Function.update s.calls k c'⟩ := by
  have hI : ∀ h, countCalls (pendingInc h) (Function.update s.calls k c') s.n =
      countCalls (pendingInc h) s.calls s.n := by
    intro h
    apply countCalls_update_same
    rw [pendingInc_delete _ _ o id hc, pendingInc_delete _ _ o id (hcall.trans hc)]
  have hD : ∀ h, countCalls (pendingDec h) (Function.update s.calls k c') s.n =
      countCalls (pendingDec h) s.calls s.n := by
    intro h
    apply countCalls_update_same
    rw [pendingDec_delete _ _ o id hc, pendingDec_delete _ _ o id (hcall.trans hc)]
    have h1 : ¬ (s.calls k).pc = 2 := by omega
    have h2 : ¬ c'.pc = 2 := by
      rcases hpc' with h | ⟨h, _⟩ <;> omega
    simp [h1, h2]
  refine InFlightInv_next s k _ _ hinv hk hcall (fun _ hh => hh) ?_ hinv.ids hinv.fileBlob
    ?_ ?_ ?_ ?_ ?_
  · intro b hb
    rw [hI, hD]
    exact hinv.counts b hb
  · intro u nm m x hc' _ _
    rw [hcall, hc] at hc'
    cases hc'
  · intro o' id' _ h1 h2
    rcases hpc' with h | ⟨_, f, hf, _, _, hfb⟩
    · omega
    · exact hfb ▸ hinv.fileBlob f hf
  · intro o' id' hc' h1
    rw [hcall, hc] at hc'
    cases hc'
    rcases hpc' with h | ⟨_, hf⟩
    · omega
    · exact hf
  · intro j _ _ o' id' _ _ f hf _
    exact hf
  · intro _
    omega

/-- The DELETE of a deletion that found its row removes that row and nothing else, and keeps
the invariant. -/
theorem InFlightInv_delete (s : Ledger) (k : Nat) (o id : String)
    (hinv : InFlightInv s) (hk : k < s.n) (hc : (s.calls k).call = .delete o id)
    (hp : (s.calls k).pc = 1) :
    InFlightInv ⟨⟨s.db.blobs, s.db.files.filter
        (fun f => !(decide (f.ID = id) && decide (f.OwnerID = o)))⟩, s.n,
      Function.update s.calls k { s.calls k with pc := 2 }⟩ := by
  obtain ⟨row, hrow, hrid, hro, hrb⟩ := hinv.found k hk o id hc hp
  have hfind := find_file_of_unique o id row s.db.files hinv.ids hrow hrid hro
  rw [filter_not_owned_eq_erase o id row s.db.files hinv.ids hfind]
  have hI : ∀ h, countCalls (pendingInc h)
      (Function.update s.calls k { s.calls k with pc := 2 }) s.n =
      countCalls (pendingInc h) s.calls s.n := by
    intro h
    apply countCalls_update_same
    rw [pendingInc_delete _ _ o id hc, pendingInc_delete _ _ o id (by exact hc)]
  have hD : ∀ h, countCalls (pendingDec h)
      (Function.update s.calls k { s.calls k with pc := 2 }) s.n =
      countCalls (pendingDec h) s.calls s.n + if row.BlobHash = h then 1 else 0 := by
    intro h
    by_cases hx : row.BlobHash = h
    · rw [if_pos hx]
      apply countCalls_update_gain _ _ _ _ _ hk
      · rw [pendingDec_delete _ _ o id hc, hp]; rfl
      · rw [pendingDec_delete _ _ o id (by exact hc)]
        show (decide ((2 : Nat) = 2) && decide ((s.calls k).blob = h)) = true
        rw [← hrb, hx]
        simp
    · rw [if_neg hx, Nat.add_zero]
      apply countCalls_update_same
      rw [pendingDec_delete _ _ o id hc, pendingDec_delete _ _ o id (by exact hc), hp]
      show (decide ((1 : Nat) = 2) && _) = (decide ((2 : Nat) = 2) && decide ((s.calls k).blob = h))
      rw [← hrb]
      simp [hx]
  have hblobs : ∀ h, hasBlob h s.db → hasBlob h ⟨s.db.blobs, s.db.files.erase row⟩ :=
    fun _ hh => hh
  refine InFlightInv_next s k _ _ hinv hk rfl hblobs ?_ ?_ ?_ ?_ ?_ ?_ ?_ ?_
  · intro b hb
    rw [hI, hD]
    have hold := hinv.counts b hb
    have hfr : fileRefs b.Hash s.db =
        fileRefs b.Hash ⟨s.db.blobs, s.db.files.erase row⟩ +
          if row.BlobHash = b.Hash then 1 else 0 := by
      unfold fileRefs
      rw [countP_erase_add _ row s.db.files hrow]
      simp only [decide_eq_true_eq]
    rw [hfr] at hold
    push_cast at hold ⊢
    omega
  · exact List.Nodup.sublist ((List.erase_sublist row s.db.files).map _) hinv.ids
  · intro f hf
    exact hinv.fileBlob f (List.mem_of_mem_erase hf)
  · intro u nm m x hc' _ _
    have hc'' : (s.calls k).call = .upload u nm m x := hc'
    rw [hc] at hc''
    cases hc''
  · intro o' id' _ _ _
    exact hinv.deleteBlob k hk o id hc (by omega) (by omega)
  · intro o' id' _ h1
    have : (2 : Nat) = 1 := h1
    omega
  · intro j hj hjk o' id' hc' hp' f hf hfid
    apply (List.mem_erase_of_ne ?_).mpr hf
    intro hfr
    subst hfr
    have hsame : id' = id := hfid.symm.trans hrid
    subst hsame
    apply hinv.apart j hj k hk hjk id'
    · unfold InFlight.deleting
      rw [hc']
      simp [hp']
    · unfold InFlight.deleting
      rw [hc]
      simp [hp]
  · intro _
    omega

/-- A call that begins keeps the invariant, a deletion provided no deletion of the same file
is in flight. -/
theorem InFlightInv_begin (s : Ledger) (c : LedgerCall) (hinv : InFlightInv s)
    (hapart : ∀ j < s.n, ∀ id, (⟨c, 0, "", none⟩ : InFlight).deleting id = true →
      (s.calls j).deleting id = false) :
    InFlightInv ⟨s.db, s.n + 1, Function.update s.calls s.n ⟨c, 0, "", none⟩⟩ := by
  have hcount : ∀ p : InFlight → Bool, p ⟨c, 0, "", none⟩ = false →
      countCalls p (Function.update s.calls s.n ⟨c, 0, "", none⟩) (s.n + 1) =
        countCalls p s.calls s.n := by
    intro p hp
    simp only [countCalls, Function.update_same, hp, Bool.false_eq_true, if_false, Nat.add_zero]
    exact countCalls_update_beyond p s.calls s.n s.n _ (Nat.le_refl _)
  have hI : ∀ h, pendingInc h ⟨c, 0, "", none⟩ = false := by
    intro h
    unfold pendingInc
    cases c <;> simp
  have hD : ∀ h, pendingDec h ⟨c, 0, "", none⟩ = false := by
    intro h
    unfold pendingDec
    cases c <;> simp
  have hold : ∀ j, j < s.n + 1 → j ≠ s.n → j < s.n ∧
      Function.update s.calls s.n ⟨c, 0, "", none⟩ j = s.calls j := by
    intro j hj hne
    exact ⟨by omega, Function.update_noteq hne _ _⟩
  refine ⟨?_, hinv.ids, hinv.fileBlob, ?_, ?_, ?_, ?_⟩
  · intro b hb
    show b.RefCount + ((countCalls (pendingInc b.Hash)
      (Function.update s.calls s.n ⟨c, 0, "", none⟩) (s.n + 1) : Nat) : Int) =
      (fileRefs b.Hash s.db : Int) + ((countCalls (pendingDec b.Hash)
      (Function.update s.calls s.n ⟨c, 0, "", none⟩) (s.n + 1) : Nat) : Int)
    rw [hcount _ (hI b.Hash), hcount _ (hD b.Hash)]
    exact hinv.counts b hb
  · intro j hj u nm m x hc h1 h2
    by_cases hjn : j = s.n
    · subst hjn
      simp only [Function.update_same] at h1
      omega
    · obtain ⟨hj', he⟩ := hold j hj hjn
      simp only [he] at hc h1 h2
      exact hinv.uploadBlob j hj' u nm m x hc h1 h2
  · intro j hj o id hc h1 h2
    by_cases hjn : j = s.n
    · subst hjn
      simp only [Function.update_same] at h1
      omega
    · obtain ⟨hj', he⟩ := hold j hj hjn
      simp only [he] at hc h1 h2 ⊢
      exact hinv.deleteBlob j hj' o id hc h1 h2
  · intro j hj o id hc h1
    by_cases hjn : j = s.n
    · subst hjn
      simp only [Function.update_same] at h1
      omega
    · obtain ⟨hj', he⟩ := hold j hj hjn
      simp only [he] at hc h1 ⊢
      exact hinv.found j hj' o id hc h1
  · intro i hi j hj hij id hdi hdj
    by_cases hin : i = s.n
    · subst hin
      have hjn : j ≠ s.n := fun h => hij h.symm
      obtain ⟨hj', he⟩ := hold j hj hjn
      simp only [Function.update_same] at hdi
      simp only [he] at hdj
      rw [hapart j hj' id hdi] at hdj
      cases hdj
    · obtain ⟨hi', hei⟩ := hold i hi hin
      simp only [hei] at hdi
      by_cases hjn : j = s.n
      · subst hjn
        simp only [Function.update_same] at hdj
        rw [hapart i hi' id hdj] at hdi
        cases hdi
      · obtain ⟨hj', hej⟩ := hold j hj hjn
        simp only [hej] at hdj
        exact hinv.apart i hi' j hj' hij id hdi hdj

theorem uploadNext_returned (sch : Schema) (st : Stmt) (u nm : String) (m : Option String)
    (x : Written) (c : InFlight) (db : DB) (h : 3 ≤ c.pc) :
    uploadNext sch st u nm m x c db = (db, c) := by
  unfold uploadNext
  split
  · omega
  · omega
  · omega
  · rfl

theorem deleteNext_returned (sch : Schema) (st : Stmt) (o id : String) (c : InFlight) (db : DB)
    (h : 3 ≤ c.pc) : deleteNext sch st o id c db = (db, c) := by
  unfold deleteNext
  split
  · omega
  · omega
  · omega
  · rfl

/-- Every admissible event keeps the invariant. -/
theorem InFlightInv_apply (sch : Schema) (s : Ledger) (e : Event) (hinv : InFlightInv s)
    (hadm : e.admissible sch s = true) : InFlightInv (s.apply sch e) := by
  cases e with
  | start c =>
    apply InFlightInv_begin s c hinv
    intro j hj id hdel
    cases c with
    | upload u nm m x => simp [InFlight.deleting] at hdel
    | delete o fileID =>
      simp only [InFlight.deleting, Bool.and_eq_true, decide_eq_true_eq] at hdel
      simp only [Event.admissible, List.all_eq_true, List.mem_range, Bool.not_eq_true'] at hadm
      rw [← hdel.1]
      exact hadm j hj
  | next k st =>
    show InFlightInv (if k < s.n then
      ⟨((s.calls k).next sch st s.db).1, s.n,
        Function.update s.calls k ((s.calls k).next sch st s.db).2⟩ else s)
    by_cases hk : k < s.n
    swap
    · rw [if_neg hk]; exact hinv
    rw [if_pos hk]
    simp only [Event.admissible, hk, if_true] at hadm
    have hstay : ∀ db c, (db, c) = (s.db, s.calls k) →
        InFlightInv ⟨db, s.n, Function.update s.calls k c⟩ := by
      intro db c h
      simp only [Prod.mk.injEq] at h
      rw [h.1, h.2, Function.update_eq_self]
      exact hinv
    unfold InFlight.next
    unfold InFlight.countApplied at hadm
    cases hc : (s.calls k).call with
    | upload u nm m x =>
      rw [hc] at hadm
      simp only at hadm ⊢
      rcases Nat.lt_or_ge (s.calls k).pc 3 with hlt | hge
      · have h012 : (s.calls k).pc = 0 ∨ (s.calls k).pc = 1 ∨ (s.calls k).pc = 2 := by omega
        rcases h012 with hp | hp | hp
        · rw [hp] at hadm
          simp only at hadm
          have := InFlightInv_insertBlob sch st s k u nm m x hinv hk hc hp hadm
          unfold uploadNext
          rw [hp]
          exact this
        · exact InFlightInv_createFile sch st s k u nm m x hinv hk hc hp
        · rw [hp] at hadm
          simp only at hadm
          have hnone : (updateRefCount sch st x.sum 1 s.db).2 = none := by
            unfold IncBlobRef at hadm
            simpa using hadm
          have := InFlightInv_update sch st s k x.sum 1 { s.calls k with pc := 3 } hinv hk rfl
            rfl hp (Or.inl ⟨u, nm, m, x, hc, rfl, rfl⟩) hnone
          unfold uploadNext
          rw [hp]
          exact this
      · rw [uploadNext_returned sch st u nm m x _ _ hge]
        exact hstay _ _ rfl
    | delete o id =>
      rw [hc] at hadm
      simp only at hadm ⊢
      rcases Nat.lt_or_ge (s.calls k).pc 3 with hlt | hge
      · have h012 : (s.calls k).pc = 0 ∨ (s.calls k).pc = 1 ∨ (s.calls k).pc = 2 := by omega
        rcases h012 with hp | hp | hp
        · unfold deleteNext
          rw [hp]
          simp only
          split
          · exact InFlightInv_idle s k _ o id hinv hk hc rfl (by omega) (Or.inl rfl)
          · split
            · exact InFlightInv_idle s k _ o id hinv hk hc rfl (by omega) (Or.inl rfl)
            · rename_i row hfind
              have hmem := List.mem_of_find?_eq_some hfind
              have hpred := List.find?_some hfind
              simp only [Bool.and_eq_true, decide_eq_true_eq] at hpred
              exact InFlightInv_idle s k _ o id hinv hk hc rfl (by omega)
                (Or.inr ⟨rfl, row, hmem, hpred.1, hpred.2, rfl⟩)
        · unfold deleteNext
          rw [hp]
          simp only
          split
          · exact InFlightInv_idle s k _ o id hinv hk hc rfl (by omega) (Or.inl rfl)
          · exact InFlightInv_delete s k o id hinv hk hc hp
        · rw [hp] at hadm
          simp only at hadm
          have hnone : (updateRefCount sch st (s.calls k).blob (-1) s.db).2 = none := by
            simpa using hadm
          have := InFlightInv_update sch st s k (s.calls k).blob (-1)
            { s.calls k with pc := 3, err := (updateRefCount sch st (s.calls k).blob (-1) s.db).2 }
            hinv hk rfl rfl hp (Or.inr ⟨o, id, hc, rfl, rfl⟩) hnone
          unfold deleteNext
          rw [hp]
          exact this
      · rw [deleteNext_returned sch st o id _ _ hge]
        exact hstay _ _ rfl

theorem InFlightInv_start : InFlightInv Ledger.start := by
  refine ⟨?_, ?_, ?_, ?_, ?_, ?_, ?_⟩
  · intro b hb; cases hb
  · exact List.nodup_nil
  · intro f hf; cases hf
  · intro j hj; exact absurd hj (Nat.not_lt_zero j)
  · intro j hj; exact absurd hj (Nat.not_lt_zero j)
  · intro j hj; exact absurd hj (Nat.not_lt_zero j)
  · intro i hi; exact absurd hi (Nat.not_lt_zero i)

theorem InFlightInv_events (sch : Schema) :
    ∀ (events : List Event) (s : Ledger), InFlightInv s → admissibleFrom sch s events = true →
      InFlightInv (events.foldl (Ledger.apply sch) s) := by
  intro events
  induction events with
  | nil => intro s hinv _; exact hinv
  | cons e es ih =>
    intro s hinv hadm
    simp only [admissibleFrom, Bool.and_eq_true] at hadm
    exact ih _ (InFlightInv_apply sch s e hinv hadm.1) hadm.2

/-- The three statements of an upload in flight, run with no statement of another call in
between, do to the ledger what `uploadFile` does after its `WriteAndHash`. -/
theorem uploadNext_thrice (sch : Schema) (storage : Service) (userID declaredMIME : String)
    (fh : FileHeader) (env : FileEnv) (w : World) (fs1 : FS) (x : Written) (s : Ledger) (k : Nat)
    (hm : ¬ (declaredMIME ≠ "" ∧ ¬ declaredMIME.data.contains '/'))
    (hW : WriteAndHash storage env.fsFaults fh.content w.fs = (fs1, .ok x))
    (hk : k < s.n) (hdb : s.db = w.db)
    (hc : s.calls k = ⟨.upload userID fh.Filename
      (if declaredMIME ≠ "" then some declaredMIME else none) x, 0, "", none⟩) :
    ([Event.next k env.insertBlob, Event.next k env.createFile,
      Event.next k env.incBlobRef].foldl (Ledger.apply sch) s).db =
      (uploadFile sch storage userID declaredMIME fh env w).1.db := by
  unfold uploadFile
  rw [if_neg hm, hW]
  simp only [List.foldl, Ledger.apply, hk, if_true, hc, InFlight.next, uploadNext,
    Function.update_same, hdb]
  generalize CreateFile sch env.createFile _ _ = cr
  obtain ⟨db2, r⟩ := cr
  cases r with
  | error e => simp only [Function.update_same, uploadNext]
  | ok f => simp only [Function.update_same, uploadNext]

/-- The three statements of a deletion in flight, run with no statement of another call in
between, are `DeleteFileAndMaybeBlob`: the same ledger and the same returned error. -/
theorem deleteNext_thrice (sch : Schema) (env : DeleteEnv) (ownerID fileID : String)
    (s : Ledger) (k : Nat) (hk : k < s.n)
    (hc : s.calls k = ⟨.delete ownerID fileID, 0, "", none⟩) :
    ([Event.next k env.select, Event.next k env.delete,
      Event.next k env.update].foldl (Ledger.apply sch) s).db =
      (DeleteFileAndMaybeBlob sch env ownerID fileID s.db).1 ∧
    (([Event.next k env.select, Event.next k env.delete,
      Event.next k env.update].foldl (Ledger.apply sch) s).calls k).err =
      (DeleteFileAndMaybeBlob sch env ownerID fileID s.db).2 := by
  unfold DeleteFileAndMaybeBlob
  simp only [List.foldl, Ledger.apply, hk, if_true, hc, InFlight.next, deleteNext,
    Function.update_same]
  cases hs : env.select.fails with
  | true => simp [deleteNext, hk]
  | false =>
    simp only [Bool.false_eq_true, if_false]
    cases hfind : s.db.files.find?
        (fun f => decide (f.ID = fileID) && decide (f.OwnerID = ownerID)) with
    | none => simp [deleteNext, hk]
    | some row =>
      simp only [hk, if_true, Function.update_same, deleteNext]
      cases hd : env.delete.fails with
      | true => simp [deleteNext, hk]
      | false => simp [deleteNext, hk]

set_option maxRecDepth 100000 in
/-- C7, as stated, fails, in three ways, each with the strictest schema.  An upload whose
`IncBlobRef` statement the database fails ends with response 200, a file row over the digest and
a count of 0.  With no statement failing, an upload that has created its file row and not yet
issued the +1 has a file row over a count of 0.  And with no statement failing, of two deletions
of the same file that run together the second deletes no row and still lowers the count: it
returns nil, and with no call left in flight one file row remains over a count of 0. -/
theorem refcounts_exact_counterexample :
    ((handleUpload ⟨true, true⟩ dataRoot (helloUpload runs runs broken) World.empty).2 =
        Response.ok ∧
      (run ⟨true, true⟩ dataRoot [Op.upload (helloUpload runs runs broken)]).db =
        ⟨[⟨helloSum, 5, none, helloPath, 0, 0⟩],
         [⟨"f1", "u", helloSum, "a.txt", 5, none, false, [], 0⟩]⟩ ∧
      ¬ RefCountsExact
        (run ⟨true, true⟩ dataRoot [Op.upload (helloUpload runs runs broken)]).db) ∧
    ((Ledger.reach ⟨true, true⟩ (racingDeletes.take 3)).db =
        ⟨[⟨helloSum, 5, none, helloPath, 0, 0⟩],
         [⟨"f1", "u", helloSum, "a.txt", 5, none, false, [], 0⟩]⟩ ∧
      ¬ RefCountsExact (Ledger.reach ⟨true, true⟩ (racingDeletes.take 3)).db) ∧
    ((Ledger.reach ⟨true, true⟩ racingDeletes).db =
        ⟨[⟨helloSum, 5, none, helloPath, 0, 0⟩],
         [⟨"f2", "u", helloSum, "b.txt", 5, none, false, [], 1⟩]⟩ ∧
      (Ledger.reach ⟨true, true⟩ racingDeletes).calls 3 =
        ⟨.delete "u" "f1", 3, helloSum, none⟩ ∧
      (Ledger.reach ⟨true, true⟩ racingDeletes).quiet = true ∧
      ¬ RefCountsExact (Ledger.reach ⟨true, true⟩ racingDeletes).db) := by
  decide

/-- C7, amended: take any interleaving of the statements of uploads (`InsertBlob`, `CreateFile`,
`IncBlobRef` for each file of `handleUpload`) and of deletions (the lookup, the DELETE and the
UPDATE of `DeleteFileAndMaybeBlob`), begun at any moments from the empty ledger, in which every
`InsertBlob` and every UPDATE of a count takes effect and no two deletions of the same file are
in flight together; any other statement may fail.  In every state reached, the count of each blob
row equals the number of file rows over its hash, less the uploads that have created their file
row and not yet issued the +1, plus the deletions that have deleted their file row and not yet
issued the -1; and whenever no call is in flight, every count is not negative and equals the
number of file rows over its hash. -/
theorem refcounts_exact_up_to_calls_in_flight (sch : Schema) (events : List Event)
    (h : admissibleFrom sch Ledger.start events = true) :
    (∀ b ∈ (Ledger.reach sch events).db.blobs,
      b.RefCount + (countCalls (pendingInc b.Hash) (Ledger.reach sch events).calls
          (Ledger.reach sch events).n : Int) =
        (fileRefs b.Hash (Ledger.reach sch events).db : Int) +
          (countCalls (pendingDec b.Hash) (Ledger.reach sch events).calls
            (Ledger.reach sch events).n : Int)) ∧
    ((Ledger.reach sch events).quiet = true → RefCountsExact (Ledger.reach sch events).db) := by
  have hinv : InFlightInv (Ledger.reach sch events) :=
    InFlightInv_events sch events Ledger.start InFlightInv_start h
  refine ⟨hinv.counts, ?_⟩
  intro hq b hb
  simp only [Ledger.quiet, List.all_eq_true, List.mem_range, beq_iff_eq] at hq
  have hI : countCalls (pendingInc b.Hash) (Ledger.reach sch events).calls
      (Ledger.reach sch events).n = 0 := by
    apply countCalls_none
    intro j hj
    unfold pendingInc
    split
    · simp [hq j hj]
    · rfl
  have hD : countCalls (pendingDec b.Hash) (Ledger.reach sch events).calls
      (Ledger.reach sch events).n = 0 := by
    apply countCalls_none
    intro j hj
    unfold pendingDec
    split
    · simp [hq j hj]
    · rfl
  have := hinv.counts b hb
  rw [hI, hD] at this
  simp only [Nat.cast_zero, add_zero] at this
  exact ⟨by rw [this]; exact Int.natCast_nonneg _, this⟩

set_option maxRecDepth 100000 in
theorem refcounts_exact_up_to_calls_in_flight_witness :
    (admissibleFrom ⟨true, true⟩ Ledger.start mixedEvents = true ∧
      (Ledger.reach ⟨true, true⟩ mixedEvents).quiet = true ∧
      (Ledger.reach ⟨true, true⟩ mixedEvents).db =
        ⟨[⟨helloSum, 5, none, helloPath, 1, 0⟩],
         [⟨"f2", "v", helloSum, "b.txt", 5, none, false, [], 1⟩]⟩) ∧
    (∀ b ∈ (Ledger.reach ⟨true, true⟩ mixedEvents).db.blobs,
      b.RefCount + (countCalls (pendingInc b.Hash) (Ledger.reach ⟨true, true⟩ mixedEvents).calls
          (Ledger.reach ⟨true, true⟩ mixedEvents).n : Int) =
        (fileRefs b.Hash (Ledger.reach ⟨true, true⟩ mixedEvents).db : Int) +
          (countCalls (pendingDec b.Hash) (Ledger.reach ⟨true, true⟩ mixedEvents).calls
            (Ledger.reach ⟨true, true⟩ mixedEvents).n : Int)) ∧
    ((Ledger.reach ⟨true, true⟩ mixedEvents).quiet = true →
      RefCountsExact (Ledger.reach ⟨true, true⟩ mixedEvents).db) :=
  ⟨by decide, refcounts_exact_up_to_calls_in_flight ⟨true, true⟩ mixedEvents (by decide)⟩

/-! ## Failure paths, retention and the upload handler -/

/-- Unless `os.CreateTemp` failed, the temporary path was free when `WriteAndHash` began. -/
theorem WriteAndHash_started (s : Service) (env : FsFaults) (r : Reader) (fs : FS)
    (h : (WriteAndHash s env r fs).2 ≠ .error StorageError.createTemp) :
    env.createTemp = false ∧ fs (tmpPath s env) = none := by
  cases hc : env.createTemp with
  | true => exact absurd (by simp [WriteAndHash, hc]) h
  | false =>
    cases ht : fs (tmpPath s env) with
    | some v => exact absurd (by simp [WriteAndHash, hc, ht]) h
    | none => exact ⟨rfl, rfl⟩

/-- When the deferred removal succeeds and `WriteAndHash` got its temporary file, that
file is absent from the root when the call returns, on every path: after a read or write error
of the copy, after a failed `MkdirAll`, after a failed `Rename`, on the deduplication return and
on the rename return; and on each error return the file system is exactly as before the call. -/
theorem no_staging_artifact_survives (s : Service) (env : FsFaults) (r : Reader) (fs : FS)
    (h : (WriteAndHash s env r fs).2 ≠ .error StorageError.createTemp) :
    (WriteAndHash s env r fs).1 (tmpPath s env) = none ∧
    (∀ e, (WriteAndHash s env r fs).2 = .error e → (WriteAndHash s env r fs).1 = fs) ∧
    (∀ x, (WriteAndHash s env r fs).2 = .ok x → fs x.finalPath ≠ none →
      (WriteAndHash s env r fs).1 = fs) := by
  obtain ⟨_, htmp⟩ := WriteAndHash_started s env r fs h
  have herr : ∀ e, (WriteAndHash s env r fs).2 = .error e → (WriteAndHash s env r fs).1 = fs :=
    fun e he => WriteAndHash_error s env r fs _ e (Prod.ext rfl he)
  refine ⟨?_, herr, ?_⟩
  · rcases WriteAndHash_cases s env r fs with ⟨e, he⟩ | ⟨x, hx⟩
    · rw [he]; exact htmp
    · obtain ⟨_, _, _, hpath, _, hfs⟩ := WriteAndHash_ok s env r fs _ x (Prod.ext rfl hx)
      have hne : tmpPath s env ≠ x.finalPath := by
        rw [hpath]
        intro heq
        have := congrArg List.length heq
        simp [tmpPath] at this
      refine (congrFun hfs (tmpPath s env)).trans ?_
      simp only [hne, if_false]
      exact htmp
  · intro x hx hheld
    obtain ⟨_, _, _, _, _, hfs⟩ := WriteAndHash_ok s env r fs _ x (Prod.ext rfl hx)
    refine hfs.trans ?_
    apply funext
    intro q
    by_cases hq : q = x.finalPath
    · rw [hq]
      cases hv : fs x.finalPath with
      | none => exact absurd hv hheld
      | some c => simp
    · simp [hq]

/-- With a removal that succeeds `WriteAndHashWithRemove` is `WriteAndHash`. -/
theorem WriteAndHashWithRemove_false (s : Service) (env : FsFaults) (r : Reader) (fs : FS) :
    WriteAndHashWithRemove s env false r fs = WriteAndHash s env r fs := by
  unfold WriteAndHashWithRemove WriteAndHash deferredRemove
  simp only [Bool.false_eq_true, if_false]

/-- What `WriteAndHashWithRemove` returns does not depend on the removal, and away from the
temporary path neither does the file system it leaves. -/
theorem WriteAndHashWithRemove_frame (s : Service) (env : FsFaults) (rm : Bool) (r : Reader)
    (fs : FS) :
    (WriteAndHashWithRemove s env rm r fs).2 = (WriteAndHash s env r fs).2 ∧
    ∀ q, q ≠ tmpPath s env →
      (WriteAndHashWithRemove s env rm r fs).1 q = (WriteAndHash s env r fs).1 q := by
  cases rm with
  | false => rw [WriteAndHashWithRemove_false]; exact ⟨rfl, fun _ _ => rfl⟩
  | true =>
    unfold WriteAndHashWithRemove WriteAndHash deferredRemove
    simp only [if_true]
    split
    · exact ⟨rfl, fun _ _ => rfl⟩
    · split
      · exact ⟨rfl, fun q hq => by simp [FS.remove, hq]⟩
      · split
        · exact ⟨rfl, fun q hq => by simp [FS.remove, hq]⟩
        · split
          · exact ⟨rfl, fun q hq => by simp [FS.remove, hq]⟩
          · split
            · exact ⟨rfl, fun q hq => by simp [FS.remove, hq]⟩
            · exact ⟨rfl, fun q hq => by simp [FS.remove, hq]⟩

/-- When the removal fails, every return after `os.CreateTemp` but the one after the rename
leaves the temporary file in place, holding what the copy wrote. -/
theorem WriteAndHashWithRemove_true (s : Service) (env : FsFaults) (r : Reader) (fs : FS)
    (hc : env.createTemp = false) (ht : fs (tmpPath s env) = none) :
    (∀ e, (WriteAndHashWithRemove s env true r fs).2 = .error e →
      (WriteAndHashWithRemove s env true r fs).1 = fs.write (tmpPath s env)
        (ioCopy env.writeFailAt r.fails r.chunks 0 ⟨[], [], 0⟩).1.file) ∧
    (∀ x, (WriteAndHashWithRemove s env true r fs).2 = .ok x → fs x.finalPath ≠ none →
      (WriteAndHashWithRemove s env true r fs).1 = fs.write (tmpPath s env) r.bytes) ∧
    (∀ x, (WriteAndHashWithRemove s env true r fs).2 = .ok x → fs x.finalPath = none →
      (WriteAndHashWithRemove s env true r fs).1 (tmpPath s env) = none) := by
  unfold WriteAndHashWithRemove deferredRemove
  simp only [hc, ht, Option.isSome_none, Bool.or_self, Bool.false_eq_true, if_false, if_true]
  generalize hcp : ioCopy env.writeFailAt r.fails r.chunks 0 ⟨[], [], 0⟩ = cp
  obtain ⟨st, oe⟩ := cp
  have hne := final_ne_tmpPath s env (goSlice (hexEncodeToString (sha256 st.hashed)) 0 2)
    (goSlice (hexEncodeToString (sha256 st.hashed)) 2 4) (hexEncodeToString (sha256 st.hashed))
  cases oe with
  | some e0 =>
    exact ⟨fun _ _ => rfl, fun x hx => by simp at hx, fun x hx => by simp at hx⟩
  | none =>
    obtain ⟨_, hfile, _, _⟩ := ioCopy_ok _ _ _ _ _ _ hcp
    have hbytes : st.file = r.bytes := by
      rw [hfile]
      simp [Reader.bytes]
    simp only
    by_cases hm : env.mkdirAll = true
    · rw [if_pos hm]
      exact ⟨fun _ _ => rfl, fun x hx => by simp at hx, fun x hx => by simp at hx⟩
    · rw [if_neg hm]
      have hfin : (fs.write (tmpPath s env) st.file)
          (s.RootDir ++ [goSlice (hexEncodeToString (sha256 st.hashed)) 0 2,
            goSlice (hexEncodeToString (sha256 st.hashed)) 2 4] ++
            [hexEncodeToString (sha256 st.hashed)]) =
          fs (s.RootDir ++ [goSlice (hexEncodeToString (sha256 st.hashed)) 0 2,
            goSlice (hexEncodeToString (sha256 st.hashed)) 2 4] ++
            [hexEncodeToString (sha256 st.hashed)]) := by
        unfold FS.write
        exact if_neg hne
      rw [hfin]
      split
      · rename_i hsome
        refine ⟨fun e he => by simp at he, fun _ _ _ => by rw [hbytes], fun x hx habs => ?_⟩
        simp only [Except.ok.injEq] at hx
        subst hx
        simp only at habs
        rw [habs] at hsome
        simp at hsome
      · rename_i hnone
        split
        · exact ⟨fun _ _ => rfl, fun x hx => by simp at hx, fun x hx => by simp at hx⟩
        · refine ⟨fun e he => by simp at he, fun x hx hheld => ?_, fun x hx _ => ?_⟩
          · simp only [Except.ok.injEq] at hx
            subst hx
            simp only at hheld
            exact absurd (by simpa using hnone) hheld
          · unfold FS.write FS.remove
            simp only [if_neg (Ne.symm hne), if_true]

set_option maxRecDepth 100000 in
/-- C11, as stated, fails: when the deferred `os.Remove` fails as well, the call returns the
read error and the temporary file is still in the root, holding the byte that was copied; and
on the deduplication return the temporary file is still there with the whole content. -/
theorem staging_artifact_survives_counterexample :
    (WriteAndHashWithRemove dataRoot (calm "1") true brokenReader FS.empty).2 =
      .error StorageError.read ∧
    (WriteAndHashWithRemove dataRoot (calm "1") true brokenReader FS.empty).1
      (tmpPath dataRoot (calm "1")) = some [104] ∧
    (WriteAndHashWithRemove dataRoot (calm "1") true helloReader helloStore).2 =
      .ok ⟨helloSum, helloPath, 5⟩ ∧
    (WriteAndHashWithRemove dataRoot (calm "1") true helloReader helloStore).1
      (tmpPath dataRoot (calm "1")) = some helloBytes := by
  decide

/-- C11, amended: `WriteAndHash` removes its temporary file in a deferred call whose error it
discards, and what it returns does not depend on that call.  Once `os.CreateTemp` succeeded:
when the removal succeeds, the temporary file is absent on every return, and on every error
return and on the deduplication return the file system is exactly as before the call; when the
removal fails, the temporary file stays on every error return, holding the bytes the copy
wrote, and on the deduplication return, holding the whole content, and nothing else has
changed; after a rename the temporary file is gone in either case. -/
theorem staging_artifact_removed_unless_remove_fails (s : Service) (env : FsFaults) (rm : Bool)
    (r : Reader) (fs : FS)
    (h : (WriteAndHashWithRemove s env rm r fs).2 ≠ .error StorageError.createTemp) :
    (WriteAndHashWithRemove s env rm r fs).2 = (WriteAndHash s env r fs).2 ∧
    (rm = false →
      (WriteAndHashWithRemove s env rm r fs).1 (tmpPath s env) = none ∧
      (∀ e, (WriteAndHashWithRemove s env rm r fs).2 = .error e →
        (WriteAndHashWithRemove s env rm r fs).1 = fs) ∧
      (∀ x, (WriteAndHashWithRemove s env rm r fs).2 = .ok x → fs x.finalPath ≠ none →
        (WriteAndHashWithRemove s env rm r fs).1 = fs)) ∧
    (rm = true →
      (∀ e, (WriteAndHashWithRemove s env rm r fs).2 = .error e →
        (WriteAndHashWithRemove s env rm r fs).1 = fs.write (tmpPath s env)
          (ioCopy env.writeFailAt r.fails r.chunks 0 ⟨[], [], 0⟩).1.file) ∧
      (∀ x, (WriteAndHashWithRemove s env rm r fs).2 = .ok x → fs x.finalPath ≠ none →
        (WriteAndHashWithRemove s env rm r fs).1 = fs.write (tmpPath s env) r.bytes) ∧
      (∀ x, (WriteAndHashWithRemove s env rm r fs).2 = .ok x → fs x.finalPath = none →
        (WriteAndHashWithRemove s env rm r fs).1 (tmpPath s env) = none)) := by
  have hret := (WriteAndHashWithRemove_frame s env rm r fs).1
  have h' : (WriteAndHash s env r fs).2 ≠ .error StorageError.createTemp := by
    rw [← hret]; exact h
  obtain ⟨hc, ht⟩ := WriteAndHash_started s env r fs h'
  refine ⟨hret, ?_, ?_⟩
  · intro hrm
    subst hrm
    rw [WriteAndHashWithRemove_false]
    exact no_staging_artifact_survives s env r fs h'
  · intro hrm
    subst hrm
    exact WriteAndHashWithRemove_true s env r fs hc ht

set_option maxRecDepth 100000 in
theorem staging_artifact_removed_unless_remove_fails_witness :
    (WriteAndHashWithRemove dataRoot (calm "1") true brokenReader helloStore).2 =
      (WriteAndHash dataRoot (calm "1") brokenReader helloStore).2 ∧
    (true = false →
      (WriteAndHashWithRemove dataRoot (calm "1") true brokenReader helloStore).1
        (tmpPath dataRoot (calm "1")) = none ∧
      (∀ e, (WriteAndHashWithRemove dataRoot (calm "1") true brokenReader helloStore).2 =
          .error e →
        (WriteAndHashWithRemove dataRoot (calm "1") true brokenReader helloStore).1 =
          helloStore) ∧
      (∀ x, (WriteAndHashWithRemove dataRoot (calm "1") true brokenReader helloStore).2 =
          .ok x → helloStore x.finalPath ≠ none →
        (WriteAndHashWithRemove dataRoot (calm "1") true brokenReader helloStore).1 =
          helloStore)) ∧
    (true = true →
      (∀ e, (WriteAndHashWithRemove dataRoot (calm "1") true brokenReader helloStore).2 =
          .error e →
        (WriteAndHashWithRemove dataRoot (calm "1") true brokenReader helloStore).1 =
          helloStore.write (tmpPath dataRoot (calm "1"))
            (ioCopy (calm "1").writeFailAt brokenReader.fails brokenReader.chunks 0
              ⟨[], [], 0⟩).1.file) ∧
      (∀ x, (WriteAndHashWithRemove dataRoot (calm "1") true brokenReader helloStore).2 =
          .ok x → helloStore x.finalPath ≠ none →
        (WriteAndHashWithRemove dataRoot (calm "1") true brokenReader helloStore).1 =
          helloStore.write (tmpPath dataRoot (calm "1")) brokenReader.bytes) ∧
      (∀ x, (WriteAndHashWithRemove dataRoot (calm "1") true brokenReader helloStore).2 =
          .ok x → helloStore x.finalPath = none →
        (WriteAndHashWithRemove dataRoot (calm "1") true brokenReader helloStore).1
          (tmpPath dataRoot (calm "1")) = none)) :=
  staging_artifact_removed_unless_remove_fails dataRoot (calm "1") true brokenReader helloStore
    (by decide)

/-- C12: when `WriteAndHash` returns an error for a file, processing that file changes neither
the ledger nor the file system and reports an error (the storage error itself once the file was
opened and the declared MIME type passed the check); the loop of `handleUpload` stops there with
status 400, and so does `handleUpload` for a request that starts with this file. -/
theorem failed_write_no_ledger_mutation (sch : Schema) (storage : Service)
    (userID declaredMIME : String) (fh : FileHeader) (env : FileEnv)
    (rest : List (FileHeader × FileEnv)) (w : World) (e : StorageError)
    (h : (WriteAndHash storage env.fsFaults fh.content w.fs).2 = .error e) :
    (uploadFile sch storage userID declaredMIME fh env w).1.db = w.db ∧
    (uploadFile sch storage userID declaredMIME fh env w).1.fs = w.fs ∧
    (uploadFile sch storage userID declaredMIME fh env w).2 ≠ none ∧
    (¬ (declaredMIME ≠ "" ∧ ¬ declaredMIME.data.contains '/') →
      (uploadFile sch storage userID declaredMIME fh env w).2 =
        some (UploadError.storage e)) ∧
    (uploadLoop sch storage userID declaredMIME ((fh, env) :: rest) w).1.db = w.db ∧
    (uploadLoop sch storage userID declaredMIME ((fh, env) :: rest) w).1.fs = w.fs ∧
    (uploadLoop sch storage userID declaredMIME ((fh, env) :: rest) w).2.status = 400 ∧
    (∀ req : UploadRequest, req.files = (fh, env) :: rest →
      (handleUpload sch storage req w).1.db = w.db ∧
      (handleUpload sch storage req w).1.fs = w.fs ∧
      (handleUpload sch storage req w).2.status ≠ 200) := by
  have hfs : (WriteAndHash storage env.fsFaults fh.content w.fs).1 = w.fs :=
    WriteAndHash_error storage env.fsFaults fh.content w.fs _ e (Prod.ext rfl h)
  have hW : WriteAndHash storage env.fsFaults fh.content w.fs = (w.fs, .error e) :=
    Prod.ext hfs h
  have hfile : ∀ u m : String, (uploadFile sch storage u m fh env w).1.db = w.db ∧
      (uploadFile sch storage u m fh env w).1.fs = w.fs ∧
      (uploadFile sch storage u m fh env w).2 ≠ none ∧
      (¬ (m ≠ "" ∧ ¬ m.data.contains '/') →
        (uploadFile sch storage u m fh env w).2 = some (UploadError.storage e)) := by
    intro u m
    unfold uploadFile
    by_cases hm : m ≠ "" ∧ ¬ m.data.contains '/'
    · rw [if_pos hm]
      exact ⟨rfl, rfl, by simp, fun hn => absurd hm hn⟩
    · rw [if_neg hm, hW]
      exact ⟨rfl, rfl, by simp, fun _ => rfl⟩
  have hloop : ∀ u m : String,
      (uploadLoop sch storage u m ((fh, env) :: rest) w).1.db = w.db ∧
      (uploadLoop sch storage u m ((fh, env) :: rest) w).1.fs = w.fs ∧
      (uploadLoop sch storage u m ((fh, env) :: rest) w).2.status = 400 := by
    intro u m
    unfold uploadLoop
    cases ho : fh.openFails with
    | true => exact ⟨rfl, rfl, rfl⟩
    | false =>
      simp only [Bool.false_eq_true, if_false]
      obtain ⟨h1, h2, h3, _⟩ := hfile u m
      cases hU : uploadFile sch storage u m fh env w with
      | mk w1 oe =>
        rw [hU] at h1 h2 h3
        cases oe with
        | none => exact absurd rfl h3
        | some e1 => exact ⟨h1, h2, rfl⟩
  obtain ⟨f1, f2, f3, f4⟩ := hfile userID declaredMIME
  obtain ⟨l1, l2, l3⟩ := hloop userID declaredMIME
  refine ⟨f1, f2, f3, f4, l1, l2, l3, ?_⟩
  intro req hreq
  unfold handleUpload
  split
  · exact ⟨rfl, rfl, by simp [Response.status]⟩
  · split
    · exact ⟨rfl, rfl, by simp [Response.status]⟩
    · split
      · exact ⟨rfl, rfl, by simp [Response.status]⟩
      · split
        · exact ⟨rfl, rfl, by simp [Response.status]⟩
        · rw [hreq]
          obtain ⟨r1, r2, r3⟩ := hloop req.userID req.declaredMIME
          exact ⟨r1, r2, by rw [r3]; decide⟩

set_option maxRecDepth 100000 in
theorem failed_write_no_ledger_mutation_witness :
    (uploadFile ⟨true, true⟩ dataRoot "u" "text/plain" ⟨"a.txt", brokenReader, false⟩
      ⟨calm "1", runs, runs, runs⟩ ⟨helloStore, oneRefLedger⟩).1.db = oneRefLedger ∧
    (uploadFile ⟨true, true⟩ dataRoot "u" "text/plain" ⟨"a.txt", brokenReader, false⟩
      ⟨calm "1", runs, runs, runs⟩ ⟨helloStore, oneRefLedger⟩).1.fs = helloStore ∧
    (uploadFile ⟨true, true⟩ dataRoot "u" "text/plain" ⟨"a.txt", brokenReader, false⟩
      ⟨calm "1", runs, runs, runs⟩ ⟨helloStore, oneRefLedger⟩).2 ≠ none ∧
    (¬ ("text/plain" ≠ "" ∧ ¬ "text/plain".data.contains '/') →
      (uploadFile ⟨true, true⟩ dataRoot "u" "text/plain" ⟨"a.txt", brokenReader, false⟩
        ⟨calm "1", runs, runs, runs⟩ ⟨helloStore, oneRefLedger⟩).2 =
        some (UploadError.storage StorageError.read)) ∧
    (uploadLoop ⟨true, true⟩ dataRoot "u" "text/plain"
      ((⟨"a.txt", brokenReader, false⟩, ⟨calm "1", runs, runs, runs⟩) :: [])
      ⟨helloStore, oneRefLedger⟩).1.db = oneRefLedger ∧
    (uploadLoop ⟨true, true⟩ dataRoot "u" "text/plain"
      ((⟨"a.txt", brokenReader, false⟩, ⟨calm "1", runs, runs, runs⟩) :: [])
      ⟨helloStore, oneRefLedger⟩).1.fs = helloStore ∧
    (uploadLoop ⟨true, true⟩ dataRoot "u" "text/plain"
      ((⟨"a.txt", brokenReader, false⟩, ⟨calm "1", runs, runs, runs⟩) :: [])
      ⟨helloStore, oneRefLedger⟩).2.status = 400 ∧
    (∀ req : UploadRequest,
      req.files = (⟨"a.txt", brokenReader, false⟩, ⟨calm "1", runs, runs, runs⟩) :: [] →
      (handleUpload ⟨true, true⟩ dataRoot req ⟨helloStore, oneRefLedger⟩).1.db = oneRefLedger ∧
      (handleUpload ⟨true, true⟩ dataRoot req ⟨helloStore, oneRefLedger⟩).1.fs = helloStore ∧
      (handleUpload ⟨true, true⟩ dataRoot req ⟨helloStore, oneRefLedger⟩).2.status ≠ 200) :=
  failed_write_no_ledger_mutation ⟨true, true⟩ dataRoot "u" "text/plain"
    ⟨"a.txt", brokenReader, false⟩ ⟨calm "1", runs, runs, runs⟩ [] ⟨helloStore, oneRefLedger⟩
    StorageError.read (by decide)

/-- `WriteAndHash` keeps every file that was there, with its bytes. -/
theorem WriteAndHash_keeps_files (s : Service) (env : FsFaults) (r : Reader) (fs : FS)
    (p : Path) (c : List Byte) (h : fs p = some c) : (WriteAndHash s env r fs).1 p = some c := by
  rcases WriteAndHash_cases s env r fs with ⟨e, he⟩ | ⟨x, hx⟩
  · rw [he]; exact h
  · obtain ⟨_, _, _, _, _, hfs⟩ := WriteAndHash_ok s env r fs _ x (Prod.ext rfl hx)
    refine (congrFun hfs p).trans ?_
    by_cases hp : p = x.finalPath
    · rw [if_pos hp, ← hp, h]; rfl
    · rw [if_neg hp]; exact h

theorem bump_keeps (hash : String) (delta : Int) (b : Blob) :
    { bump hash delta b with RefCount := b.RefCount } = b := by
  unfold bump
  split <;> rfl

/-- An UPDATE of a count leaves the blob rows as they are or applies `bump` to each. -/
theorem updateRefCount_blobs (sch : Schema) (st : Stmt) (hash : String) (delta : Int) (db : DB) :
    (updateRefCount sch st hash delta db).1.files = db.files ∧
    ((updateRefCount sch st hash delta db).1.blobs = db.blobs ∨
      (updateRefCount sch st hash delta db).1.blobs = db.blobs.map (bump hash delta)) := by
  unfold updateRefCount
  split
  · exact ⟨rfl, Or.inl rfl⟩
  · split
    · exact ⟨rfl, Or.inl rfl⟩
    · exact ⟨rfl, Or.inr rfl⟩

theorem updateRefCount_keeps (sch : Schema) (st : Stmt) (hash : String) (delta : Int) (db : DB)
    (b : Blob) (hb : b ∈ db.blobs) :
    ∃ b' ∈ (updateRefCount sch st hash delta db).1.blobs, { b' with RefCount := b.RefCount } = b := by
  rcases (updateRefCount_blobs sch st hash delta db).2 with h | h
  · rw [h]; exact ⟨b, hb, rfl⟩
  · rw [h]; exact ⟨bump hash delta b, List.mem_map_of_mem _ hb, bump_keeps hash delta b⟩

theorem DeleteFileAndMaybeBlob_blobs (sch : Schema) (env : DeleteEnv) (ownerID fileID : String)
    (db : DB) :
    (DeleteFileAndMaybeBlob sch env ownerID fileID db).1.blobs = db.blobs ∨
    ∃ hash, (DeleteFileAndMaybeBlob sch env ownerID fileID db).1.blobs =
      db.blobs.map (bump hash (-1)) := by
  unfold DeleteFileAndMaybeBlob
  split
  · exact Or.inl rfl
  · split
    · exact Or.inl rfl
    · rename_i row _
      split
      · exact Or.inl rfl
      · rcases (updateRefCount_blobs sch env.update row.BlobHash (-1)
          ⟨db.blobs, db.files.filter
            (fun f => !(decide (f.ID = fileID) && decide (f.OwnerID = ownerID)))⟩).2 with h | h
        · exact Or.inl h
        · exact Or.inr ⟨row.BlobHash, h⟩

theorem uploadFile_keeps (sch : Schema) (storage : Service) (userID declaredMIME : String)
    (fh : FileHeader) (env : FileEnv) (w : World) :
    (∀ p c, w.fs p = some c →
      (uploadFile sch storage userID declaredMIME fh env w).1.fs p = some c) ∧
    (∀ b ∈ w.db.blobs, ∃ b' ∈ (uploadFile sch storage userID declaredMIME fh env w).1.db.blobs,
      { b' with RefCount := b.RefCount } = b) := by
  unfold uploadFile
  split
  · exact ⟨fun _ _ h => h, fun b hb => ⟨b, hb, rfl⟩⟩
  · have hkeep := WriteAndHash_keeps_files storage env.fsFaults fh.content w.fs
    cases hW : WriteAndHash storage env.fsFaults fh.content w.fs with
    | mk fs1 res =>
      rw [hW] at hkeep
      cases res with
      | error e => exact ⟨hkeep, fun b hb => ⟨b, hb, rfl⟩⟩
      | ok x =>
        simp only
        have hins : ∀ b ∈ w.db.blobs, b ∈ (InsertBlob sch env.insertBlob
            ⟨x.sum, x.written, if declaredMIME ≠ "" then some declaredMIME else none,
              x.finalPath, 0, 0⟩ w.db).1.blobs := by
          intro b hb
          rcases InsertBlob_zero_cases sch env.insertBlob
            ⟨x.sum, x.written, if declaredMIME ≠ "" then some declaredMIME else none,
              x.finalPath, 0, 0⟩ w.db rfl with h | ⟨_, h⟩
          · rw [h]; exact hb
          · rw [h]; exact List.mem_append_left _ hb
        rcases CreateFile_cases sch env.createFile
          ⟨"", userID, x.sum, fh.Filename, x.written,
            if declaredMIME ≠ "" then some declaredMIME else none, false, [], 0⟩
          (InsertBlob sch env.insertBlob
            ⟨x.sum, x.written, if declaredMIME ≠ "" then some declaredMIME else none,
              x.finalPath, 0, 0⟩ w.db).1 with ⟨e, hc⟩ | ⟨hc, _, _⟩
        · rw [hc]
          exact ⟨hkeep, fun b hb => ⟨b, hins b hb, rfl⟩⟩
        · rw [hc]
          refine ⟨hkeep, fun b hb => ?_⟩
          exact updateRefCount_keeps sch env.incBlobRef x.sum 1 _ b (hins b hb)

theorem step_keeps (sch : Schema) (storage : Service) (w : World) (op : Op) :
    (∀ p c, w.fs p = some c → (step sch storage w op).fs p = some c) ∧
    (∀ b ∈ w.db.blobs, ∃ b' ∈ (step sch storage w op).db.blobs,
      { b' with RefCount := b.RefCount } = b) := by
  cases op with
  | delete ownerID fileID env =>
    refine ⟨fun _ _ h => h, fun b hb => ?_⟩
    simp only [step]
    rcases DeleteFileAndMaybeBlob_blobs sch env ownerID fileID w.db with h | ⟨hash, h⟩
    · rw [h]; exact ⟨b, hb, rfl⟩
    · rw [h]; exact ⟨bump hash (-1) b, List.mem_map_of_mem _ hb, bump_keeps hash (-1) b⟩
  | upload req =>
    have hloop : ∀ (files : List (FileHeader × FileEnv)) (w0 : World),
        (∀ p c, w0.fs p = some c →
          (uploadLoop sch storage req.userID req.declaredMIME files w0).1.fs p = some c) ∧
        (∀ b ∈ w0.db.blobs,
          ∃ b' ∈ (uploadLoop sch storage req.userID req.declaredMIME files w0).1.db.blobs,
            { b' with RefCount := b.RefCount } = b) := by
      intro files
      induction files with
      | nil => intro w0; exact ⟨fun _ _ h => h, fun b hb => ⟨b, hb, rfl⟩⟩
      | cons pr rest ih =>
        intro w0
        obtain ⟨fh, env⟩ := pr
        unfold uploadLoop
        split
        · exact ⟨fun _ _ h => h, fun b hb => ⟨b, hb, rfl⟩⟩
        · obtain ⟨k1, k2⟩ := uploadFile_keeps sch storage req.userID req.declaredMIME fh env w0
          cases hU : uploadFile sch storage req.userID req.declaredMIME fh env w0 with
          | mk w1 oe =>
            rw [hU] at k1 k2
            cases oe with
            | some e => exact ⟨k1, k2⟩
            | none =>
              obtain ⟨i1, i2⟩ := ih w1
              refine ⟨fun p c h => i1 p c (k1 p c h), fun b hb => ?_⟩
              obtain ⟨b1, hb1, e1⟩ := k2 b hb
              obtain ⟨b2, hb2, e2⟩ := i2 b1 hb1
              refine ⟨b2, hb2, ?_⟩
              rw [← e1, ← e2]
    simp only [step, handleUpload]
    split
    · exact ⟨fun _ _ h => h, fun b hb => ⟨b, hb, rfl⟩⟩
    · split
      · exact ⟨fun _ _ h => h, fun b hb => ⟨b, hb, rfl⟩⟩
      · split
        · exact ⟨fun _ _ h => h, fun b hb => ⟨b, hb, rfl⟩⟩
        · split
          · exact ⟨fun _ _ h => h, fun b hb => ⟨b, hb, rfl⟩⟩
          · exact hloop req.files w

/-- C13: `DeleteFileAndMaybeBlob` leaves the file system untouched and the blob rows in place,
one for one, either unchanged or with 1 taken from the count of one digest, whatever count
results; and through any sequence of uploads and deletions every physical file keeps its bytes
and every blob row stays in the ledger with all its columns but the count. -/
theorem zero_references_is_holding_state (sch : Schema) (storage : Service) :
    (∀ (w : World) (ownerID fileID : String) (env : DeleteEnv),
      (step sch storage w (Op.delete ownerID fileID env)).fs = w.fs ∧
      ((step sch storage w (Op.delete ownerID fileID env)).db.blobs = w.db.blobs ∨
        ∃ hash, (step sch storage w (Op.delete ownerID fileID env)).db.blobs =
          w.db.blobs.map (bump hash (-1)))) ∧
    (∀ (ops : List Op) (w : World),
      (∀ p c, w.fs p = some c → (ops.foldl (step sch storage) w).fs p = some c) ∧
      (∀ b ∈ w.db.blobs, ∃ b' ∈ (ops.foldl (step sch storage) w).db.blobs,
        { b' with RefCount := b.RefCount } = b)) := by
  refine ⟨?_, ?_⟩
  · intro w ownerID fileID env
    exact ⟨rfl, DeleteFileAndMaybeBlob_blobs sch env ownerID fileID w.db⟩
  · intro ops
    induction ops with
    | nil => intro w; exact ⟨fun _ _ h => h, fun b hb => ⟨b, hb, rfl⟩⟩
    | cons op ops ih =>
      intro w
      obtain ⟨k1, k2⟩ := step_keeps sch storage w op
      obtain ⟨i1, i2⟩ := ih (step sch storage w op)
      refine ⟨fun p c h => i1 p c (k1 p c h), fun b hb => ?_⟩
      obtain ⟨b1, hb1, e1⟩ := k2 b hb
      obtain ⟨b2, hb2, e2⟩ := i2 b1 hb1
      refine ⟨b2, hb2, ?_⟩
      rw [← e1, ← e2]

/-- C17: when no file row has both the given id and the given owner, `DeleteFileAndMaybeBlob`
returns an error (`pgx.ErrNoRows` when the lookup itself ran) and leaves the ledger, file rows
and counts, exactly as it was. -/
theorem delete_checks_owner_first (sch : Schema) (env : DeleteEnv) (ownerID fileID : String)
    (db : DB) (h : ∀ f ∈ db.files, ¬ (f.ID = fileID ∧ f.OwnerID = ownerID)) :
    (DeleteFileAndMaybeBlob sch env ownerID fileID db).1 = db ∧
    (DeleteFileAndMaybeBlob sch env ownerID fileID db).2 ≠ none ∧
    (env.select.fails = false →
      (DeleteFileAndMaybeBlob sch env ownerID fileID db).2 = some DbError.noRows) := by
  have hfind : db.files.find?
      (fun f => decide (f.ID = fileID) && decide (f.OwnerID = ownerID)) = none := by
    rw [List.find?_eq_none]
    intro f hf
    have := h f hf
    simpa using this
  unfold DeleteFileAndMaybeBlob
  cases hs : env.select.fails with
  | true => simp
  | false => simp [hfind]

theorem delete_checks_owner_first_witness :
    (DeleteFileAndMaybeBlob ⟨false, false⟩ ⟨runs, runs, runs⟩ "mallory" "f1" oneRefLedger).1 =
      oneRefLedger ∧
    (DeleteFileAndMaybeBlob ⟨false, false⟩ ⟨runs, runs, runs⟩ "mallory" "f1" oneRefLedger).2 ≠
      none ∧
    ((⟨runs, runs, runs⟩ : DeleteEnv).select.fails = false →
      (DeleteFileAndMaybeBlob ⟨false, false⟩ ⟨runs, runs, runs⟩ "mallory" "f1" oneRefLedger).2 =
        some DbError.noRows) :=
  delete_checks_owner_first ⟨false, false⟩ ⟨runs, runs, runs⟩ "mallory" "f1" oneRefLedger
    (by decide)

/-- C19: for a request whose declared MIME string is non-empty and has no `/`, `handleUpload`
answers with an error status and leaves file system and ledger exactly as they were (for a file
that was opened the error is `invalid mime`, raised before `WriteAndHash`).  An empty declared
MIME string passes the check: no file is refused as `invalid mime`; a file whose `WriteAndHash`
succeeds and whose `InsertBlob` and `CreateFile` statements the database executes, the generated
id being new, is processed without error, its file row has an absent MIME type and so has the
blob row recorded for a digest that had none, and a request with one such file is answered 200;
whenever a file is processed without error under an empty declared MIME string, its file row
and any blob row added for it have an absent MIME type. -/
theorem malformed_mime_rejected_first (sch : Schema) (storage : Service) (w : World) :
    (∀ req : UploadRequest, req.declaredMIME ≠ "" → ¬ req.declaredMIME.data.contains '/' →
      (handleUpload sch storage req w).1.fs = w.fs ∧
      (handleUpload sch storage req w).1.db = w.db ∧
      (handleUpload sch storage req w).2.status ≠ 200 ∧
      (∀ fh env, uploadFile sch storage req.userID req.declaredMIME fh env w =
        (w, some UploadError.invalidMime))) ∧
    (∀ (userID : String) (fh : FileHeader) (env : FileEnv) (w' : World),
      uploadFile sch storage userID "" fh env w = (w', none) →
      (∃ row, w'.db.files = w.db.files ++ [row] ∧ row.MIMEType = none ∧
        row.Filename = fh.Filename ∧ row.OwnerID = userID) ∧
      (∀ b ∈ w'.db.blobs, (∀ b0 ∈ w.db.blobs, b0.Hash ≠ b.Hash) → b.MIMEType = none)) ∧
    (∀ (userID : String) (fh : FileHeader) (env : FileEnv),
      (uploadFile sch storage userID "" fh env w).2 ≠ some UploadError.invalidMime) ∧
    (∀ (userID : String) (fh : FileHeader) (env : FileEnv) (fs1 : FS) (x : Written),
      WriteAndHash storage env.fsFaults fh.content w.fs = (fs1, .ok x) →
      env.insertBlob.fails = false → env.createFile.fails = false →
      (∀ f ∈ w.db.files, f.ID ≠ env.createFile.newID) →
      (uploadFile sch storage userID "" fh env w).2 = none ∧
      (uploadFile sch storage userID "" fh env w).1.fs = fs1 ∧
      (uploadFile sch storage userID "" fh env w).1.db.files = w.db.files ++
        [⟨env.createFile.newID, userID, x.sum, fh.Filename, x.written, none, false, [],
          env.createFile.now⟩] ∧
      ((∀ b0 ∈ w.db.blobs, b0.Hash ≠ x.sum) →
        ∃ b ∈ (uploadFile sch storage userID "" fh env w).1.db.blobs,
          b.Hash = x.sum ∧ b.MIMEType = none ∧ b.SizeBytes = x.written ∧
          b.StoragePath = x.finalPath) ∧
      (∀ req : UploadRequest, req.userID = userID → userID ≠ "" → req.formOk = true →
        req.files = [(fh, env)] → req.declaredMIME = "" → fh.openFails = false →
        req.sumUserStorage.fails = false →
        (handleUpload sch storage req w).2 = Response.ok)) := by
  refine ⟨?_, ?_, ?_, ?_⟩
  · intro req hne hno
    have hfile : ∀ fh env, uploadFile sch storage req.userID req.declaredMIME fh env w =
        (w, some UploadError.invalidMime) := by
      intro fh env
      unfold uploadFile
      rw [if_pos ⟨hne, hno⟩]
    have hloop : ∀ files : List (FileHeader × FileEnv),
        (uploadLoop sch storage req.userID req.declaredMIME files w).1 = w ∧
        (files ≠ [] →
          (uploadLoop sch storage req.userID req.declaredMIME files w).2.status = 400) := by
      intro files
      cases files with
      | nil => exact ⟨rfl, fun h => absurd rfl h⟩
      | cons pr rest =>
        obtain ⟨fh, env⟩ := pr
        unfold uploadLoop
        split
        · exact ⟨rfl, fun _ => rfl⟩
        · rw [hfile fh env]
          exact ⟨rfl, fun _ => rfl⟩
    refine ⟨?_, ?_, ?_, hfile⟩
    · unfold handleUpload
      split
      · rfl
      · split
        · rfl
        · split
          · rfl
          · split
            · rfl
            · rw [(hloop req.files).1]
    · unfold handleUpload
      split
      · rfl
      · split
        · rfl
        · split
          · rfl
          · split
            · rfl
            · rw [(hloop req.files).1]
    · unfold handleUpload
      split
      · simp [Response.status]
      · split
        · simp [Response.status]
        · split
          · simp [Response.status]
          · rename_i hlen
            split
            · simp [Response.status]
            · have hne' : req.files ≠ [] := by
                intro h0
                apply hlen
                rw [h0]
                rfl
              rw [(hloop req.files).2 hne']
              decide
  · intro userID fh env w' h
    unfold uploadFile at h
    rw [if_neg (by simp)] at h
    cases hW : WriteAndHash storage env.fsFaults fh.content w.fs with
    | mk fs1 res =>
      rw [hW] at h
      cases res with
      | error e => simp at h
      | ok x =>
        simp only [ne_eq, not_true_eq_false, if_false] at h
        rcases CreateFile_cases sch env.createFile
          ⟨"", userID, x.sum, fh.Filename, x.written, none, false, [], 0⟩
          (InsertBlob sch env.insertBlob ⟨x.sum, x.written, none, x.finalPath, 0, 0⟩ w.db).1
          with ⟨e, hc⟩ | ⟨hc, _, _⟩
        · rw [hc] at h
          simp at h
        · rw [hc] at h
          simp only [Prod.mk.injEq, and_true] at h
          subst h
          have hfiles : (InsertBlob sch env.insertBlob
              ⟨x.sum, x.written, none, x.finalPath, 0, 0⟩ w.db).1.files = w.db.files := by
            rcases InsertBlob_zero_cases sch env.insertBlob
              ⟨x.sum, x.written, none, x.finalPath, 0, 0⟩ w.db rfl with h1 | ⟨_, h1⟩
            · rw [h1]
            · rw [h1]
          have hup := updateRefCount_blobs sch env.incBlobRef x.sum 1
            ⟨(InsertBlob sch env.insertBlob
                ⟨x.sum, x.written, none, x.finalPath, 0, 0⟩ w.db).1.blobs,
              (InsertBlob sch env.insertBlob
                ⟨x.sum, x.written, none, x.finalPath, 0, 0⟩ w.db).1.files ++
                [⟨env.createFile.newID, userID, x.sum, fh.Filename, x.written, none, false, [],
                  env.createFile.now⟩]⟩
          refine ⟨⟨⟨env.createFile.newID, userID, x.sum, fh.Filename, x.written, none, false, [],
            env.createFile.now⟩, ?_, rfl, rfl, rfl⟩, ?_⟩
          · show (IncBlobRef sch env.incBlobRef x.sum 1 _).1.files = _
            unfold IncBlobRef
            rw [hup.1, hfiles]
          · intro b hb hnew
            show b.MIMEType = none
            have hb' : b ∈ (IncBlobRef sch env.incBlobRef x.sum 1
                ⟨(InsertBlob sch env.insertBlob
                    ⟨x.sum, x.written, none, x.finalPath, 0, 0⟩ w.db).1.blobs,
                  (InsertBlob sch env.insertBlob
                    ⟨x.sum, x.written, none, x.finalPath, 0, 0⟩ w.db).1.files ++
                    [⟨env.createFile.newID, userID, x.sum, fh.Filename, x.written, none, false,
                      [], env.createFile.now⟩]⟩).1.blobs := hb
            unfold IncBlobRef at hb'
            have hsrc : ∃ b1 ∈ (InsertBlob sch env.insertBlob
                ⟨x.sum, x.written, none, x.finalPath, 0, 0⟩ w.db).1.blobs,
                b1.Hash = b.Hash ∧ b1.MIMEType = b.MIMEType := by
              rcases hup.2 with h1 | h1
              · rw [h1] at hb'
                exact ⟨b, hb', rfl, rfl⟩
              · rw [h1] at hb'
                obtain ⟨b1, hb1, rfl⟩ := List.mem_map.mp hb'
                refine ⟨b1, hb1, (bump_Hash _ _ _).symm, ?_⟩
                unfold bump
                split <;> rfl
            obtain ⟨b1, hb1, hh, hm⟩ := hsrc
            rcases InsertBlob_zero_cases sch env.insertBlob
              ⟨x.sum, x.written, none, x.finalPath, 0, 0⟩ w.db rfl with h1 | ⟨_, h1⟩
            · rw [h1] at hb1
              exact absurd hh (hnew b1 hb1)
            · rw [h1] at hb1
              rcases List.mem_append.mp hb1 with hold | hnw
              · exact absurd hh (hnew b1 hold)
              · simp only [List.mem_singleton] at hnw
                rw [← hm, hnw]
  · intro userID fh env
    unfold uploadFile
    rw [if_neg (by simp)]
    cases hW : WriteAndHash storage env.fsFaults fh.content w.fs with
    | mk fs1 res =>
      cases res with
      | error e => simp
      | ok x =>
        simp only
        generalize CreateFile sch env.createFile _ _ = cr
        obtain ⟨db2, r⟩ := cr
        cases r <;> simp
  · intro userID fh env fs1 x hW hins hcf hfresh
    have hup := uploadFile_ok sch storage userID "" fh env w fs1 x (by simp) hW hins hcf hfresh
    simp only [ne_eq, not_true_eq_false, if_false] at hup
    have hfl := (updateRefCount_blobs sch env.incBlobRef x.sum 1
      ⟨(InsertBlob sch env.insertBlob ⟨x.sum, x.written, none, x.finalPath, 0, 0⟩ w.db).1.blobs,
        w.db.files ++ [⟨env.createFile.newID, userID, x.sum, fh.Filename, x.written, none,
          false, [], env.createFile.now⟩]⟩)
    refine ⟨by rw [hup], by rw [hup], ?_, ?_, ?_⟩
    · rw [hup]
      exact hfl.1
    · intro hnew
      rw [hup]
      have hins' : (InsertBlob sch env.insertBlob
          ⟨x.sum, x.written, none, x.finalPath, 0, 0⟩ w.db).1.blobs =
          w.db.blobs ++ [⟨x.sum, x.written, none, x.finalPath, 0, env.insertBlob.now⟩] := by
        rcases InsertBlob_zero_cases sch env.insertBlob
          ⟨x.sum, x.written, none, x.finalPath, 0, 0⟩ w.db rfl with h1 | ⟨_, h1⟩
        · obtain ⟨b1, hb1, hb1h⟩ := InsertBlob_zero_row sch env.insertBlob
            ⟨x.sum, x.written, none, x.finalPath, 0, 0⟩ w.db rfl hins
          rw [h1] at hb1
          exact absurd hb1h (hnew b1 hb1)
        · rw [h1]
      have hmem : (⟨x.sum, x.written, none, x.finalPath, 0, env.insertBlob.now⟩ : Blob) ∈
          (InsertBlob sch env.insertBlob
            ⟨x.sum, x.written, none, x.finalPath, 0, 0⟩ w.db).1.blobs := by
        rw [hins']
        simp
      show ∃ b ∈ (IncBlobRef sch env.incBlobRef x.sum 1 _).1.blobs, _
      unfold IncBlobRef
      rcases hfl.2 with h1 | h1
      · rw [h1]
        exact ⟨_, hmem, rfl, rfl, rfl, rfl⟩
      · rw [h1]
        refine ⟨_, List.mem_map_of_mem _ hmem, ?_⟩
        simp [bump]
    · intro req hu hne hform hfiles hmime hopen hsum
      subst hu
      have hlen : ¬ req.files.length = 0 := by rw [hfiles]; simp
      unfold handleUpload
      rw [if_neg hne]
      rw [hfiles] at hlen
      simp only [hform, Bool.not_true, Bool.false_eq_true, if_false, SumUserStorage, hsum,
        hfiles, hlen, hmime, uploadLoop, hopen, hup]

/-! ## The end-to-end scenario -/

set_option maxRecDepth 100000 in
/-- What `WriteAndHash` does with the stream `hello` when no system call fails. -/
theorem WriteAndHash_hello (storage : Service) (name : String) (fs : FS)
    (ht : fs (tmpPath storage (calm name)) = none) :
    WriteAndHash storage (calm name) helloReader fs =
      (withHello storage fs, .ok ⟨helloSum, storage.RootDir ++ ["2c", "f2", helloSum], 5⟩) := by
  obtain ⟨x, hx⟩ := WriteAndHash_total storage (calm name) helloReader fs rfl rfl ht rfl rfl rfl
  obtain ⟨_, _, hsum, hpath, hw, hfs⟩ :=
    WriteAndHash_ok storage (calm name) helloReader fs _ x (Prod.ext rfl hx)
  have h1 : sumHex helloReader.bytes = helloSum := by decide
  have h2 : goSlice helloSum 0 2 = "2c" := by decide
  have h3 : goSlice helloSum 2 4 = "f2" := by decide
  have h4 : helloReader.bytes = helloBytes := by decide
  have hxe : x = ⟨helloSum, storage.RootDir ++ ["2c", "f2", helloSum], 5⟩ := by
    cases x
    simp only at hsum hpath hw
    rw [h1] at hsum
    subst hsum
    rw [h2, h3] at hpath
    subst hpath
    rw [h4] at hw
    subst hw
    rfl
  rw [hxe, h4] at hfs
  rw [hxe] at hx
  exact Prod.ext hfs hx

theorem withHello_tmp (storage : Service) (name : String) (fs : FS)
    (h : fs (tmpPath storage (calm name)) = none) :
    withHello storage fs (tmpPath storage (calm name)) = none := by
  have hne : tmpPath storage (calm name) ≠ storage.RootDir ++ ["2c", "f2", helloSum] := by
    intro heq
    have := congrArg List.length heq
    simp [tmpPath] at this
  simp only [withHello, hne, if_false]
  exact h

theorem withHello_holds (storage : Service) (fs : FS)
    (h : fs (storage.RootDir ++ ["2c", "f2", helloSum]) = none ∨
      fs (storage.RootDir ++ ["2c", "f2", helloSum]) = some helloBytes) :
    withHello storage fs (storage.RootDir ++ ["2c", "f2", helloSum]) = some helloBytes := by
  simp only [withHello, if_true]
  rcases h with h | h <;> rw [h] <;> rfl

theorem malformed_mime_rejected_first_witness :
    (uploadFile ⟨true, true⟩ dataRoot "u" "" ⟨"a.txt", helloReader, false⟩
      ⟨calm "1", runs, runs, runs⟩ World.empty).2 = none ∧
    (uploadFile ⟨true, true⟩ dataRoot "u" "" ⟨"a.txt", helloReader, false⟩
      ⟨calm "1", runs, runs, runs⟩ World.empty).1.fs = withHello dataRoot FS.empty ∧
    (uploadFile ⟨true, true⟩ dataRoot "u" "" ⟨"a.txt", helloReader, false⟩
      ⟨calm "1", runs, runs, runs⟩ World.empty).1.db.files = World.empty.db.files ++
        [⟨"f1", "u", helloSum, "a.txt", 5, none, false, [], 0⟩] ∧
    ((∀ b0 ∈ World.empty.db.blobs, b0.Hash ≠ helloSum) →
      ∃ b ∈ (uploadFile ⟨true, true⟩ dataRoot "u" "" ⟨"a.txt", helloReader, false⟩
          ⟨calm "1", runs, runs, runs⟩ World.empty).1.db.blobs,
        b.Hash = helloSum ∧ b.MIMEType = none ∧ b.SizeBytes = 5 ∧
        b.StoragePath = dataRoot.RootDir ++ ["2c", "f2", helloSum]) ∧
    (∀ req : UploadRequest, req.userID = "u" → "u" ≠ "" → req.formOk = true →
      req.files = [(⟨"a.txt", helloReader, false⟩, ⟨calm "1", runs, runs, runs⟩)] →
      req.declaredMIME = "" → (⟨"a.txt", helloReader, false⟩ : FileHeader).openFails = false →
      req.sumUserStorage.fails = false →
      (handleUpload ⟨true, true⟩ dataRoot req World.empty).2 = Response.ok) :=
  (malformed_mime_rejected_first ⟨true, true⟩ dataRoot World.empty).2.2.2 "u"
    ⟨"a.txt", helloReader, false⟩ ⟨calm "1", runs, runs, runs⟩ (withHello dataRoot FS.empty)
    ⟨helloSum, dataRoot.RootDir ++ ["2c", "f2", helloSum], 5⟩
    (WriteAndHash_hello dataRoot "1" FS.empty rfl) rfl rfl (by intro f hf; cases hf)

set_option maxRecDepth 100000 in
/-- C14: on the empty store, for every root and schema: uploading `hello` returns the digest
`2cf24dba...9824`, size 5 and the path root/2c/f2/digest; uploading the same bytes again returns
the same digest and path; after the two uploads the blob row has count 2; after deleting one of
the two files the count is 1, the blob row is still there and the file under the digest still
holds `hello`. -/
theorem hello_end_to_end (sch : Schema) (storage : Service) :
    helloSum = "2cf24dba5fb0a30e26e83b2ac5b9e29e1b161e5c1fa7425e73043362938b9824" ∧
    (WriteAndHash storage (calm "1") helloReader FS.empty).2 =
      .ok ⟨helloSum, storage.RootDir ++ ["2c", "f2", helloSum], 5⟩ ∧
    (WriteAndHash storage (calm "1") helloReader
      (WriteAndHash storage (calm "1") helloReader FS.empty).1).2 =
      .ok ⟨helloSum, storage.RootDir ++ ["2c", "f2", helloSum], 5⟩ ∧
    (handleUpload sch storage (helloUpload runs runs runs) World.empty).2 = Response.ok ∧
    (handleUpload sch storage helloAgain
      (run sch storage [Op.upload (helloUpload runs runs runs)])).2 = Response.ok ∧
    (run sch storage [Op.upload (helloUpload runs runs runs), Op.upload helloAgain]).db.blobs =
      [⟨helloSum, 5, none, storage.RootDir ++ ["2c", "f2", helloSum], 2, 0⟩] ∧
    (run sch storage [Op.upload (helloUpload runs runs runs), Op.upload helloAgain,
      Op.delete "u" "f1" ⟨runs, runs, runs⟩]).db =
      ⟨[⟨helloSum, 5, none, storage.RootDir ++ ["2c", "f2", helloSum], 1, 0⟩],
       [⟨"f2", "u", helloSum, "a.txt", 5, none, false, [], 1⟩]⟩ ∧
    (run sch storage [Op.upload (helloUpload runs runs runs), Op.upload helloAgain,
      Op.delete "u" "f1" ⟨runs, runs, runs⟩]).fs (storage.RootDir ++ ["2c", "f2", helloSum]) =
      some helloBytes := by
  have ht0 : FS.empty (tmpPath storage (calm "1")) = none := rfl
  have hw1 := WriteAndHash_hello storage "1" FS.empty ht0
  have ht1 := withHello_tmp storage "1" FS.empty ht0
  have hw2 := WriteAndHash_hello storage "1" (withHello storage FS.empty) ht1
  have hup1 : handleUpload sch storage (helloUpload runs runs runs) World.empty =
      (⟨withHello storage FS.empty,
        ⟨[⟨helloSum, 5, none, storage.RootDir ++ ["2c", "f2", helloSum], 1, 0⟩],
         [⟨"f1", "u", helloSum, "a.txt", 5, none, false, [], 0⟩]⟩⟩, Response.ok) := by
    simp [handleUpload, helloUpload, SumUserStorage, uploadLoop, uploadFile, World.empty,
      DB.empty, hw1, InsertBlob, CreateFile, IncBlobRef, updateRefCount, runs]
  have hup2 : handleUpload sch storage helloAgain
      ⟨withHello storage FS.empty,
        ⟨[⟨helloSum, 5, none, storage.RootDir ++ ["2c", "f2", helloSum], 1, 0⟩],
         [⟨"f1", "u", helloSum, "a.txt", 5, none, false, [], 0⟩]⟩⟩ =
      (⟨withHello storage (withHello storage FS.empty),
        ⟨[⟨helloSum, 5, none, storage.RootDir ++ ["2c", "f2", helloSum], 2, 0⟩],
         [⟨"f1", "u", helloSum, "a.txt", 5, none, false, [], 0⟩,
          ⟨"f2", "u", helloSum, "a.txt", 5, none, false, [], 1⟩]⟩⟩, Response.ok) := by
    simp [handleUpload, helloAgain, helloUpload, SumUserStorage, uploadLoop, uploadFile,
      hw2, InsertBlob, CreateFile, IncBlobRef, updateRefCount, runs]
  have hdel : DeleteFileAndMaybeBlob sch ⟨runs, runs, runs⟩ "u" "f1"
      ⟨[⟨helloSum, 5, none, storage.RootDir ++ ["2c", "f2", helloSum], 2, 0⟩],
       [⟨"f1", "u", helloSum, "a.txt", 5, none, false, [], 0⟩,
        ⟨"f2", "u", helloSum, "a.txt", 5, none, false, [], 1⟩]⟩ =
      (⟨[⟨helloSum, 5, none, storage.RootDir ++ ["2c", "f2", helloSum], 1, 0⟩],
        [⟨"f2", "u", helloSum, "a.txt", 5, none, false, [], 1⟩]⟩, none) := by
    simp [DeleteFileAndMaybeBlob, updateRefCount, runs]
  have hrun1 : run sch storage [Op.upload (helloUpload runs runs runs)] =
      ⟨withHello storage FS.empty,
        ⟨[⟨helloSum, 5, none, storage.RootDir ++ ["2c", "f2", helloSum], 1, 0⟩],
         [⟨"f1", "u", helloSum, "a.txt", 5, none, false, [], 0⟩]⟩⟩ := by
    simp only [run, List.foldl, step, hup1]
  have hrun2 : run sch storage [Op.upload (helloUpload runs runs runs), Op.upload helloAgain] =
      ⟨withHello storage (withHello storage FS.empty),
        ⟨[⟨helloSum, 5, none, storage.RootDir ++ ["2c", "f2", helloSum], 2, 0⟩],
         [⟨"f1", "u", helloSum, "a.txt", 5, none, false, [], 0⟩,
          ⟨"f2", "u", helloSum, "a.txt", 5, none, false, [], 1⟩]⟩⟩ := by
    simp only [run, List.foldl, step, hup1, hup2]
  have hrun3 : run sch storage [Op.upload (helloUpload runs runs runs), Op.upload helloAgain,
      Op.delete "u" "f1" ⟨runs, runs, runs⟩] =
      ⟨withHello storage (withHello storage FS.empty),
        ⟨[⟨helloSum, 5, none, storage.RootDir ++ ["2c", "f2", helloSum], 1, 0⟩],
         [⟨"f2", "u", helloSum, "a.txt", 5, none, false, [], 1⟩]⟩⟩ := by
    simp only [run, List.foldl, step, hup1, hup2, hdel]
  refine ⟨rfl, ?_, ?_, ?_, ?_, ?_, ?_, ?_⟩
  · rw [hw1]
  · rw [hw1, hw2]
  · rw [hup1]
  · rw [hrun1, hup2]
  · rw [hrun2]
  · rw [hrun3]
  · rw [hrun3]
    exact withHello_holds storage _ (Or.inr (withHello_holds storage _ (Or.inl rfl)))

/-! ## The query of `ListFilesFiltered` -/

theorem numberedConds_snoc (tl : List (String × String)) (c : String × String) :
    numberedConds (tl ++ [c]) = numberedConds tl ++ [c.1 ++ "$" ++ itoa (tl.length + 1) ++ c.2] := by
  simp [numberedConds, List.enum, List.enumFrom_append]

theorem Built_push (q : QueryBuild) (wl : List (String × String × SqlArg))
    (before after text : String) (v : SqlArg) (h : Built q wl)
    (htext : text = before ++ "$" ++ itoa q.argn ++ after) :
    Built ⟨q.conds ++ [text], q.args ++ [v], q.argn + 1⟩ (wl ++ [(before, after, v)]) := by
  obtain ⟨h1, h2, h3⟩ := h
  refine ⟨?_, ?_, ?_⟩
  · simp only [condTexts, List.map_append, List.map_cons, List.map_nil]
    rw [numberedConds_snoc, htext, h3]
    simp only [List.length_map]
    rw [h1]
    rfl
  · simp [h2]
  · simp [h3]

theorem Built_withNameLike (filters : FileFilters) (q : QueryBuild)
    (wl : List (String × String × SqlArg)) (h : Built q wl) :
    Built (withNameLike filters q) (wl ++
      (match filters.NameLike with
        | some s => if s = "" then [] else [("filename ILIKE ", "", SqlArg.text ("%" ++ s ++ "%"))]
        | none => [])) := by
  unfold withNameLike
  cases filters.NameLike with
  | none => simpa using h
  | some s =>
    by_cases hs : s = ""
    · simpa [hs] using h
    · simp only [hs, ne_eq, not_false_eq_true, if_true, if_false]
      exact Built_push q wl "filename ILIKE " "" _ _ h (by simp [String.append_assoc])

theorem Built_withMIMETypes (filters : FileFilters) (q : QueryBuild)
    (wl : List (String × String × SqlArg)) (h : Built q wl) :
    Built (withMIMETypes filters q) (wl ++
      (if filters.MIMETypes = [] then []
        else [("mime_type = ANY(", ")", SqlArg.texts filters.MIMETypes)])) := by
  unfold withMIMETypes
  cases hm : filters.MIMETypes with
  | nil => simpa using h
  | cons m ms =>
    simp only [List.length_cons, gt_iff_lt, Nat.zero_lt_succ, if_true, reduceCtorEq, if_false]
    exact Built_push q wl "mime_type = ANY(" ")" _ _ h (by simp [String.append_assoc])

theorem Built_withSizeMin (filters : FileFilters) (q : QueryBuild)
    (wl : List (String × String × SqlArg)) (h : Built q wl) :
    Built (withSizeMin filters q) (wl ++
      (match filters.SizeMin with
        | some v => [("size_bytes >= ", "", SqlArg.int v)]
        | none => [])) := by
  unfold withSizeMin
  cases filters.SizeMin with
  | none => simpa using h
  | some v => exact Built_push q wl "size_bytes >= " "" _ _ h (by simp [String.append_assoc])

theorem Built_withSizeMax (filters : FileFilters) (q : QueryBuild)
    (wl : List (String × String × SqlArg)) (h : Built q wl) :
    Built (withSizeMax filters q) (wl ++
      (match filters.SizeMax with
        | some v => [("size_bytes <= ", "", SqlArg.int v)]
        | none => [])) := by
  unfold withSizeMax
  cases filters.SizeMax with
  | none => simpa using h
  | some v => exact Built_push q wl "size_bytes <= " "" _ _ h (by simp [String.append_assoc])

theorem Built_withDateFrom (filters : FileFilters) (q : QueryBuild)
    (wl : List (String × String × SqlArg)) (h : Built q wl) :
    Built (withDateFrom filters q) (wl ++
      (match filters.DateFrom with
        | some t => [("created_at >= ", "", SqlArg.time t)]
        | none => [])) := by
  unfold withDateFrom
  cases filters.DateFrom with
  | none => simpa using h
  | some v => exact Built_push q wl "created_at >= " "" _ _ h (by simp [String.append_assoc])

theorem Built_withDateTo (filters : FileFilters) (q : QueryBuild)
    (wl : List (String × String × SqlArg)) (h : Built q wl) :
    Built (withDateTo filters q) (wl ++
      (match filters.DateTo with
        | some t => [("created_at <= ", "", SqlArg.time t)]
        | none => [])) := by
  unfold withDateTo
  cases filters.DateTo with
  | none => simpa using h
  | some v => exact Built_push q wl "created_at <= " "" _ _ h (by simp [String.append_assoc])

theorem Built_withTags (filters : FileFilters) (q : QueryBuild)
    (wl : List (String × String × SqlArg)) (h : Built q wl) :
    Built (withTags filters q) (wl ++
      (if filters.Tags = [] then [] else [("tags && ", "", SqlArg.texts filters.Tags)])) := by
  unfold withTags
  cases hm : filters.Tags with
  | nil => simpa using h
  | cons m ms =>
    simp only [List.length_cons, gt_iff_lt, Nat.zero_lt_succ, if_true, reduceCtorEq, if_false]
    exact Built_push q wl "tags && " "" _ _ h (by simp [String.append_assoc])

/-- The state after the seven blocks holds exactly the wanted conditions. -/
theorem Built_all (ownerID : String) (filters : FileFilters) :
    Built (withTags filters (withDateTo filters (withDateFrom filters (withSizeMax filters
      (withSizeMin filters (withMIMETypes filters (withNameLike filters
        ⟨["owner_id = $1"], [SqlArg.text ownerID], 2⟩)))))))
      (wantedConditions ownerID filters) := by
  have h0 : Built ⟨["owner_id = $1"], [SqlArg.text ownerID], 2⟩
      [("owner_id = ", "", SqlArg.text ownerID)] := by
    refine ⟨?_, rfl, rfl⟩
    show ["owner_id = $1"] = numberedConds [("owner_id = ", "")]
    decide
  exact Built_withTags filters _ _ (Built_withDateTo filters _ _ (Built_withDateFrom filters _ _
    (Built_withSizeMax filters _ _ (Built_withSizeMin filters _ _
      (Built_withMIMETypes filters _ _ (Built_withNameLike filters _ _ h0))))))

/-- The texts of the wanted conditions depend on which filters are set only. -/
theorem condTexts_wanted (ownerID : String) (filters : FileFilters) :
    condTexts (wantedConditions ownerID filters) =
      flaggedTexts (filters.NameLike.getD "" != "") (!filters.MIMETypes.isEmpty)
        filters.SizeMin.isSome filters.SizeMax.isSome filters.DateFrom.isSome
        filters.DateTo.isSome (!filters.Tags.isEmpty) := by
  obtain ⟨nl, mt, smin, smax, df, dt, tags⟩ := filters
  have h1 : condTexts (match nl with
      | some s => if s = "" then [] else [("filename ILIKE ", "", SqlArg.text ("%" ++ s ++ "%"))]
      | none => []) = if (nl.getD "" != "") then [("filename ILIKE ", "")] else [] := by
    cases nl with
    | none => rfl
    | some s =>
      by_cases hs : s = ""
      · simp [hs, condTexts]
      · simp [hs, condTexts]
  have h2 : ∀ l : List String, condTexts (if l = [] then []
      else [("mime_type = ANY(", ")", SqlArg.texts l)]) =
      if (!l.isEmpty) then [("mime_type = ANY(", ")")] else [] := by
    intro l; cases l <;> simp [condTexts]
  have h3 : condTexts (match smin with
      | some v => [("size_bytes >= ", "", SqlArg.int v)]
      | none => []) = if smin.isSome then [("size_bytes >= ", "")] else [] := by
    cases smin <;> simp [condTexts]
  have h4 : condTexts (match smax with
      | some v => [("size_bytes <= ", "", SqlArg.int v)]
      | none => []) = if smax.isSome then [("size_bytes <= ", "")] else [] := by
    cases smax <;> simp [condTexts]
  have h5 : condTexts (match df with
      | some t => [("created_at >= ", "", SqlArg.time t)]
      | none => []) = if df.isSome then [("created_at >= ", "")] else [] := by
    cases df <;> simp [condTexts]
  have h6 : condTexts (match dt with
      | some t => [("created_at <= ", "", SqlArg.time t)]
      | none => []) = if dt.isSome then [("created_at <= ", "")] else [] := by
    cases dt <;> simp [condTexts]
  have h7 : ∀ l : List String, condTexts (if l = [] then []
      else [("tags && ", "", SqlArg.texts l)]) =
      if (!l.isEmpty) then [("tags && ", "")] else [] := by
    intro l; cases l <;> simp [condTexts]
  have happ : ∀ a b : List (String × String × SqlArg),
      condTexts (a ++ b) = condTexts a ++ condTexts b := by
    intro a b; simp [condTexts]
  simp only [wantedConditions, flaggedTexts, happ, h1, h2, h3, h4, h5, h6, h7]
  rfl

set_option maxRecDepth 100000 in
set_option maxHeartbeats 4000000 in
/-- Whatever filters are set, the numbered query has the placeholders `$1 .. $n` in order. -/
theorem placeholders_flagged (b1 b2 b3 b4 b5 b6 b7 : Bool) :
    placeholders (numberedQuery (flaggedTexts b1 b2 b3 b4 b5 b6 b7)) =
      List.range' 1 ((flaggedTexts b1 b2 b3 b4 b5 b6 b7).length + 2) := by
  cases b1 <;> cases b2 <;> cases b3 <;> cases b4 <;> cases b5 <;> cases b6 <;> cases b7 <;> decide

/-- C16: for every combination of filters, the query text `ListFilesFiltered` builds is the
text whose i-th condition carries the placeholder `$i` (the owner first) with LIMIT on `$n-1`
and OFFSET on `$n`; its placeholders are `$1 .. $n`, each once and in increasing order, `n`
being the number of arguments; the i-th argument is the value of the i-th condition, followed
by limit and offset; and a `NameLike` that is nil or empty adds neither a condition nor an
argument. -/
theorem placeholders_match_arguments (ownerID : String) (filters : FileFilters)
    (limit offset : Int) :
    (ListFilesFiltered ownerID filters limit offset).1 =
      numberedQuery (condTexts (wantedConditions ownerID filters)) ∧
    (ListFilesFiltered ownerID filters limit offset).2 =
      (wantedConditions ownerID filters).map (fun c => c.2.2) ++
        [SqlArg.int limit, SqlArg.int offset] ∧
    (ListFilesFiltered ownerID filters limit offset).2.length =
      (wantedConditions ownerID filters).length + 2 ∧
    placeholders (ListFilesFiltered ownerID filters limit offset).1 =
      List.range' 1 (ListFilesFiltered ownerID filters limit offset).2.length ∧
    ((filters.NameLike = none ∨ filters.NameLike = some "") →
      ListFilesFiltered ownerID filters limit offset =
        ListFilesFiltered ownerID { filters with NameLike := none } limit offset) := by
  obtain ⟨h1, h2, h3⟩ := Built_all ownerID filters
  have hq : (ListFilesFiltered ownerID filters limit offset).1 =
      numberedQuery (condTexts (wantedConditions ownerID filters)) := by
    simp only [ListFilesFiltered, numberedQuery, h1, h3, condTexts, List.length_map]
  have ha : (ListFilesFiltered ownerID filters limit offset).2 =
      (wantedConditions ownerID filters).map (fun c => c.2.2) ++
        [SqlArg.int limit, SqlArg.int offset] := by
    simp only [ListFilesFiltered, h2]
  have hl : (ListFilesFiltered ownerID filters limit offset).2.length =
      (wantedConditions ownerID filters).length + 2 := by
    rw [ha]; simp
  refine ⟨hq, ha, hl, ?_, ?_⟩
  · rw [hq, hl, condTexts_wanted, placeholders_flagged, ← condTexts_wanted ownerID filters]
    simp [condTexts]
  · intro hn
    obtain ⟨nl, mt, smin, smax, df, dt, tags⟩ := filters
    simp only at hn
    rcases hn with hn | hn
    · subst hn; rfl
    · subst hn
      simp [ListFilesFiltered, withNameLike, withMIMETypes, withSizeMin, withSizeMax,
        withDateFrom, withDateTo, withTags]

/-! ## The rate limiter -/

/-- `Allow` decides on `cappedTokens`. -/
theorem Allow_eq (l : Limiter) (now : ℚ) (key : String) :
    l.Allow now key =
      if 1 ≤ cappedTokens l now key then
        (⟨l.rps, fun k => if k = key then some ⟨cappedTokens l now key - 1, now⟩
          else l.buckets k⟩, true)
      else
        (⟨l.rps, fun k => if k = key then some ⟨cappedTokens l now key, now⟩
          else l.buckets k⟩, false) := by
  have hcap : ∀ a r : ℚ, (if a > r then r else a) = min a r := by
    intro a r
    by_cases h : a ≤ r
    · rw [min_eq_left h, if_neg (not_lt.mpr h)]
    · rw [min_eq_right (le_of_lt (not_le.mp h)), if_pos (not_le.mp h)]
  unfold Limiter.Allow cappedTokens
  cases hb : l.buckets key with
  | none => simp only [Option.getD_none, hcap, ge_iff_le]
  | some b => simp only [Option.getD_some, hcap, ge_iff_le]

/-- One call of `Allow`, spelled out. -/
theorem Allow_step (l : Limiter) (now : ℚ) (key : String) :
    ((l.Allow now key).2 = true ↔ 1 ≤ cappedTokens l now key) ∧
    (l.Allow now key).1.buckets key =
      some ⟨if 1 ≤ cappedTokens l now key then cappedTokens l now key - 1
        else cappedTokens l now key, now⟩ ∧
    (∀ k, k ≠ key → (l.Allow now key).1.buckets k = l.buckets k) ∧
    (l.Allow now key).1.rps = l.rps := by
  rw [Allow_eq]
  by_cases h : 1 ≤ cappedTokens l now key
  · rw [if_pos h]
    exact ⟨by simp [h], by simp [h], fun k hk => by simp [hk], rfl⟩
  · rw [if_neg h]
    exact ⟨by simp [h], by simp [h], fun k hk => by simp [hk], rfl⟩

/-- A state whose buckets hold between 0 and `rps` tokens and were stamped no later than `t`
stays so through calls at non-decreasing times from `t` on. -/
theorem allowAll_bounded (calls : List (ℚ × String)) :
    ∀ (l : Limiter) (t : ℚ), 1 ≤ l.rps →
      (∀ k b, l.buckets k = some b → 0 ≤ b.tokens ∧ b.tokens ≤ l.rps ∧ b.last ≤ t) →
      (∀ c ∈ calls, t ≤ c.1) → calls.Pairwise (fun a b => a.1 ≤ b.1) →
      (allowAll l calls).rps = l.rps ∧
      ∀ k b, (allowAll l calls).buckets k = some b → 0 ≤ b.tokens ∧ b.tokens ≤ l.rps := by
  induction calls with
  | nil =>
    intro l t _ hb _ _
    exact ⟨rfl, fun k b h => ⟨(hb k b h).1, (hb k b h).2.1⟩⟩
  | cons c rest ih =>
    intro l t hrps hb hfrom hsorted
    obtain ⟨now, key⟩ := c
    rw [List.pairwise_cons] at hsorted
    obtain ⟨hnext, hrest⟩ := hsorted
    have hnow : t ≤ now := hfrom (now, key) (List.mem_cons_self _ _)
    obtain ⟨_, hkey, hother, hr⟩ := Allow_step l now key
    have hcap_le : cappedTokens l now key ≤ l.rps := min_le_right _ _
    have hcap_nonneg : 0 ≤ cappedTokens l now key := by
      unfold cappedTokens
      apply le_min _ (le_trans zero_le_one hrps)
      cases hk : l.buckets key with
      | none => simp
      | some b0 =>
        obtain ⟨h0, _, hl⟩ := hb key b0 hk
        simp only [Option.getD_some]
        have : 0 ≤ (now - b0.last) * l.rps :=
          mul_nonneg (by linarith) (le_trans zero_le_one hrps)
        linarith
    have hstep : ∀ k b, (l.Allow now key).1.buckets k = some b →
        0 ≤ b.tokens ∧ b.tokens ≤ (l.Allow now key).1.rps ∧ b.last ≤ now := by
      intro k b hkb
      rw [hr]
      by_cases hk : k = key
      · subst hk
        rw [hkey] at hkb
        simp only [Option.some.injEq] at hkb
        subst hkb
        simp only
        refine ⟨?_, ?_, le_refl _⟩
        · split
          · linarith
          · exact hcap_nonneg
        · split
          · linarith
          · exact hcap_le
      · rw [hother k hk] at hkb
        obtain ⟨h0, h1, hl⟩ := hb k b hkb
        exact ⟨h0, h1, le_trans hl hnow⟩
    have := ih (l.Allow now key).1 now (by rw [hr]; exact hrps) hstep
      (fun c hc => hnext c hc) hrest
    rw [hr] at this
    exact this

/-- C18: with exact arithmetic, for a limiter of rate `rps ≥ 1` and calls of `Allow` at
non-decreasing times, after each call every bucket holds between 0 and `rps` tokens; a call
returns true exactly when the refilled count capped at `rps` is at least 1, in which case the
bucket of the key keeps that count less one and otherwise that count; the bucket is stamped
with the time of the call, and the buckets of the other keys are unchanged. -/
theorem token_bucket_invariant (rps : Int) (hrps : 1 ≤ rps) :
    (∀ (calls : List (ℚ × String)) (n : Nat), calls.Pairwise (fun a b => a.1 ≤ b.1) →
      ∀ key b, (allowAll (NewLimiter rps) (calls.take n)).buckets key = some b →
        0 ≤ b.tokens ∧ b.tokens ≤ (rps : ℚ)) ∧
    (∀ (calls : List (ℚ × String)) (now : ℚ) (key : String),
      ((allowAll (NewLimiter rps) calls).Allow now key).2 = true ↔
        1 ≤ cappedTokens (allowAll (NewLimiter rps) calls) now key) ∧
    (∀ (calls : List (ℚ × String)) (now : ℚ) (key : String),
      ((allowAll (NewLimiter rps) calls).Allow now key).1.buckets key =
        some ⟨if 1 ≤ cappedTokens (allowAll (NewLimiter rps) calls) now key
          then cappedTokens (allowAll (NewLimiter rps) calls) now key - 1
          else cappedTokens (allowAll (NewLimiter rps) calls) now key, now⟩ ∧
      ∀ k, k ≠ key → ((allowAll (NewLimiter rps) calls).Allow now key).1.buckets k =
        (allowAll (NewLimiter rps) calls).buckets k) := by
  have hq : (1 : ℚ) ≤ (NewLimiter rps).rps := by
    show (1 : ℚ) ≤ (rps : ℚ)
    exact_mod_cast hrps
  refine ⟨?_, ?_, ?_⟩
  · intro calls n hsorted key b hkb
    cases hc : calls.take n with
    | nil =>
      rw [hc] at hkb
      simp [allowAll, NewLimiter] at hkb
    | cons c rest =>
      have hs : (calls.take n).Pairwise (fun a b => a.1 ≤ b.1) :=
        hsorted.sublist (List.take_sublist n calls)
      rw [hc] at hs hkb
      have hfrom : ∀ d ∈ c :: rest, c.1 ≤ d.1 := by
        intro d hd
        rcases List.mem_cons.mp hd with h | h
        · rw [h]
        · exact (List.pairwise_cons.mp hs).1 d h
      exact (allowAll_bounded (c :: rest) (NewLimiter rps) c.1 hq
        (by intro k b0 h0; simp [NewLimiter] at h0) hfrom hs).2 key b hkb
  · intro calls now key
    exact (Allow_step _ now key).1
  · intro calls now key
    exact ⟨(Allow_step _ now key).2.1, (Allow_step _ now key).2.2.1⟩

theorem token_bucket_invariant_witness :
    (∀ (calls : List (ℚ × String)) (n : Nat), calls.Pairwise (fun a b => a.1 ≤ b.1) →
      ∀ key b, (allowAll (NewLimiter 2) (calls.take n)).buckets key = some b →
        0 ≤ b.tokens ∧ b.tokens ≤ ((2 : Int) : ℚ)) ∧
    (∀ (calls : List (ℚ × String)) (now : ℚ) (key : String),
      ((allowAll (NewLimiter 2) calls).Allow now key).2 = true ↔
        1 ≤ cappedTokens (allowAll (NewLimiter 2) calls) now key) ∧
    (∀ (calls : List (ℚ × String)) (now : ℚ) (key : String),
      ((allowAll (NewLimiter 2) calls).Allow now key).1.buckets key =
        some ⟨if 1 ≤ cappedTokens (allowAll (NewLimiter 2) calls) now key
          then cappedTokens (allowAll (NewLimiter 2) calls) now key - 1
          else cappedTokens (allowAll (NewLimiter 2) calls) now key, now⟩ ∧
      ∀ k, k ≠ key → ((allowAll (NewLimiter 2) calls).Allow now key).1.buckets k =
        (allowAll (NewLimiter 2) calls).buckets k) :=
  token_bucket_invariant 2 (by decide)

/-! ## Uploads in flight at the same time: every interleaving -/

theorem countPc_update (p : Nat → Bool) (pc : Nat → Nat) (i v : Nat) :
    ∀ n, countPc p (Function.update pc i v) n + (if i < n ∧ p (pc i) then 1 else 0) =
      countPc p pc n + (if i < n ∧ p v then 1 else 0) := by
  intro n
  induction n with
  | zero => simp [countPc]
  | succ n ih =>
    simp only [countPc]
    by_cases hin : n = i
    · subst hin
      have h1 : ¬ n < n := lt_irrefl n
      simp only [h1, false_and, if_false, Nat.add_zero] at ih
      simp only [Function.update_same, Nat.lt_succ_self, true_and]
      omega
    · have hne : Function.update pc i v n = pc n := Function.update_noteq hin v pc
      rw [hne]
      have hlt : i < n + 1 ↔ i < n := by omega
      simp only [hlt]
      omega

theorem countPc_le (p : Nat → Bool) (pc : Nat → Nat) : ∀ n, countPc p pc n ≤ n := by
  intro n
  induction n with
  | zero => simp [countPc]
  | succ n ih => simp only [countPc]; split <;> omega

theorem countPc_all (p : Nat → Bool) (pc : Nat → Nat) :
    ∀ n, (∀ j < n, p (pc j) = true) → countPc p pc n = n := by
  intro n
  induction n with
  | zero => intro _; rfl
  | succ n ih =>
    intro h
    simp only [countPc, h n (Nat.lt_succ_self n), if_true]
    rw [ih (fun j hj => h j (Nat.lt_succ_of_lt hj))]

theorem countPc_none (p : Nat → Bool) (pc : Nat → Nat) :
    ∀ n, (∀ j < n, p (pc j) = false) → countPc p pc n = 0 := by
  intro n
  induction n with
  | zero => intro _; rfl
  | succ n ih =>
    intro h
    simp only [countPc, h n (Nat.lt_succ_self n), Bool.false_eq_true, if_false]
    rw [ih (fun j hj => h j (Nat.lt_succ_of_lt hj))]

theorem countPc_update_same (p : Nat → Bool) (pc : Nat → Nat) (i v n : Nat)
    (h : p (pc i) = p v) : countPc p (Function.update pc i v) n = countPc p pc n := by
  have := countPc_update p pc i v n
  rw [h] at this
  omega

theorem countPc_update_gain (p : Nat → Bool) (pc : Nat → Nat) (i v n : Nat) (hi : i < n)
    (h0 : p (pc i) = false) (h1 : p v = true) :
    countPc p (Function.update pc i v) n = countPc p pc n + 1 := by
  have := countPc_update p pc i v n
  simp only [h0, h1, hi, true_and, Bool.false_eq_true, if_false, if_true, Nat.add_zero] at this
  exact this

theorem Flights.tmp_ne_final (storage : Service) (fl : Flights) (j : Nat) :
    fl.tmp storage j ≠ fl.finalPath storage := by
  intro h
  have := congrArg List.length h
  simp [Flights.tmp, Flights.finalPath] at this

theorem Flights.tmp_inj (storage : Service) (fl : Flights) (i j : Nat)
    (h : fl.tmp storage i = fl.tmp storage j) : fl.tmpName i = fl.tmpName j := by
  simp only [Flights.tmp, List.append_cancel_left_eq, List.cons.injEq, and_true] at h
  have hd := congrArg String.data h
  simp only [String.data_append, List.append_cancel_left_eq] at hd
  exact String.ext hd

/-- A call that touches neither the ledger nor any file but the temporary file of upload `i`,
and moves `i` from `k` to `k + 1` calls below the rename, keeps the invariant. -/
theorem FlightInv_tmp_step (storage : Service) (fl : Flights) (st : Flight) (i k : Nat)
    (c : Option (List Byte)) (e : Bool) (fs' : FS)
    (hnames : ∀ a b, a < fl.n → b < fl.n → fl.tmpName a = fl.tmpName b → a = b)
    (hinv : FlightInv storage fl st) (hi : i < fl.n) (hk : st.pc i = k) (hk3 : k + 1 ≤ 4)
    (hfs : ∀ q, fs' q = if q = fl.tmp storage i then c else st.fs q)
    (hc : c = tmpContent fl.content (k + 1) e)
    (hseen : k + 1 = 4 → e = true → st.fs (fl.finalPath storage) = some fl.content) :
    FlightInv storage fl
      ⟨fs', st.db, Function.update st.pc i (k + 1), Function.update st.existed i e⟩ := by
  have hfin : fs' (fl.finalPath storage) = st.fs (fl.finalPath storage) := by
    rw [hfs, if_neg (Ne.symm (Flights.tmp_ne_final storage fl i))]
  have hp9 : countPc (fun k => k == 9) (Function.update st.pc i (k + 1)) fl.n =
      countPc (fun k => k == 9) st.pc fl.n := by
    apply countPc_update_same
    rw [hk]
    have h1 : (k == 9) = false := by simp; omega
    have h2 : (k + 1 == 9) = false := by simp; omega
    simp only [h1, h2]
  have hp8 : countPc (fun k => decide (8 ≤ k)) (Function.update st.pc i (k + 1)) fl.n =
      countPc (fun k => decide (8 ≤ k)) st.pc fl.n := by
    apply countPc_update_same
    rw [hk]
    have h1 : decide (8 ≤ k) = false := by simp; omega
    have h2 : decide (8 ≤ k + 1) = false := by simp; omega
    simp only [h1, h2]
  refine ⟨?_, ?_, ?_, ?_, ?_, ?_, ?_, ?_, ?_⟩
  all_goals dsimp only
  · intro j hj
    by_cases hji : j = i
    · subst hji; simp only [Function.update_same]; omega
    · simp only [Function.update_noteq hji]; exact hinv.pc_le j hj
  · intro p hp hpt
    rw [hfs, if_neg (hpt i hi)]
    exact hinv.fs_other p hp hpt
  · rw [hfin]; exact hinv.fs_final
  · intro j hj
    by_cases hji : j = i
    · subst hji
      simp only [Function.update_same, hfs, if_true]
      exact hc
    · have hne : fl.tmp storage j ≠ fl.tmp storage i := fun h =>
        hji (hnames j i hj hi (Flights.tmp_inj storage fl j i h))
      simp only [Function.update_noteq hji, hfs, if_neg hne]
      exact hinv.fs_tmp j hj
  · intro j hj hpc hex
    rw [hfin]
    by_cases hji : j = i
    · subst hji
      simp only [Function.update_same] at hpc hex
      exact hseen hpc hex
    · simp only [Function.update_noteq hji] at hpc hex
      exact hinv.seen j hj hpc hex
  · intro j hj hpc
    rw [hfin]
    by_cases hji : j = i
    · subst hji
      simp only [Function.update_same] at hpc
      omega
    · simp only [Function.update_noteq hji] at hpc
      exact hinv.stored j hj hpc
  · rcases hinv.blobs with ⟨hb, hall⟩ | ⟨m, t, hb⟩
    · refine Or.inl ⟨hb, ?_⟩
      intro j hj
      by_cases hji : j = i
      · subst hji; simp only [Function.update_same]; omega
      · simp only [Function.update_noteq hji]; exact hall j hj
    · exact Or.inr ⟨m, t, by simp only [hp9]; exact hb⟩
  · simp only [hp8]; exact hinv.files_len
  · intro f hf
    obtain ⟨j, hj, hpc, hid⟩ := hinv.files_ids f hf
    refine ⟨j, hj, ?_, hid⟩
    by_cases hji : j = i
    · subst hji; rw [hk] at hpc; omega
    · simp only [Function.update_noteq hji]; exact hpc

/-- The rename-or-skip call of upload `i` keeps the invariant. -/
theorem FlightInv_rename (storage : Service) (fl : Flights) (st : Flight) (i : Nat) (fs' : FS)
    (hnames : ∀ a b, a < fl.n → b < fl.n → fl.tmpName a = fl.tmpName b → a = b)
    (hinv : FlightInv storage fl st) (hi : i < fl.n) (hk : st.pc i = 4)
    (hfs : fs' = if st.existed i then st.fs
      else (st.fs.remove (fl.tmp storage i)).write (fl.finalPath storage)
        ((st.fs (fl.tmp storage i)).getD [])) :
    FlightInv storage fl ⟨fs', st.db, Function.update st.pc i 5, st.existed⟩ := by
  have htmp : st.fs (fl.tmp storage i) = some fl.content := by
    rw [hinv.fs_tmp i hi, hk]; rfl
  have hne := Flights.tmp_ne_final storage fl i
  have hfin : fs' (fl.finalPath storage) = some fl.content ∨
      fs' (fl.finalPath storage) = st.fs (fl.finalPath storage) := by
    rw [hfs]
    cases st.existed i with
    | true => exact Or.inr rfl
    | false => exact Or.inl (by simp [FS.write, htmp])
  have hkeep : st.fs (fl.finalPath storage) = some fl.content →
      fs' (fl.finalPath storage) = some fl.content := by
    intro h
    rcases hfin with h1 | h1
    · exact h1
    · rw [h1]; exact h
  have hoth : ∀ q, q ≠ fl.finalPath storage → q ≠ fl.tmp storage i → fs' q = st.fs q := by
    intro q hq1 hq2
    rw [hfs]
    cases st.existed i with
    | true => rfl
    | false => simp [FS.write, FS.remove, hq1, hq2]
  have hp9 : countPc (fun k => k == 9) (Function.update st.pc i 5) fl.n =
      countPc (fun k => k == 9) st.pc fl.n := by
    apply countPc_update_same; rw [hk]; rfl
  have hp8 : countPc (fun k => decide (8 ≤ k)) (Function.update st.pc i 5) fl.n =
      countPc (fun k => decide (8 ≤ k)) st.pc fl.n := by
    apply countPc_update_same; rw [hk]; rfl
  refine ⟨?_, ?_, ?_, ?_, ?_, ?_, ?_, ?_, ?_⟩
  all_goals dsimp only
  · intro j hj
    by_cases hji : j = i
    · subst hji; simp only [Function.update_same]; omega
    · simp only [Function.update_noteq hji]; exact hinv.pc_le j hj
  · intro p hp hpt
    rw [hoth p hp (hpt i hi)]
    exact hinv.fs_other p hp hpt
  · rcases hfin with h | h
    · exact Or.inr h
    · rw [h]; exact hinv.fs_final
  · intro j hj
    by_cases hji : j = i
    · subst hji
      simp only [Function.update_same, hfs]
      cases hex : st.existed j with
      | true => simp [tmpContent, htmp]
      | false => simp [tmpContent, FS.write, FS.remove, hne]
    · have hne2 : fl.tmp storage j ≠ fl.tmp storage i := fun h =>
        hji (hnames j i hj hi (Flights.tmp_inj storage fl j i h))
      simp only [Function.update_noteq hji]
      rw [hoth _ (Flights.tmp_ne_final storage fl j) hne2]
      exact hinv.fs_tmp j hj
  · intro j hj hpc hex
    by_cases hji : j = i
    · subst hji
      simp only [Function.update_same] at hpc
      omega
    · simp only [Function.update_noteq hji] at hpc
      exact hkeep (hinv.seen j hj hpc hex)
  · intro j hj hpc
    by_cases hji : j = i
    · subst hji
      rw [hfs]
      cases hex : st.existed j with
      | true => simp only [if_true]; exact hinv.seen j hj hk hex
      | false => simp [FS.write, htmp]
    · simp only [Function.update_noteq hji] at hpc
      exact hkeep (hinv.stored j hj hpc)
  · rcases hinv.blobs with ⟨hb, hall⟩ | ⟨m, t, hb⟩
    · refine Or.inl ⟨hb, ?_⟩
      intro j hj
      by_cases hji : j = i
      · subst hji; simp only [Function.update_same]; omega
      · simp only [Function.update_noteq hji]; exact hall j hj
    · exact Or.inr ⟨m, t, by simp only [hp9]; exact hb⟩
  · simp only [hp8]; exact hinv.files_len
  · intro f hf
    obtain ⟨j, hj, hpc, hid⟩ := hinv.files_ids f hf
    refine ⟨j, hj, ?_, hid⟩
    by_cases hji : j = i
    · subst hji; rw [hk] at hpc; omega
    · simp only [Function.update_noteq hji]; exact hpc

/-- A call of upload `i` from the deferred remove on, which leaves every file but the
temporary file of `i` alone, keeps the file-system part of the invariant; the ledger part is
given. -/
theorem FlightInv_late_step (storage : Service) (fl : Flights) (st : Flight) (i k : Nat)
    (fs' : FS) (db' : DB)
    (hnames : ∀ a b, a < fl.n → b < fl.n → fl.tmpName a = fl.tmpName b → a = b)
    (hinv : FlightInv storage fl st) (hi : i < fl.n) (hk : st.pc i = k) (hk5 : 5 ≤ k)
    (hk8 : k ≤ 8)
    (hoth : ∀ q, q ≠ fl.tmp storage i → fs' q = st.fs q)
    (hgone : fs' (fl.tmp storage i) = none)
    (hblobs : (db'.blobs = [] ∧ ∀ j < fl.n, Function.update st.pc i (k + 1) j ≤ 6) ∨
      ∃ m t, db'.blobs = [⟨sumHex fl.content, fl.content.length, m, fl.finalPath storage,
        countPc (fun k => k == 9) (Function.update st.pc i (k + 1)) fl.n, t⟩])
    (hlen : db'.files.length =
      countPc (fun k => decide (8 ≤ k)) (Function.update st.pc i (k + 1)) fl.n)
    (hids : ∀ f ∈ db'.files, ∃ j < fl.n, 8 ≤ Function.update st.pc i (k + 1) j ∧
      f.ID = fl.fileID j) :
    FlightInv storage fl ⟨fs', db', Function.update st.pc i (k + 1), st.existed⟩ := by
  have hne := Flights.tmp_ne_final storage fl i
  have hfin : fs' (fl.finalPath storage) = st.fs (fl.finalPath storage) :=
    hoth _ (Ne.symm hne)
  refine ⟨?_, ?_, ?_, ?_, ?_, ?_, hblobs, hlen, hids⟩
  all_goals dsimp only
  · intro j hj
    by_cases hji : j = i
    · subst hji; simp only [Function.update_same]; omega
    · simp only [Function.update_noteq hji]; exact hinv.pc_le j hj
  · intro p hp hpt
    rw [hoth p (hpt i hi)]
    exact hinv.fs_other p hp hpt
  · rw [hfin]; exact hinv.fs_final
  · intro j hj
    by_cases hji : j = i
    · subst hji
      simp only [Function.update_same, hgone]
      have h6 : 6 ≤ st.pc j + 1 := by omega
      generalize st.pc j + 1 = v at h6
      unfold tmpContent
      split <;> first | rfl | omega
    · have hne2 : fl.tmp storage j ≠ fl.tmp storage i := fun h =>
        hji (hnames j i hj hi (Flights.tmp_inj storage fl j i h))
      simp only [Function.update_noteq hji]
      rw [hoth _ hne2]
      exact hinv.fs_tmp j hj
  · intro j hj hpc hex
    rw [hfin]
    by_cases hji : j = i
    · subst hji
      simp only [Function.update_same] at hpc
      omega
    · simp only [Function.update_noteq hji] at hpc
      exact hinv.seen j hj hpc hex
  · intro j hj hpc
    rw [hfin]
    by_cases hji : j = i
    · subst hji
      exact hinv.stored j hj (by omega)
    · simp only [Function.update_noteq hji] at hpc
      exact hinv.stored j hj hpc

/-- Every call of an upload keeps the invariant. -/
theorem FlightInv_advance (sch : Schema) (storage : Service) (fl : Flights) (st : Flight)
    (i : Nat)
    (hnames : ∀ a b, a < fl.n → b < fl.n → fl.tmpName a = fl.tmpName b → a = b)
    (hids : ∀ a b, a < fl.n → b < fl.n → fl.fileID a = fl.fileID b → a = b)
    (hinv : FlightInv storage fl st) : FlightInv storage fl (advance sch storage fl i st) := by
  unfold advance
  by_cases hi : i < fl.n
  swap
  · rw [if_neg hi]; exact hinv
  rw [if_pos hi]
  have h9 := hinv.pc_le i hi
  have htmp := hinv.fs_tmp i hi
  have hex_self : Function.update st.existed i (st.existed i) = st.existed :=
    Function.update_eq_self i st.existed
  generalize hk : st.pc i = k at h9 htmp
  interval_cases k
  · -- os.CreateTemp
    simp only [tmpContent] at htmp
    simp only [htmp, Option.isSome_none, Bool.false_eq_true, if_false]
    have := FlightInv_tmp_step storage fl st i 0 (some []) (st.existed i)
      (st.fs.write (fl.tmp storage i) []) hnames hinv hi hk (by omega)
      (fun q => rfl) rfl (by omega)
    rw [hex_self] at this
    exact this
  · -- io.Copy
    have := FlightInv_tmp_step storage fl st i 1 (some fl.content) (st.existed i)
      (st.fs.write (fl.tmp storage i) fl.content) hnames hinv hi hk (by omega)
      (fun q => rfl) rfl (by omega)
    rw [hex_self] at this
    exact this
  · -- os.MkdirAll
    have := FlightInv_tmp_step storage fl st i 2 (some fl.content) (st.existed i)
      st.fs hnames hinv hi hk (by omega)
      (fun q => by
        by_cases hq : q = fl.tmp storage i
        · rw [if_pos hq, hq, htmp]; rfl
        · rw [if_neg hq]) rfl (by omega)
    rw [hex_self] at this
    exact this
  · -- os.Stat
    exact FlightInv_tmp_step storage fl st i 3 (some fl.content)
      (st.fs (fl.finalPath storage)).isSome
      st.fs hnames hinv hi hk (by omega)
      (fun q => by
        by_cases hq : q = fl.tmp storage i
        · rw [if_pos hq, hq, htmp]; rfl
        · rw [if_neg hq]) rfl
      (fun _ hsome => by
        rcases hinv.fs_final with h | h
        · rw [h] at hsome; cases hsome
        · exact h)
  · -- os.Rename, unless the path existed
    have := FlightInv_rename storage fl st i _ hnames hinv hi hk rfl
    cases hex : st.existed i with
    | true => simpa [hex] using this
    | false => simpa [hex] using this
  · -- the deferred os.Remove
    exact FlightInv_late_step storage fl st i 5 (st.fs.remove (fl.tmp storage i)) st.db
      hnames hinv hi hk (by omega) (by omega)
      (fun q hq => by simp [FS.remove, hq]) (by simp [FS.remove])
      (by
        have hp9 : countPc (fun k => k == 9) (Function.update st.pc i 6) fl.n =
            countPc (fun k => k == 9) st.pc fl.n := by
          apply countPc_update_same; rw [hk]; rfl
        rcases hinv.blobs with ⟨hb, hall⟩ | ⟨m, t, hb⟩
        · refine Or.inl ⟨hb, ?_⟩
          intro j hj
          by_cases hji : j = i
          · subst hji; simp only [Function.update_same]; omega
          · simp only [Function.update_noteq hji]; exact hall j hj
        · exact Or.inr ⟨m, t, by simp only [hp9]; exact hb⟩)
      (by
        have hp8 : countPc (fun k => decide (8 ≤ k)) (Function.update st.pc i 6) fl.n =
            countPc (fun k => decide (8 ≤ k)) st.pc fl.n := by
          apply countPc_update_same; rw [hk]; rfl
        simp only [hp8]; exact hinv.files_len)
      (by
        intro f hf
        obtain ⟨j, hj, hpc, hid⟩ := hinv.files_ids f hf
        refine ⟨j, hj, ?_, hid⟩
        by_cases hji : j = i
        · subst hji; rw [hk] at hpc; omega
        · simp only [Function.update_noteq hji]; exact hpc)
  · -- InsertBlob
    have hp9 : countPc (fun k => k == 9) (Function.update st.pc i 7) fl.n =
        countPc (fun k => k == 9) st.pc fl.n := by
      apply countPc_update_same; rw [hk]; rfl
    have hp8 : countPc (fun k => decide (8 ≤ k)) (Function.update st.pc i 7) fl.n =
        countPc (fun k => decide (8 ≤ k)) st.pc fl.n := by
      apply countPc_update_same; rw [hk]; rfl
    have hrow := InsertBlob_zero_row sch ⟨false, fl.now i, fl.fileID i⟩
      ⟨sumHex fl.content, fl.content.length, fl.mimePtr i, fl.finalPath storage, 0, 0⟩
      st.db rfl rfl
    have hcases := InsertBlob_zero_cases sch ⟨false, fl.now i, fl.fileID i⟩
      ⟨sumHex fl.content, fl.content.length, fl.mimePtr i, fl.finalPath storage, 0, 0⟩
      st.db rfl
    have hfiles : (InsertBlob sch ⟨false, fl.now i, fl.fileID i⟩
        ⟨sumHex fl.content, fl.content.length, fl.mimePtr i, fl.finalPath storage, 0, 0⟩
        st.db).1.files = st.db.files := by
      rcases hcases with h | ⟨_, h⟩ <;> rw [h]
    refine FlightInv_late_step storage fl st i 6 st.fs _
      hnames hinv hi hk (by omega) (by omega) (fun q _ => rfl) htmp ?_ ?_ ?_
    · rcases hinv.blobs with ⟨hb, hall⟩ | ⟨m, t, hb⟩
      · rcases hcases with h | ⟨_, h⟩
        · rw [h, hb] at hrow
          obtain ⟨x, hx, _⟩ := hrow
          cases hx
        · refine Or.inr ⟨fl.mimePtr i, fl.now i, ?_⟩
          have h0 : countPc (fun k => k == 9) (Function.update st.pc i 7) fl.n = 0 := by
            rw [hp9]
            apply countPc_none
            intro j hj
            have := hall j hj
            simp only [beq_eq_false_iff_ne, ne_eq]
            omega
          rw [h, hb, h0]
          rfl
      · rcases hcases with h | ⟨hnone, _⟩
        · exact Or.inr ⟨m, t, by rw [h, hp9]; exact hb⟩
        · exact absurd rfl (hnone ⟨sumHex fl.content, fl.content.length, m,
            fl.finalPath storage, countPc (fun k => k == 9) st.pc fl.n, t⟩
            (by rw [hb]; exact List.mem_singleton_self _))
    · rw [hfiles, hp8]; exact hinv.files_len
    · intro f hf
      rw [hfiles] at hf
      obtain ⟨j, hj, hpc, hid⟩ := hinv.files_ids f hf
      refine ⟨j, hj, ?_, hid⟩
      by_cases hji : j = i
      · subst hji; rw [hk] at hpc; omega
      · simp only [Function.update_noteq hji]; exact hpc
  · -- CreateFile
    have hrow1 : ∃ m t, st.db.blobs = [⟨sumHex fl.content, fl.content.length, m,
        fl.finalPath storage, countPc (fun k => k == 9) st.pc fl.n, t⟩] := by
      rcases hinv.blobs with ⟨_, hall⟩ | h
      · have := hall i hi
        omega
      · exact h
    obtain ⟨m, t, hb⟩ := hrow1
    have hfresh : ∀ x ∈ st.db.files, x.ID ≠ fl.fileID i := by
      intro x hx hxid
      obtain ⟨j, hj, hpc, hid⟩ := hinv.files_ids x hx
      have hji : j = i := hids j i hj hi (hid.symm.trans hxid)
      subst hji
      omega
    have hok := CreateFile_ok sch ⟨false, fl.now i, fl.fileID i⟩
      ⟨"", fl.userID i, sumHex fl.content, fl.filename i, fl.content.length, fl.mimePtr i,
        false, [], 0⟩ st.db rfl hfresh
      ⟨_, by rw [hb]; exact List.mem_singleton_self _, rfl⟩
    rw [hok]
    have hp9 : countPc (fun k => k == 9) (Function.update st.pc i 8) fl.n =
        countPc (fun k => k == 9) st.pc fl.n := by
      apply countPc_update_same; rw [hk]; rfl
    have hp8 : countPc (fun k => decide (8 ≤ k)) (Function.update st.pc i 8) fl.n =
        countPc (fun k => decide (8 ≤ k)) st.pc fl.n + 1 := by
      apply countPc_update_gain _ _ _ _ _ hi
      · rw [hk]; rfl
      · rfl
    refine FlightInv_late_step storage fl st i 7 st.fs _
      hnames hinv hi hk (by omega) (by omega) (fun q _ => rfl) htmp ?_ ?_ ?_
    · exact Or.inr ⟨m, t, by rw [hp9]; exact hb⟩
    · simp only [List.length_append, List.length_singleton]
      rw [hp8, hinv.files_len]
    · intro f hf
      rcases List.mem_append.mp hf with hf | hf
      · obtain ⟨j, hj, hpc, hid⟩ := hinv.files_ids f hf
        refine ⟨j, hj, ?_, hid⟩
        by_cases hji : j = i
        · subst hji; omega
        · simp only [Function.update_noteq hji]; exact hpc
      · simp only [List.mem_singleton] at hf
        subst hf
        exact ⟨i, hi, by simp only [Function.update_same]; omega, rfl⟩
  · -- IncBlobRef
    have hrow1 : ∃ m t, st.db.blobs = [⟨sumHex fl.content, fl.content.length, m,
        fl.finalPath storage, countPc (fun k => k == 9) st.pc fl.n, t⟩] := by
      rcases hinv.blobs with ⟨_, hall⟩ | h
      · have := hall i hi
        omega
      · exact h
    obtain ⟨m, t, hb⟩ := hrow1
    have hup := updateRefCount_ok sch ⟨false, fl.now i, fl.fileID i⟩ (sumHex fl.content) 1
      st.db rfl
      (by
        intro b hbm _
        rw [hb] at hbm
        simp only [List.mem_singleton] at hbm
        subst hbm
        show (0 : Int) ≤ ((countPc (fun k => k == 9) st.pc fl.n : Nat) : Int) + 1
        omega)
    have hp9 : countPc (fun k => k == 9) (Function.update st.pc i 9) fl.n =
        countPc (fun k => k == 9) st.pc fl.n + 1 := by
      apply countPc_update_gain _ _ _ _ _ hi
      · rw [hk]; rfl
      · rfl
    have hp8 : countPc (fun k => decide (8 ≤ k)) (Function.update st.pc i 9) fl.n =
        countPc (fun k => decide (8 ≤ k)) st.pc fl.n := by
      apply countPc_update_same; rw [hk]; rfl
    unfold IncBlobRef
    rw [hup]
    refine FlightInv_late_step storage fl st i 8 st.fs _
      hnames hinv hi hk (by omega) (by omega) (fun q _ => rfl) htmp ?_ ?_ ?_
    · refine Or.inr ⟨m, t, ?_⟩
      rw [hp9, hb]
      simp [bump]
    · rw [hp8]; exact hinv.files_len
    · intro f hf
      obtain ⟨j, hj, hpc, hid⟩ := hinv.files_ids f hf
      refine ⟨j, hj, ?_, hid⟩
      by_cases hji : j = i
      · subst hji; simp only [Function.update_same]; omega
      · simp only [Function.update_noteq hji]; exact hpc
  · exact hinv

/-- An upload whose nine calls run with no call of another upload in between does what
`uploadFile` does in one piece. -/
theorem advance_nine_is_uploadFile (sch : Schema) (storage : Service) (fl : Flights) (i : Nat)
    (st : Flight) (declaredMIME : String) (hi : i < fl.n) (h0 : st.pc i = 0)
    (htmp : st.fs (fl.tmp storage i) = none)
    (hmime : ¬ (declaredMIME ≠ "" ∧ ¬ declaredMIME.data.contains '/'))
    (hptr : fl.mimePtr i = if declaredMIME ≠ "" then some declaredMIME else none) :
    ((List.replicate 9 i).foldl (fun s j => advance sch storage fl j s) st).fs =
      (uploadFile sch storage (fl.userID i) declaredMIME ⟨fl.filename i, ⟨[fl.content], false⟩, false⟩
        ⟨calm (fl.tmpName i), ⟨false, fl.now i, fl.fileID i⟩, ⟨false, fl.now i, fl.fileID i⟩,
          ⟨false, fl.now i, fl.fileID i⟩⟩ ⟨st.fs, st.db⟩).1.fs ∧
    ((List.replicate 9 i).foldl (fun s j => advance sch storage fl j s) st).db =
      (uploadFile sch storage (fl.userID i) declaredMIME ⟨fl.filename i, ⟨[fl.content], false⟩, false⟩
        ⟨calm (fl.tmpName i), ⟨false, fl.now i, fl.fileID i⟩, ⟨false, fl.now i, fl.fileID i⟩,
          ⟨false, fl.now i, fl.fileID i⟩⟩ ⟨st.fs, st.db⟩).1.db := by
  have hne : fl.finalPath storage ≠ fl.tmp storage i :=
    fun h => Flights.tmp_ne_final storage fl i h.symm
  have htp : tmpPath storage (calm (fl.tmpName i)) = fl.tmp storage i := rfl
  obtain ⟨x, hx⟩ := WriteAndHash_total storage (calm (fl.tmpName i)) ⟨[fl.content], false⟩ st.fs
    rfl rfl htmp rfl rfl rfl
  obtain ⟨_, _, hsum, hpath, hw, hfs⟩ :=
    WriteAndHash_ok storage (calm (fl.tmpName i)) ⟨[fl.content], false⟩ st.fs _ x
      (Prod.ext rfl hx)
  have hbytes : (⟨[fl.content], false⟩ : Reader).bytes = fl.content := by
    simp [Reader.bytes]
  rw [hbytes] at hsum hw hfs
  have hW : WriteAndHash storage (calm (fl.tmpName i)) ⟨[fl.content], false⟩ st.fs =
      (fun q => if q = x.finalPath then some ((st.fs x.finalPath).getD fl.content)
        else st.fs q, .ok x) := Prod.ext hfs hx
  have hxfin : x.finalPath = fl.finalPath storage := by
    rw [hpath, hsum]
    simp [Flights.finalPath]
  unfold uploadFile
  rw [if_neg hmime, hW]
  simp only [List.replicate, List.foldl]
  obtain ⟨fs, db, pc, ex⟩ := st
  simp only at h0 htmp hW hfs hx ⊢
  have a1 : advance sch storage fl i ⟨fs, db, pc, ex⟩ =
      ⟨fs.write (fl.tmp storage i) [], db, Function.update pc i 1, ex⟩ := by
    simp [advance, hi, h0, htmp]
  have a2 : ∀ f d e, advance sch storage fl i ⟨f, d, Function.update pc i 1, e⟩ =
      ⟨f.write (fl.tmp storage i) fl.content, d, Function.update pc i 2, e⟩ := by
    intro f d e
    simp [advance, hi]
  have a3 : ∀ f d e, advance sch storage fl i ⟨f, d, Function.update pc i 2, e⟩ =
      ⟨f, d, Function.update pc i 3, e⟩ := by
    intro f d e
    simp [advance, hi]
  have a4 : ∀ f d e, advance sch storage fl i ⟨f, d, Function.update pc i 3, e⟩ =
      ⟨f, d, Function.update pc i 4,
        Function.update e i (f (fl.finalPath storage)).isSome⟩ := by
    intro f d e
    simp [advance, hi]
  have a5 : ∀ f d e, advance sch storage fl i ⟨f, d, Function.update pc i 4, e⟩ =
      ⟨if e i then f else (f.remove (fl.tmp storage i)).write (fl.finalPath storage)
          ((f (fl.tmp storage i)).getD []), d, Function.update pc i 5, e⟩ := by
    intro f d e
    cases he : e i <;> simp [advance, hi, he]
  have a6 : ∀ f d e, advance sch storage fl i ⟨f, d, Function.update pc i 5, e⟩ =
      ⟨f.remove (fl.tmp storage i), d, Function.update pc i 6, e⟩ := by
    intro f d e
    simp [advance, hi]
  have a7 : ∀ f d e, advance sch storage fl i ⟨f, d, Function.update pc i 6, e⟩ =
      ⟨f, (InsertBlob sch ⟨false, fl.now i, fl.fileID i⟩
        ⟨sumHex fl.content, fl.content.length, fl.mimePtr i, fl.finalPath storage, 0, 0⟩ d).1,
        Function.update pc i 7, e⟩ := by
    intro f d e
    simp [advance, hi]
  have a8 : ∀ f d e, advance sch storage fl i ⟨f, d, Function.update pc i 7, e⟩ =
      match CreateFile sch ⟨false, fl.now i, fl.fileID i⟩ ⟨"", fl.userID i, sumHex fl.content,
          fl.filename i, fl.content.length, fl.mimePtr i, false, [], 0⟩ d with
      | (db2, .error _) => ⟨f, db2, Function.update pc i 10, e⟩
      | (db2, .ok _) => ⟨f, db2, Function.update pc i 8, e⟩ := by
    intro f d e
    simp only [advance, hi, if_true, Function.update_same, Function.update_idem]
  have a9 : ∀ f d e, advance sch storage fl i ⟨f, d, Function.update pc i 8, e⟩ =
      ⟨f, (IncBlobRef sch ⟨false, fl.now i, fl.fileID i⟩ (sumHex fl.content) 1 d).1,
        Function.update pc i 9, e⟩ := by
    intro f d e
    simp [advance, hi]
  have a10 : ∀ f d e, advance sch storage fl i ⟨f, d, Function.update pc i 10, e⟩ =
      ⟨f, d, Function.update pc i 10, e⟩ := by
    intro f d e
    simp [advance, hi]
  rw [a1, a2, a3, a4, a5, a6, a7, a8]
  clear hpath
  obtain ⟨xs, xp, xw⟩ := x
  simp only at hsum hw hxfin
  subst hsum hw hxfin
  simp only [hptr]
  generalize hcf : CreateFile sch ⟨false, fl.now i, fl.fileID i⟩ _ _ = res
  obtain ⟨db2, r⟩ := res
  have hne2 : fl.tmp storage i ≠ fl.finalPath storage := fun h => hne h.symm
  cases r <;> simp only [a9, a10] <;> refine ⟨?_, by first | rfl | trivial⟩ <;>
  · funext q
    by_cases hq1 : q = fl.tmp storage i
    · rw [hq1]
      cases hfin : fs (fl.finalPath storage) <;>
        simp [FS.write, FS.remove, hne, hne2, htmp, hfin]
    · by_cases hq2 : q = fl.finalPath storage
      · rw [hq2]
        cases hfin : fs (fl.finalPath storage) <;> simp [FS.write, FS.remove, hne, hfin]
      · cases hfin : fs (fl.finalPath storage) <;>
          simp [FS.write, FS.remove, hq1, hq2, hfin, hne]

/-- Each call of an upload moves that upload one call further, up to its ninth, and no other
upload. -/
theorem advance_pc (sch : Schema) (storage : Service) (fl : Flights) (st : Flight) (i : Nat)
    (hids : ∀ a b, a < fl.n → b < fl.n → fl.fileID a = fl.fileID b → a = b)
    (hinv : FlightInv storage fl st) (hi : i < fl.n) :
    (advance sch storage fl i st).pc = Function.update st.pc i (min 9 (st.pc i + 1)) := by
  unfold advance
  rw [if_pos hi]
  have h9 := hinv.pc_le i hi
  have htmp := hinv.fs_tmp i hi
  generalize hk : st.pc i = k at h9 htmp
  interval_cases k
  · simp only [tmpContent] at htmp
    simp only [htmp, Option.isSome_none, Bool.false_eq_true, if_false]
    rfl
  · rfl
  · rfl
  · rfl
  · cases hex : st.existed i <;> simp
  · rfl
  · rfl
  · have hrow1 : ∃ m t, st.db.blobs = [⟨sumHex fl.content, fl.content.length, m,
        fl.finalPath storage, countPc (fun k => k == 9) st.pc fl.n, t⟩] := by
      rcases hinv.blobs with ⟨_, hall⟩ | h
      · have := hall i hi
        omega
      · exact h
    obtain ⟨m, t, hb⟩ := hrow1
    have hfresh : ∀ x ∈ st.db.files, x.ID ≠ fl.fileID i := by
      intro x hx hxid
      obtain ⟨j, hj, hpc, hid⟩ := hinv.files_ids x hx
      have hji : j = i := hids j i hj hi (hid.symm.trans hxid)
      subst hji
      omega
    have hok := CreateFile_ok sch ⟨false, fl.now i, fl.fileID i⟩
      ⟨"", fl.userID i, sumHex fl.content, fl.filename i, fl.content.length, fl.mimePtr i,
        false, [], 0⟩ st.db rfl hfresh
      ⟨⟨sumHex fl.content, fl.content.length, m,
        fl.finalPath storage, countPc (fun k => k == 9) st.pc fl.n, t⟩,
        by rw [hb]; exact List.mem_singleton_self _, rfl⟩
    rw [hok]
    rfl
  · rfl
  · show st.pc = Function.update st.pc i 9
    rw [← hk]
    exact (Function.update_eq_self i st.pc).symm

/-- Before any call nothing is stored and nothing is recorded. -/
theorem FlightInv_start (storage : Service) (fl : Flights) :
    FlightInv storage fl Flight.start := by
  refine ⟨?_, ?_, ?_, ?_, ?_, ?_, ?_, ?_, ?_⟩
  · intro j _; exact Nat.zero_le 9
  · intro p _ _; rfl
  · exact Or.inl rfl
  · intro j _; rfl
  · intro j _ h; cases h
  · intro j _ h; exact absurd h (by show ¬ 5 ≤ 0; decide)
  · exact Or.inl ⟨rfl, fun j _ => Nat.zero_le 6⟩
  · exact (countPc_none _ _ _ (fun j _ => rfl)).symm
  · intro f hf; cases hf

/-- Any sequence of calls keeps the invariant and gives every upload as many calls as the
schedule names it, up to nine. -/
theorem FlightInv_schedule (sch : Schema) (storage : Service) (fl : Flights)
    (hnames : ∀ a b, a < fl.n → b < fl.n → fl.tmpName a = fl.tmpName b → a = b)
    (hids : ∀ a b, a < fl.n → b < fl.n → fl.fileID a = fl.fileID b → a = b)
    (schedule : List Nat) :
    ∀ st : Flight, FlightInv storage fl st →
      FlightInv storage fl (schedule.foldl (fun st i => advance sch storage fl i st) st) ∧
      ∀ i < fl.n, (schedule.foldl (fun st i => advance sch storage fl i st) st).pc i =
        min 9 (st.pc i + schedule.count i) := by
  induction schedule with
  | nil =>
    intro st hinv
    refine ⟨hinv, fun i hi => ?_⟩
    have := hinv.pc_le i hi
    simp only [List.foldl_nil, List.count_nil, Nat.add_zero]
    omega
  | cons a rest ih =>
    intro st hinv
    have hstep := FlightInv_advance sch storage fl st a hnames hids hinv
    obtain ⟨h1, h2⟩ := ih (advance sch storage fl a st) hstep
    refine ⟨h1, fun i hi => ?_⟩
    rw [List.foldl_cons, h2 i hi, List.count_cons]
    by_cases ha : a < fl.n
    · rw [advance_pc sch storage fl st a hids hinv ha]
      by_cases hai : a = i
      · subst hai
        simp only [Function.update_same, beq_self_eq_true, if_true]
        omega
      · have hia : i ≠ a := fun h => hai h.symm
        simp only [Function.update_noteq hia, beq_iff_eq, hai, if_false, Nat.add_zero]
    · have hai : a ≠ i := fun h => ha (h ▸ hi)
      have hsame : advance sch storage fl a st = st := by
        unfold advance
        rw [if_neg ha]
      rw [hsame]
      simp only [beq_iff_eq, hai, if_false, Nat.add_zero]

/-- C15: take `n ≥ 1` uploads of the same bytes that run at the same time on an empty store,
each call to the operating system and each SQL statement being one atomic step and none of
them failing, with temporary names and file ids that differ between uploads. For every order
of the steps in which each upload gets its nine calls, the file system afterwards holds one
file only, at the path of the digest and with exactly the uploaded bytes, the ledger holds one
row for the digest whose reference count is `n`, and `n` file rows were created. -/
theorem concurrent_uploads_count_every_reference (sch : Schema) (storage : Service)
    (fl : Flights) (schedule : List Nat)
    (hn : 1 ≤ fl.n)
    (hnames : ∀ a b, a < fl.n → b < fl.n → fl.tmpName a = fl.tmpName b → a = b)
    (hids : ∀ a b, a < fl.n → b < fl.n → fl.fileID a = fl.fileID b → a = b)
    (hall : ∀ i < fl.n, 9 ≤ schedule.count i) :
    (interleave sch storage fl schedule).fs (fl.finalPath storage) = some fl.content ∧
    (∀ p, p ≠ fl.finalPath storage → (interleave sch storage fl schedule).fs p = none) ∧
    (∃ m t, (interleave sch storage fl schedule).db.blobs =
      [⟨sumHex fl.content, fl.content.length, m, fl.finalPath storage, fl.n, t⟩]) ∧
    (interleave sch storage fl schedule).db.files.length = fl.n := by
  have hboth : FlightInv storage fl (interleave sch storage fl schedule) ∧
      ∀ i < fl.n, (interleave sch storage fl schedule).pc i = min 9 (0 + schedule.count i) :=
    FlightInv_schedule sch storage fl hnames hids schedule Flight.start
      (FlightInv_start storage fl)
  obtain ⟨hinv, hpc⟩ := hboth
  have hdone : ∀ i < fl.n, (interleave sch storage fl schedule).pc i = 9 := by
    intro i hi
    have h1 := hpc i hi
    have h2 := hall i hi
    rw [h1]
    omega
  have hc9 : countPc (fun k => k == 9) (interleave sch storage fl schedule).pc fl.n = fl.n :=
    countPc_all _ _ _ (fun j hj => by rw [hdone j hj]; rfl)
  have hc8 : countPc (fun k => decide (8 ≤ k)) (interleave sch storage fl schedule).pc fl.n
      = fl.n :=
    countPc_all _ _ _ (fun j hj => by rw [hdone j hj]; rfl)
  refine ⟨?_, ?_, ?_, ?_⟩
  · exact hinv.stored 0 (by omega) (by rw [hdone 0 (by omega)]; decide)
  · intro p hp
    by_cases hq : ∀ j < fl.n, p ≠ fl.tmp storage j
    · exact hinv.fs_other p hp hq
    · push_neg at hq
      obtain ⟨j, hj, hpj⟩ := hq
      rw [hpj, hinv.fs_tmp j hj, hdone j hj]
      rfl
  · rcases hinv.blobs with ⟨_, hle⟩ | ⟨m, t, hb⟩
    · have h0 := hle 0 (by omega)
      rw [hdone 0 (by omega)] at h0
      omega
    · exact ⟨m, t, by rw [hb, hc9]⟩
  · rw [hinv.files_len, hc8]

set_option maxRecDepth 100000 in
theorem concurrent_uploads_count_every_reference_witness :
    (1 ≤ twoHellos.n ∧ ∀ i < twoHellos.n, 9 ≤ racingSchedule.count i) ∧
    (interleave ⟨true, true⟩ dataRoot twoHellos racingSchedule).fs
      (twoHellos.finalPath dataRoot) = some twoHellos.content ∧
    (∀ p, p ≠ twoHellos.finalPath dataRoot →
      (interleave ⟨true, true⟩ dataRoot twoHellos racingSchedule).fs p = none) ∧
    (∃ m t, (interleave ⟨true, true⟩ dataRoot twoHellos racingSchedule).db.blobs =
      [⟨sumHex twoHellos.content, twoHellos.content.length, m, twoHellos.finalPath dataRoot,
        twoHellos.n, t⟩]) ∧
    (interleave ⟨true, true⟩ dataRoot twoHellos racingSchedule).db.files.length =
      twoHellos.n :=
  ⟨⟨by decide, by decide⟩,
    concurrent_uploads_count_every_reference ⟨true, true⟩ dataRoot twoHellos racingSchedule
      (by decide)
      (by
        intro a b ha hb h
        have ha2 : a < 2 := ha
        have hb2 : b < 2 := hb
        interval_cases a <;> interval_cases b <;> first | rfl | exact absurd h (by decide))
      (by
        intro a b ha hb h
        have ha2 : a < 2 := ha
        have hb2 : b < 2 := hb
        interval_cases a <;> interval_cases b <;> first | rfl | exact absurd h (by decide))
      (by decide)⟩

end FileVault
